import Mathlib

/-!
# LLFileSystem (indra/llfilesystem/llfilesystem.cpp)

A shallow embedding of the disk-cache file handle `LLFileSystem` and of the
C library / filesystem calls it makes, followed by theorems about it.

* Machine integers: `S32` values are `Int`; every assignment that narrows to
  `S32` in the source goes through `wrapS32`, every `S32 -> size_t`
  conversion through `toSizeT`.  `std::time_t` values are `Int`.
* The filesystem is a finite-map-like function from paths to nodes: the
  files as they are on disk, which is what `stat` and the other calls that
  take a path see.  The stdio stream of an open handle is attached to the
  file at `mFilePath` (the handle closes its stream before the path
  changes), so a stream records whether it was opened for append, its
  position, and the bytes written to it that are still in its buffer; they
  reach the file when the stream is flushed, by `fseek` or `fclose`.
* What the operating system and the C library decide at a call (the clock,
  how many bytes the stream's buffer and the volume still take, whether a
  time write is accepted) is the `Os` argument of that call.
-/

namespace Alchemy

/-! ## Machine integers -/

/-- Narrowing of an integer to a signed 32-bit value (two's complement):
`(x + 2^31) mod 2^32 - 2^31`, see `wrapS32_eq`.  It is written by cases on
the sign so that it computes on numerals and stays put on variables. -/
def wrapS32 (x : Int) : Int :=
  match x with
  | Int.ofNat n =>
    if n % 4294967296 < 2147483648 then Int.ofNat (n % 4294967296)
    else Int.negSucc (4294967295 - n % 4294967296)
  | Int.negSucc n =>
    if n % 4294967296 < 2147483648 then Int.negSucc (n % 4294967296)
    else Int.ofNat (4294967295 - n % 4294967296)

/-- The range of `S32`. -/
def inS32 (x : Int) : Prop := -2147483648 ≤ x ∧ x < 2147483648

instance (x : Int) : Decidable (inS32 x) := by unfold inS32; infer_instance

/-- Conversion of an `S32` to `size_t` (64-bit unsigned). -/
def toSizeT (x : Int) : Nat := (x % 18446744073709551616).toNat

/-! ## The filesystem the handle talks to -/

abbrev U8 := Fin 256
abbrev Path := String
abbrev LLUUID := Nat
abbrev EType := Int

/-- A directory entry as it is on disk: a regular file with its bytes and
modification time, or a directory. -/
inductive Node where
  | file (data : List U8) (mtime : Int)
  | dir (mtime : Int)
deriving DecidableEq, Repr

abbrev FS := Path → Option Node

/-- The filesystem with the entry at `p` replaced. -/
def FS.set (fs : FS) (p : Path) (n : Option Node) : FS :=
  fun q => if q = p then n else fs q

/-- What the operating system and the C library decide at one call: the clock
(`std::time(nullptr)`, also the time stamped on files the call modifies), the
number of bytes the volume takes when `fwrite` hands its bytes to it, whether
`ftell` right after `fopen(.., "a+b")` reports the end of the file, the number
of bytes the stream's buffer still takes (an `fwrite` of no more than that
only fills the buffer), and whether a write of a modification time is
accepted. -/
structure Os where
  now : Int
  room : Nat
  appendAtEnd : Bool
  bufferRoom : Nat
  touchOk : Bool
deriving DecidableEq, Repr

/-- The fields of `struct stat` the source reads. -/
structure Stat where
  isReg : Bool
  size : Nat
deriving DecidableEq, Repr

/-- Modelled from the spec: the wrapper `LLFile::stat(path, &stat)` of llfile.cpp,
which is not among the sources, as the stat call of the filesystem interface
(a thin wrapper of the C library call); `none` is a non-zero return.  It sees
the file as it is on disk. -/
def stat (fs : FS) (p : Path) : Option Stat :=
  match fs p with
  | some (Node.file d _) => some ⟨true, d.length⟩
  | some (Node.dir _) => some ⟨false, 0⟩
  | none => none

/-- The bytes on disk of the regular file at `p`, if there is one. -/
def contents (fs : FS) (p : Path) : Option (List U8) :=
  match fs p with
  | some (Node.file d _) => some d
  | _ => none

/-- The call `boost::filesystem::last_write_time(path, ec)`: `none` is
`ec.failed()`. -/
def lastWriteTime (fs : FS) (p : Path) : Option Int :=
  match fs p with
  | some (Node.file _ m) => some m
  | some (Node.dir m) => some m
  | none => none

/-- The call `boost::filesystem::last_write_time(path, t, ec)`: `none` is
`ec.failed()`, which happens when the path is absent or the operating system
does not accept the write. -/
def setLastWriteTime (os : Os) (fs : FS) (p : Path) (t : Int) : Option FS :=
  if os.touchOk then
    match fs p with
    | some (Node.file d _) => some (fs.set p (some (Node.file d t)))
    | some (Node.dir _) => some (fs.set p (some (Node.dir t)))
    | none => none
  else none

/-- The open stdio stream held by `mFile`: whether it was opened for append,
the position `ftell` reports, and the bytes `fwrite` has put into the stream's
buffer that are not yet in the file (they end at `pos`). -/
structure Stream where
  append : Bool
  pos : Nat
  pending : List U8
deriving DecidableEq, Repr

/-- The mode strings `open()` passes to `LLFile::fopen`. -/
inductive FMode where
  | rb | wb | rPlusB | aPlusB | wbPlus
deriving DecidableEq, Repr

/-- Modelled from the spec: the wrapper `LLFile::fopen(path, mode)` of llfile.cpp,
which is not among the sources, as the C library `fopen` with the five mode
strings `open()` uses; `none` is a null stream.  A new stream has an empty
buffer. -/
def fopen (os : Os) (fs : FS) (p : Path) : FMode → Option Stream × FS
  | FMode.rb | FMode.rPlusB =>
    match fs p with
    | some (Node.file _ _) => (some ⟨false, 0, []⟩, fs)
    | _ => (none, fs)
  | FMode.wb | FMode.wbPlus =>
    match fs p with
    | some (Node.dir _) => (none, fs)
    | _ => (some ⟨false, 0, []⟩, fs.set p (some (Node.file [] os.now)))
  | FMode.aPlusB =>
    match fs p with
    | some (Node.dir _) => (none, fs)
    | some (Node.file d _) => (some ⟨true, if os.appendAtEnd then d.length else 0, []⟩, fs)
    | none => (some ⟨true, 0, []⟩, fs.set p (some (Node.file [] os.now)))

/-- The bytes of a file after `w` is written at offset `start`: a write past
the end fills the gap with zero bytes. -/
def splice (d : List U8) (start : Nat) (w : List U8) : List U8 :=
  d.take start ++ List.replicate (start - d.length) 0 ++ w ++ d.drop (start + w.length)

/-- The flush of a stream's buffer (`fflush`, and what `fseek` and `fclose` do
first): the buffered bytes go to the file, at the end of the file for an append
stream and where they were written otherwise, and the buffer is empty
afterwards.  With an empty buffer nothing happens.  The volume is taken to
have room for the bytes of the buffer: a flush that fails is not modelled
(`os.room` bounds what an `fwrite` hands to the volume itself). -/
def fflush (os : Os) (fs : FS) (p : Path) (st : Stream) : Stream × FS :=
  if st.pending = [] then (st, fs)
  else
    match fs p with
    | some (Node.file d _) =>
      ({ st with pending := [] },
        fs.set p (some (Node.file
          (splice d (if st.append then d.length else st.pos - st.pending.length) st.pending)
          os.now)))
    | _ => ({ st with pending := [] }, fs)

/-- The call `fseek(stream, offset, SEEK_SET)`: whether it returned 0, the
stream and the filesystem afterwards.  It flushes the buffer first and fails on
a negative offset. -/
def fseek (os : Os) (fs : FS) (p : Path) (st : Stream) (offset : Int) :
    Bool × Stream × FS :=
  let f := fflush os fs p st
  if offset < 0 then (false, f.1, f.2) else (true, { f.1 with pos := offset.toNat }, f.2)

/-- The call `ftell(stream)`. -/
def ftell (st : Stream) : Int := (st.pos : Int)

/-- The call `fread(buffer, 1, n, stream)`: the bytes transferred from the
file and the stream afterwards. -/
def fread (fs : FS) (p : Path) (st : Stream) (n : Nat) : List U8 × Stream :=
  match fs p with
  | some (Node.file d _) =>
    let got := (d.drop st.pos).take n
    (got, { st with pos := st.pos + got.length })
  | _ => ([], st)

/-- The call `fwrite(src, 1, src.length, stream)`: the number of bytes
transferred, the stream and the filesystem afterwards.  A call with no bytes
does nothing.  Bytes the stream's buffer still takes (`os.bufferRoom`) only go
to the buffer, the file on disk is as it was and the count is full.  Otherwise
the buffer is flushed and the bytes are handed to the volume, which takes
`os.room` of them.  An append stream writes at the end of the file.  Bytes
written to a file that is no longer at the path are taken and reach no path. -/
def fwrite (os : Os) (fs : FS) (p : Path) (st : Stream) (src : List U8) :
    Nat × Stream × FS :=
  if src = [] then (0, st, fs)
  else if src.length ≤ os.bufferRoom then
    (src.length,
      { st with
        pos := (if st.append then
            (match fs p with
              | some (Node.file d _) => d.length
              | _ => 0) + st.pending.length
          else st.pos) + src.length,
        pending := st.pending ++ src },
      fs)
  else
    let f := fflush os fs p st
    match f.2 p with
    | some (Node.file d _) =>
      let w := src.take os.room
      if w = [] then (0, f.1, f.2)
      else
        let start := if st.append then d.length else st.pos
        (w.length, { f.1 with pos := start + w.length },
          f.2.set p (some (Node.file (splice d start w) os.now)))
    | _ =>
      ((src.take os.room).length,
        { f.1 with pos := (if st.append then 0 else st.pos) + (src.take os.room).length }, f.2)

/-- Modelled from the spec: the wrapper `LLFile::remove(path, ENOENT)` of
llfile.cpp, which is not among the sources: it deletes the file at the path
and treats an absent file as no error. -/
def removePath (fs : FS) (p : Path) : FS :=
  match fs p with
  | some (Node.file _ _) => fs.set p none
  | _ => fs

/-- Modelled from the spec: the wrapper `LLFile::rename(from, to)` of llfile.cpp,
which is not among the sources: the move needs the source to exist and the
destination to be clear; `none` is a non-zero return. -/
def renamePath (fs : FS) (src dst : Path) : Option FS :=
  match fs src, fs dst with
  | some n, none => some ((fs.set src none).set dst (some n))
  | _, _ => none

/-! ## The handle -/

/-- Modelled from the spec: the mode constant `READ` declared in llfilesystem.h,
a header that is not among the sources; its value is 1. -/
def READ : Int := 1

/-- Modelled from the spec: the mode constant `WRITE` declared in llfilesystem.h,
a header that is not among the sources; its value is 2. -/
def WRITE : Int := 2

/-- Modelled from the spec: the mode constant `READ_WRITE` declared in llfilesystem.h,
a header that is not among the sources; its value is 3. -/
def READ_WRITE : Int := 3

/-- Modelled from the spec: the mode constant `APPEND` declared in llfilesystem.h,
a header that is not among the sources; its value is 6. -/
def APPEND : Int := 6

/-- The data members of `LLFileSystem`. -/
structure LLFileSystem where
  mFileID : LLUUID
  mFileType : EType
  mFilePath : Path
  mPosition : Int
  mMode : Int
  mBytesRead : Int
  mFile : Option Stream
deriving DecidableEq, Repr

namespace LLFileSystem

/-- The constructor; `pathFor` stands for `LLDiskCache::metaDataToFilepath`, the
naming policy, which is not among the sources. -/
def construct (pathFor : LLUUID → EType → Path) (file_id : LLUUID)
    (file_type : EType) (mode : Int) : LLFileSystem :=
  { mFileID := file_id, mFileType := file_type, mPosition := 0, mMode := mode,
    mBytesRead := 0, mFilePath := pathFor file_id file_type, mFile := none }

/-- The method `open()`.  A stream the handle already holds is replaced as it
is: what the owner type of `mFile` (llfile.h, not among the sources) does with
it is not modelled. -/
def open_ (os : Os) (h : LLFileSystem) (fs : FS) : Bool × LLFileSystem × FS :=
  let r1 : Option Stream × FS :=
    if h.mMode = READ then fopen os fs h.mFilePath FMode.rb
    else if h.mMode = WRITE then fopen os fs h.mFilePath FMode.wb
    else if h.mMode = READ_WRITE then fopen os fs h.mFilePath FMode.rPlusB
    else if h.mMode = APPEND then fopen os fs h.mFilePath FMode.aPlusB
    else (h.mFile, fs)
  let r2 : Option Stream × FS :=
    if h.mMode = READ_WRITE ∧ r1.1 = none then fopen os r1.2 h.mFilePath FMode.wbPlus
    else r1
  match r2.1 with
  | some st => (true, { h with mFile := some st, mPosition := wrapS32 (ftell st) }, r2.2)
  | none => (false, { h with mFile := none }, r2.2)

/-- The method `close()`: the handle and the filesystem afterwards.  Closing
the stream flushes its buffer to the file. -/
def close (os : Os) (h : LLFileSystem) (fs : FS) : LLFileSystem × FS :=
  match h.mFile with
  | some st => ({ h with mFile := none }, (fflush os fs h.mFilePath st).2)
  | none => ({ h with mFile := none }, fs)

/-- The filesystem as the handle's stream sees it: the one `close()` would
leave, in which the bytes still in the stream's buffer are in the file.  With
no open stream, or an empty buffer, it is the filesystem itself. -/
def flushed (os : Os) (h : LLFileSystem) (fs : FS) : FS := (h.close os fs).2

/-- The method `getSize()`. -/
def getSize (h : LLFileSystem) (fs : FS) : Int :=
  match stat fs h.mFilePath with
  | some s => wrapS32 s.size
  | none => 0

/-- The method `updateFileAccessTime()`. -/
def updateFileAccessTime (os : Os) (h : LLFileSystem) (fs : FS) : FS :=
  let time_threshold : Int := 1 * 60 * 60
  let cur_time : Int := os.now
  match lastWriteTime fs h.mFilePath with
  | none => fs
  | some last_write_time =>
    let delta_time := cur_time - last_write_time
    if delta_time > time_threshold then
      match setLastWriteTime os fs h.mFilePath cur_time with
      | some fs1 => fs1
      | none => fs
    else fs

/-- The method `read(buffer, bytes)`: the return value, the handle, the
filesystem and the caller's buffer afterwards. -/
def read (os : Os) (h : LLFileSystem) (fs : FS) (buffer : List U8) (bytes : Int) :
    Bool × LLFileSystem × FS × List U8 :=
  match h.mFile with
  | none => (false, h, fs, buffer)
  | some st =>
    if Int.land h.mMode READ = 0 then (false, h, fs, buffer)
    else
      let k := fseek os fs h.mFilePath st h.mPosition
      let r : Bool × LLFileSystem × List U8 :=
        if k.1 then
          let t := fread k.2.2 h.mFilePath k.2.1 (toSizeT bytes)
          let mBytesRead := wrapS32 t.1.length
          (decide (mBytesRead ≠ 0),
            { h with mFile := some t.2, mBytesRead := mBytesRead,
                     mPosition := wrapS32 (ftell t.2) },
            t.1 ++ buffer.drop t.1.length)
        else (false, { h with mFile := some k.2.1 }, buffer)
      (r.1, r.2.1, updateFileAccessTime os r.2.1 k.2.2, r.2.2)

/-- The method `getLastBytesRead()`. -/
def getLastBytesRead (h : LLFileSystem) : Int := h.mBytesRead

/-- The method `eof()`. -/
def eof (h : LLFileSystem) (fs : FS) : Bool := decide (h.mPosition ≥ h.getSize fs)

/-- The guard of `write`: `!(mMode & WRITE) || !(mMode & APPEND)`. -/
def writeGuard (mMode : Int) : Bool :=
  decide (Int.land mMode WRITE = 0) || decide (Int.land mMode APPEND = 0)

/-- The method `write(buffer, bytes)`: the return value, the handle and the
filesystem afterwards. -/
def write (os : Os) (h : LLFileSystem) (fs : FS) (buffer : List U8) (bytes : Int) :
    Bool × LLFileSystem × FS :=
  match h.mFile with
  | none => (false, h, fs)
  | some st =>
    if writeGuard h.mMode then (false, h, fs)
    else
      let r : Bool × Stream × FS :=
        if h.mMode = READ_WRITE then
          let k := fseek os fs h.mFilePath st h.mPosition
          if k.1 then
            let t := fwrite os k.2.2 h.mFilePath k.2.1 (buffer.take (toSizeT bytes))
            (decide (t.1 = toSizeT bytes), t.2.1, t.2.2)
          else (false, k.2.1, k.2.2)
        else
          let t := fwrite os fs h.mFilePath st (buffer.take (toSizeT bytes))
          (decide (t.1 = toSizeT bytes), t.2.1, t.2.2)
      (r.1, { h with mFile := some r.2.1, mPosition := wrapS32 (ftell r.2.1) }, r.2.2)

/-- The method `seek(offset, origin)`. -/
def seek (h : LLFileSystem) (fs : FS) (offset origin : Int) : Bool × LLFileSystem :=
  let origin1 := if -1 = origin then h.mPosition else origin
  let new_pos := wrapS32 (origin1 + offset)
  let size := h.getSize fs
  if new_pos > size then (false, { h with mPosition := size })
  else if new_pos < 0 then (false, { h with mPosition := 0 })
  else (true, { h with mPosition := new_pos })

/-- The method `tell()`. -/
def tell (h : LLFileSystem) : Int := h.mPosition

/-- The method `getMaxSize()`. -/
def getMaxSize : Int := 52428800

/-- The method `rename(new_id, new_type)`. -/
def rename (pathFor : LLUUID → EType → Path) (os : Os) (h : LLFileSystem) (fs : FS)
    (new_id : LLUUID) (new_type : EType) : Bool × LLFileSystem × FS :=
  let c := h.close os fs
  let new_filename := pathFor new_id new_type
  let fs1 := removePath c.2 new_filename
  let fs2 := match renamePath fs1 c.1.mFilePath new_filename with
    | some fs2 => fs2
    | none => fs1
  (true, { c.1 with mFileID := new_id, mFileType := new_type, mFilePath := new_filename }, fs2)

/-- The method `remove()`. -/
def remove (os : Os) (h : LLFileSystem) (fs : FS) : Bool × LLFileSystem × FS :=
  let c := h.close os fs
  (true, c.1, removePath c.2 c.1.mFilePath)

/-- The method `exists()`. -/
def exists_ (h : LLFileSystem) (fs : FS) : Bool :=
  match stat fs h.mFilePath with
  | some s => s.isReg && decide (s.size > 0)
  | none => false

/-- The static `getExists(file_id, file_type)`. -/
def getExists (pathFor : LLUUID → EType → Path) (fs : FS) (file_id : LLUUID)
    (file_type : EType) : Bool :=
  (construct pathFor file_id file_type READ).exists_ fs

/-- The static `removeFile(file_id, file_type)`. -/
def removeFile (pathFor : LLUUID → EType → Path) (os : Os) (fs : FS) (file_id : LLUUID)
    (file_type : EType) : Bool × FS :=
  let r := (construct pathFor file_id file_type READ_WRITE).remove os fs
  (r.1, r.2.2)

/-- The static `renameFile(old_file_id, old_file_type, new_file_id, new_file_type)`. -/
def renameFile (pathFor : LLUUID → EType → Path) (os : Os) (fs : FS) (old_file_id : LLUUID)
    (old_file_type : EType) (new_file_id : LLUUID) (new_file_type : EType) : Bool × FS :=
  let r := (construct pathFor old_file_id old_file_type READ_WRITE).rename pathFor os fs
    new_file_id new_file_type
  (r.1, r.2.2)

end LLFileSystem

/-! ## Sequences of reads -/

/-- The times at which the calls of a sequence are made. -/
def callTimes (calls : List (Os × Int)) : List Int := calls.map (fun c => c.1.now)

/-- A sequence of `read` calls on one handle, each given by the environment
at the call and the byte count, each reading into the buffer the previous
one left.  The last component counts the calls during which the modification
time of the entry's file changed (a rewrite by the refresh always changes the
time: it happens only when the new time is more than an hour later). -/
def readSequence : List (Os × Int) → LLFileSystem → FS → List U8 →
    LLFileSystem × FS × List U8 × Nat
  | [], h, fs, buffer => (h, fs, buffer, 0)
  | c :: rest, h, fs, buffer =>
    let r := h.read c.1 fs buffer c.2
    let rewritten : Nat :=
      if lastWriteTime r.2.2.1 h.mFilePath = lastWriteTime fs h.mFilePath then 0 else 1
    let t := readSequence rest r.2.1 r.2.2.1 r.2.2.2
    (t.1, t.2.1, t.2.2.1, t.2.2.2 + rewritten)

/-! ## Sequences of calls -/

/-- One call of a public method on a handle, with its arguments and the
environment at the call. -/
inductive Call where
  | open_ (os : Os)
  | close (os : Os)
  | read (os : Os) (buffer : List U8) (bytes : Int)
  | write (os : Os) (buffer : List U8) (bytes : Int)
  | seek (offset origin : Int)
  | tell
  | getSize
  | eof
  | exists_
  | rename (os : Os) (new_id : LLUUID) (new_type : EType)
  | remove (os : Os)

/-- Whether the call is `rename`. -/
def Call.isRename : Call → Bool
  | Call.rename _ _ _ => true
  | _ => false

/-- The handle and the filesystem after one call; the methods that only
return a value (`tell`, `getSize`, `eof`, `exists`) leave both as they were. -/
def Call.run (pathFor : LLUUID → EType → Path) : Call → LLFileSystem × FS → LLFileSystem × FS
  | Call.open_ os, s => ((s.1.open_ os s.2).2.1, (s.1.open_ os s.2).2.2)
  | Call.close os, s => s.1.close os s.2
  | Call.read os buffer bytes, s =>
    ((s.1.read os s.2 buffer bytes).2.1, (s.1.read os s.2 buffer bytes).2.2.1)
  | Call.write os buffer bytes, s =>
    ((s.1.write os s.2 buffer bytes).2.1, (s.1.write os s.2 buffer bytes).2.2)
  | Call.seek offset origin, s => ((s.1.seek s.2 offset origin).2, s.2)
  | Call.tell, s => s
  | Call.getSize, s => s
  | Call.eof, s => s
  | Call.exists_, s => s
  | Call.rename os new_id new_type, s =>
    ((s.1.rename pathFor os s.2 new_id new_type).2.1,
      (s.1.rename pathFor os s.2 new_id new_type).2.2)
  | Call.remove os, s => ((s.1.remove os s.2).2.1, (s.1.remove os s.2).2.2)

/-- The handle and the filesystem after a sequence of calls. -/
def runCalls (pathFor : LLUUID → EType → Path) :
    List Call → LLFileSystem × FS → LLFileSystem × FS
  | [], s => s
  | c :: rest, s => runCalls pathFor rest (c.run pathFor s)

/-! ## Concrete entries used to instantiate the theorems -/

/-- A naming policy for the examples. -/
def demoPathFor : LLUUID → EType → Path :=
  fun file_id _ => if file_id = 1 then "cache/1" else "cache/other"

/-- A cache holding entry 1 with four bytes, last modified at time 0. -/
def demoFS : FS :=
  fun p => if p = "cache/1" then some (Node.file [10, 20, 30, 40] 0) else none

/-- An empty cache. -/
def emptyFS : FS := fun _ => none

/-- A handle for entry 1, not yet opened. -/
def demoHandle (mode : Int) : LLFileSystem := LLFileSystem.construct demoPathFor 1 0 mode

/-- The handle for entry 1 after a successful `fopen`, cursor at 0. -/
def demoOpen (mode : Int) : LLFileSystem :=
  { demoHandle mode with mFile := some ⟨false, 0, []⟩ }

/-- The 1024 bytes of the entry of scenarios A and B. -/
def scenarioData : List U8 := List.replicate 1024 7

/-- A cache holding entry 1 with the 1024 bytes of scenario A. -/
def scenarioFS : FS :=
  fun p => if p = "cache/1" then some (Node.file scenarioData 0) else none

/-- A cache holding entry 1 with four bytes and, at the path of every other
entry, a one-byte file. -/
def crowdedFS : FS :=
  fun p => if p = "cache/1" then some (Node.file [10, 20, 30, 40] 0)
    else if p = "cache/other" then some (Node.file [9] 5) else none

/-- An environment at time `now` in which the volume and the stream's buffer
take 4096 bytes and a write of the modification time is accepted. -/
def demoOs (now : Int) : Os := ⟨now, 4096, false, 4096, true⟩

/-- An environment at time `now` in which the stream's buffer takes no byte,
so that `fwrite` hands its bytes to the volume, which takes `room` of them. -/
def directOs (now : Int) (room : Nat) : Os := ⟨now, room, false, 0, true⟩

/-! ## Shared lemmas -/

/-- The narrowing is reduction modulo `2^32` into the signed range. -/
theorem wrapS32_eq (x : Int) :
    wrapS32 x = (x + 2147483648) % 4294967296 - 2147483648 := by
  unfold wrapS32
  cases x with
  | ofNat n =>
    simp only [Int.ofNat_eq_coe, Int.negSucc_eq]
    split <;> omega
  | negSucc n =>
    simp only [Int.ofNat_eq_coe, Int.negSucc_eq]
    split <;> omega

theorem wrapS32_of_inS32 {x : Int} (hx : inS32 x) : wrapS32 x = x := by
  unfold inS32 at hx
  rw [wrapS32_eq]
  omega

theorem inS32_wrapS32 (x : Int) : inS32 (wrapS32 x) := by
  unfold inS32
  rw [wrapS32_eq]
  omega

theorem wrapS32_zero : wrapS32 0 = 0 := by decide

theorem getSize_inS32 (h : LLFileSystem) (fs : FS) : inS32 (h.getSize fs) := by
  unfold LLFileSystem.getSize
  cases stat fs h.mFilePath with
  | none => simp [inS32]
  | some s => exact inS32_wrapS32 _

theorem FS.set_same (fs : FS) (p : Path) (n : Option Node) : (fs.set p n) p = n := by
  simp [FS.set]

theorem FS.set_other (fs : FS) (p q : Path) (n : Option Node) (hq : q ≠ p) :
    (fs.set p n) q = fs q := by
  simp [FS.set, hq]

/-- The refresh written as a case analysis on the node at the path. -/
theorem updateFileAccessTime_eq (os : Os) (h : LLFileSystem) (fs : FS) :
    h.updateFileAccessTime os fs =
      match fs h.mFilePath with
      | some (Node.file d m) =>
        if os.now - m > 3600 ∧ os.touchOk = true then
          fs.set h.mFilePath (some (Node.file d os.now)) else fs
      | some (Node.dir m) =>
        if os.now - m > 3600 ∧ os.touchOk = true then
          fs.set h.mFilePath (some (Node.dir os.now)) else fs
      | none => fs := by
  unfold LLFileSystem.updateFileAccessTime lastWriteTime setLastWriteTime
  cases hp : fs h.mFilePath with
  | none => simp
  | some nd =>
    cases nd with
    | file d m =>
      by_cases h1 : os.now - m > 3600 <;> by_cases h2 : os.touchOk = true <;> simp [h1, h2]
    | dir m =>
      by_cases h1 : os.now - m > 3600 <;> by_cases h2 : os.touchOk = true <;> simp [h1, h2]

theorem stat_updateFileAccessTime (os : Os) (h : LLFileSystem) (fs : FS) (q : Path) :
    stat (h.updateFileAccessTime os fs) q = stat fs q := by
  rw [updateFileAccessTime_eq]
  cases hp : fs h.mFilePath with
  | none => simp
  | some nd =>
    cases nd with
    | file d m =>
      simp only
      split
      · by_cases hq : q = h.mFilePath
        · subst hq; simp [stat, FS.set, hp]
        · simp [stat, FS.set, hq]
      · rfl
    | dir m =>
      simp only
      split
      · by_cases hq : q = h.mFilePath
        · subst hq; simp [stat, FS.set, hp]
        · simp [stat, FS.set, hq]
      · rfl

theorem contents_updateFileAccessTime (os : Os) (h : LLFileSystem) (fs : FS) (q : Path) :
    contents (h.updateFileAccessTime os fs) q = contents fs q := by
  rw [updateFileAccessTime_eq]
  cases hp : fs h.mFilePath with
  | none => simp
  | some nd =>
    cases nd with
    | file d m =>
      simp only
      split
      · by_cases hq : q = h.mFilePath
        · subst hq; simp [contents, FS.set, hp]
        · simp [contents, FS.set, hq]
      · rfl
    | dir m =>
      simp only
      split
      · by_cases hq : q = h.mFilePath
        · subst hq; simp [contents, FS.set, hp]
        · simp [contents, FS.set, hq]
      · rfl

/-- The refresh touches no other path. -/
theorem updateFileAccessTime_other (os : Os) (h : LLFileSystem) (fs : FS) (q : Path)
    (hq : q ≠ h.mFilePath) : h.updateFileAccessTime os fs q = fs q := by
  rw [updateFileAccessTime_eq]
  cases hp : fs h.mFilePath with
  | none => rfl
  | some nd =>
    cases nd with
    | file d m =>
      dsimp only
      split
      · exact FS.set_other _ _ _ _ hq
      · rfl
    | dir m =>
      dsimp only
      split
      · exact FS.set_other _ _ _ _ hq
      · rfl

/-- The modification time after the refresh. -/
theorem lastWriteTime_updateFileAccessTime (os : Os) (h : LLFileSystem) (fs : FS) :
    lastWriteTime (h.updateFileAccessTime os fs) h.mFilePath =
      match lastWriteTime fs h.mFilePath with
      | some m => if os.now - m > 3600 ∧ os.touchOk = true then some os.now else some m
      | none => none := by
  rw [updateFileAccessTime_eq]
  cases hp : fs h.mFilePath with
  | none => simp [lastWriteTime, hp]
  | some nd =>
    cases nd with
    | file d m =>
      by_cases hc : os.now - m > 3600 ∧ os.touchOk = true
      · simp [lastWriteTime, hp, hc, FS.set]
      · simp only [lastWriteTime, hp, if_neg hc]
    | dir m =>
      by_cases hc : os.now - m > 3600 ∧ os.touchOk = true
      · simp [lastWriteTime, hp, hc, FS.set]
      · simp only [lastWriteTime, hp, if_neg hc]

/-- The refresh reads only the path of the handle. -/
theorem updateFileAccessTime_congr (os : Os) (h h1 : LLFileSystem) (fs : FS)
    (hp : h1.mFilePath = h.mFilePath) :
    h1.updateFileAccessTime os fs = h.updateFileAccessTime os fs := by
  unfold LLFileSystem.updateFileAccessTime
  rw [hp]

theorem toSizeT_of_nonneg {n : Int} (h0 : 0 ≤ n) (hn : inS32 n) : toSizeT n = n.toNat := by
  unfold inS32 at hn
  unfold toSizeT
  congr 1
  omega

/-- The number of bytes a read of `n` at cursor `c` finds in `data`. -/
theorem length_take_drop (data : List U8) (c n : Nat) :
    ((data.drop c).take n).length = min n (data.length - c) := by
  simp [List.length_take, List.length_drop]

theorem getSize_of_file (h : LLFileSystem) (fs : FS) (data : List U8) (m : Int)
    (hfile : fs h.mFilePath = some (Node.file data m)) :
    h.getSize fs = wrapS32 data.length := by
  simp [LLFileSystem.getSize, stat, hfile]

/-- The size `getSize()` reports depends on the path and on what `stat` sees. -/
theorem getSize_congr (h h1 : LLFileSystem) (fs fs1 : FS)
    (hp : h1.mFilePath = h.mFilePath) (hs : stat fs1 h.mFilePath = stat fs h.mFilePath) :
    h1.getSize fs1 = h.getSize fs := by
  unfold LLFileSystem.getSize
  rw [hp, hs]

theorem getSize_updateFileAccessTime (os : Os) (h : LLFileSystem) (fs : FS) :
    h.getSize (h.updateFileAccessTime os fs) = h.getSize fs :=
  getSize_congr h h fs _ rfl (stat_updateFileAccessTime os h fs _)


/-- The refresh leaves the filesystem alone unless the modification time is
more than an hour old. -/
theorem updateFileAccessTime_keep (os : Os) (h : LLFileSystem) (fs : FS)
    (hk : ∀ m : Int, lastWriteTime fs h.mFilePath = some m → ¬ (os.now - m > 3600)) :
    h.updateFileAccessTime os fs = fs := by
  unfold LLFileSystem.updateFileAccessTime
  cases hm : lastWriteTime fs h.mFilePath with
  | none => rfl
  | some m =>
    dsimp only
    have hle : ¬ (os.now - m > 1 * 60 * 60) := by
      have := hk m hm
      omega
    rw [if_neg hle]

/-- The refresh leaves the filesystem alone when the operating system does
not accept the write of the time. -/
theorem updateFileAccessTime_refused (os : Os) (h : LLFileSystem) (fs : FS)
    (ht : os.touchOk = false) : h.updateFileAccessTime os fs = fs := by
  rw [updateFileAccessTime_eq]
  have hn : ∀ m : Int, ¬ (os.now - m > 3600 ∧ os.touchOk = true) := by
    intro m hh
    rw [ht] at hh
    exact Bool.noConfusion hh.2
  cases hp : fs h.mFilePath with
  | none => rfl
  | some nd =>
    cases nd with
    | file d m =>
      dsimp only
      rw [if_neg (hn m)]
    | dir m =>
      dsimp only
      rw [if_neg (hn m)]

/-- In a non-decreasing list every element lies between the first and the
last. -/
theorem sorted_bounds : ∀ (l : List Int) (a b : Int),
    List.Pairwise (fun x y : Int => x ≤ y) l → l.head? = some a → l.getLast? = some b →
    ∀ x ∈ l, a ≤ x ∧ x ≤ b := by
  intro l
  induction l with
  | nil => intro a b _ hh; simp at hh
  | cons y l ih =>
    intro a b hs hh hl x hx
    have hya : y = a := by simpa using hh
    subst hya
    rw [List.pairwise_cons] at hs
    cases l with
    | nil =>
      have hyb : y = b := by simpa using hl
      subst hyb
      have : x = y := by simpa using hx
      subst this
      exact ⟨le_refl _, le_refl _⟩
    | cons z l2 =>
      have hl2 : (z :: l2).getLast? = some b := by
        rw [List.getLast?_cons_cons] at hl
        exact hl
      have hbmem : b ∈ z :: l2 := List.mem_of_getLast?_eq_some hl2
      rcases List.mem_cons.mp hx with hxy | hxl
      · subst hxy
        exact ⟨le_refl _, hs.1 b hbmem⟩
      · have hrec := ih z b hs.2 rfl hl2 x hxl
        exact ⟨hs.1 x hxl, hrec.2⟩

/-- The call `LLFile::remove` leaves no regular file at the path. -/
theorem contents_removePath_same (fs : FS) (p : Path) : contents (removePath fs p) p = none := by
  unfold removePath contents
  cases hp : fs p with
  | none => simp [hp]
  | some nd =>
    cases nd with
    | file d m => simp [FS.set]
    | dir m => simp [hp]

/-- The call `LLFile::remove` touches no other path. -/
theorem removePath_other (fs : FS) (p q : Path) (hq : q ≠ p) : removePath fs p q = fs q := by
  unfold removePath
  cases hp : fs p with
  | none => rfl
  | some nd =>
    cases nd with
    | file d m => exact FS.set_other _ _ _ _ hq
    | dir m => rfl

/-- The call `LLFile::remove` clears a path that held a regular file or nothing. -/
theorem removePath_clears (fs : FS) (p : Path) (hnd : ∀ m : Int, fs p ≠ some (Node.dir m)) :
    removePath fs p p = none := by
  unfold removePath
  cases hp : fs p with
  | none => simp [hp]
  | some nd =>
    cases nd with
    | file d m => simp [FS.set]
    | dir m => exact absurd hp (hnd m)

/-- The method `exists()` in terms of the node at the path. -/
theorem exists_eq (h : LLFileSystem) (fs : FS) :
    h.exists_ fs =
      match fs h.mFilePath with
      | some (Node.file d _) => decide (d.length > 0)
      | _ => false := by
  unfold LLFileSystem.exists_ stat
  cases hp : fs h.mFilePath with
  | none => rfl
  | some nd =>
    cases nd with
    | file d m => simp
    | dir m => simp

/-- An absolute seek to a position inside the file succeeds and moves only
the cursor. -/
theorem seek_absolute (h : LLFileSystem) (fs : FS) (k : Int)
    (hk0 : 0 ≤ k) (hk : k ≤ h.getSize fs) :
    h.seek fs k 0 = (true, { h with mPosition := k }) := by
  have hS := getSize_inS32 h fs
  unfold inS32 at hS
  have hw : wrapS32 (0 + k) = k := by
    rw [zero_add]
    exact wrapS32_of_inS32 (by unfold inS32; omega)
  have hne : ¬ ((-1 : Int) = 0) := by decide
  unfold LLFileSystem.seek
  simp only [if_neg hne, hw]
  rw [if_neg (by omega), if_neg (by omega)]

/-- A move that succeeds: the destination was clear, and the node of the
source is now at the destination. -/
theorem renamePath_some (fs fs2 : FS) (src dst : Path) (n : Node)
    (hsrc : fs src = some n) (hmove : renamePath fs src dst = some fs2) :
    fs dst = none ∧ fs2 = (fs.set src none).set dst (some n) := by
  unfold renamePath at hmove
  rw [hsrc] at hmove
  cases hd : fs dst with
  | none =>
    rw [hd] at hmove
    exact ⟨rfl, (Option.some.inj hmove).symm⟩
  | some nd =>
    rw [hd] at hmove
    exact absurd hmove (by simp)

/-- The call `LLFile::remove` creates nothing: an absent path stays absent. -/
theorem removePath_none (fs : FS) (p q : Path) (hq : fs q = none) : removePath fs p q = none := by
  by_cases hqp : q = p
  · subst hqp
    unfold removePath
    rw [hq]
    exact hq
  · rw [removePath_other fs p q hqp]
    exact hq

/-- A move whose source is absent fails. -/
theorem renamePath_absent (fs : FS) (src dst : Path) (hsrc : fs src = none) :
    renamePath fs src dst = none := by
  unfold renamePath
  rw [hsrc]

/-- The method `exists()` depends on the handle only through its path. -/
theorem exists_congr (h h1 : LLFileSystem) (fs : FS) (hp : h1.mFilePath = h.mFilePath) :
    h1.exists_ fs = h.exists_ fs := by
  unfold LLFileSystem.exists_
  rw [hp]

/-- The method `exists()` is false where the path holds nothing. -/
theorem exists_absent (h : LLFileSystem) (fs : FS) (hp : fs h.mFilePath = none) :
    h.exists_ fs = false := by
  rw [exists_eq, hp]

/-- The operand `origin` of `seek` read either way round. -/
theorem seek_origin (c origin : Int) :
    (if -1 = origin then c else origin) = (if origin = -1 then c else origin) := by
  by_cases ho : origin = -1
  · simp [ho]
  · have ho2 : ¬ (-1 = origin) := fun hh => ho hh.symm
    simp [ho, ho2]

/-- The method `seek` on an entry whose size `getSize()` reports as 0. -/
theorem seek_size_zero (h : LLFileSystem) (fs : FS) (offset origin : Int)
    (hsize : h.getSize fs = 0) :
    (h.seek fs offset origin).2 = { h with mPosition := 0 } ∧
    ((h.seek fs offset origin).1 = true ↔
      wrapS32 ((if origin = -1 then h.mPosition else origin) + offset) = 0) := by
  unfold LLFileSystem.seek
  simp only [seek_origin, hsize]
  by_cases h1 : wrapS32 ((if origin = -1 then h.mPosition else origin) + offset) > 0
  · rw [if_pos h1]
    refine ⟨rfl, ?_⟩
    constructor
    · intro hf
      exact absurd hf Bool.noConfusion
    · intro h0
      omega
  · rw [if_neg h1]
    by_cases h2 : wrapS32 ((if origin = -1 then h.mPosition else origin) + offset) < 0
    · rw [if_pos h2]
      refine ⟨rfl, ?_⟩
      constructor
      · intro hf
        exact absurd hf Bool.noConfusion
      · intro h0
        omega
    · rw [if_neg h2]
      have h0 : wrapS32 ((if origin = -1 then h.mPosition else origin) + offset) = 0 := by omega
      refine ⟨?_, ?_⟩
      · rw [h0]
      · exact ⟨fun _ => h0, fun _ => rfl⟩

/-- The method `seek` changes nothing but the cursor. -/
theorem seek_frame (h : LLFileSystem) (fs : FS) (offset origin : Int) :
    (h.seek fs offset origin).2 = { h with mPosition := (h.seek fs offset origin).2.mPosition } := by
  unfold LLFileSystem.seek
  dsimp only
  split_ifs <;> rfl

theorem seek_identity (h : LLFileSystem) (fs : FS) (offset origin : Int) :
    (h.seek fs offset origin).2.mFileID = h.mFileID ∧
    (h.seek fs offset origin).2.mFileType = h.mFileType ∧
    (h.seek fs offset origin).2.mFilePath = h.mFilePath := by
  unfold LLFileSystem.seek
  dsimp only
  split_ifs <;> exact ⟨rfl, rfl, rfl⟩

theorem seek_stream (h : LLFileSystem) (fs : FS) (offset origin : Int) :
    (h.seek fs offset origin).2.mMode = h.mMode ∧
    (h.seek fs offset origin).2.mFile = h.mFile := by
  unfold LLFileSystem.seek
  dsimp only
  split_ifs <;> exact ⟨rfl, rfl⟩

/-- With an empty buffer a flush does nothing. -/
theorem fflush_clean (os : Os) (fs : FS) (p : Path) (st : Stream) (hc : st.pending = []) :
    fflush os fs p st = (st, fs) := by
  unfold fflush
  rw [if_pos hc]

/-- After a flush the buffer is empty; the kind of the stream and its position
are as before. -/
theorem fflush_stream (os : Os) (fs : FS) (p : Path) (st : Stream) :
    (fflush os fs p st).1 = { st with pending := [] } := by
  unfold fflush
  by_cases hc : st.pending = []
  · rw [if_pos hc]
    cases st
    simp only at hc
    subst hc
    rfl
  · rw [if_neg hc]
    split <;> rfl

/-- A flush touches no other path. -/
theorem fflush_other (os : Os) (fs : FS) (p q : Path) (st : Stream) (hq : q ≠ p) :
    (fflush os fs p st).2 q = fs q := by
  unfold fflush
  by_cases hc : st.pending = []
  · rw [if_pos hc]
  · rw [if_neg hc]
    split
    · exact FS.set_other _ _ _ _ hq
    · rfl

/-- A flush creates no file: where the path holds no regular file the
filesystem is as it was. -/
theorem fflush_no_file (os : Os) (fs : FS) (p : Path) (st : Stream)
    (hp : ∀ (d : List U8) (m : Int), fs p ≠ some (Node.file d m)) :
    (fflush os fs p st).2 = fs := by
  unfold fflush
  by_cases hc : st.pending = []
  · rw [if_pos hc]
  · rw [if_neg hc]
    split
    · rename_i d m heq
      exact absurd heq (hp d m)
    · rfl

/-- A flush with bytes in the buffer, on a regular file. -/
theorem fflush_file (os : Os) (fs : FS) (p : Path) (st : Stream) (d : List U8) (m : Int)
    (hp : fs p = some (Node.file d m)) (hne : st.pending ≠ []) :
    (fflush os fs p st).2 = fs.set p (some (Node.file
      (splice d (if st.append then d.length else st.pos - st.pending.length) st.pending)
      os.now)) := by
  unfold fflush
  rw [if_neg hne, hp]

/-- A flush keeps a regular file a regular file. -/
theorem fflush_keeps_file (os : Os) (fs : FS) (p : Path) (st : Stream) (d : List U8) (m : Int)
    (hp : fs p = some (Node.file d m)) :
    ∃ (d1 : List U8) (m1 : Int), (fflush os fs p st).2 p = some (Node.file d1 m1) := by
  by_cases hc : st.pending = []
  · rw [fflush_clean os fs p st hc]
    exact ⟨d, m, hp⟩
  · rw [fflush_file os fs p st d m hp hc]
    exact ⟨_, _, FS.set_same _ _ _⟩

/-- A flush leaves an absent path absent and a directory a directory. -/
theorem fflush_absent (os : Os) (fs : FS) (p : Path) (st : Stream) (hp : fs p = none) :
    (fflush os fs p st).2 = fs :=
  fflush_no_file os fs p st (fun d m hh => by rw [hp] at hh; exact Option.noConfusion hh)

/-- The call `fseek` to an offset that is not negative. -/
theorem fseek_ok (os : Os) (fs : FS) (p : Path) (st : Stream) (offset : Int)
    (h0 : 0 ≤ offset) :
    fseek os fs p st offset
      = (true, { st with pos := offset.toNat, pending := [] }, (fflush os fs p st).2) := by
  unfold fseek
  dsimp only
  rw [if_neg (by omega), fflush_stream]

/-- The call `fseek` to a negative offset. -/
theorem fseek_negative (os : Os) (fs : FS) (p : Path) (st : Stream) (offset : Int)
    (hneg : offset < 0) :
    fseek os fs p st offset = (false, { st with pending := [] }, (fflush os fs p st).2) := by
  unfold fseek
  dsimp only
  rw [if_pos hneg, fflush_stream]

/-- The call `fwrite` of no bytes transfers nothing and changes nothing. -/
theorem fwrite_nil (os : Os) (fs : FS) (p : Path) (st : Stream) :
    fwrite os fs p st [] = (0, st, fs) := by
  unfold fwrite
  rw [if_pos rfl]

/-- The call `fwrite` of bytes the stream's buffer takes: the file on disk is
as it was. -/
theorem fwrite_buffered (os : Os) (fs : FS) (p : Path) (st : Stream) (src : List U8)
    (hne : src ≠ []) (hb : src.length ≤ os.bufferRoom) :
    fwrite os fs p st src =
      (src.length,
        { st with
          pos := (if st.append then
              (match fs p with
                | some (Node.file d _) => d.length
                | _ => 0) + st.pending.length
            else st.pos) + src.length,
          pending := st.pending ++ src },
        fs) := by
  unfold fwrite
  rw [if_neg hne, if_pos hb]

/-- The call `fwrite` of bytes the stream's buffer does not take: the buffer
is flushed and the volume takes `os.room` of the bytes. -/
theorem fwrite_direct_eq (os : Os) (fs : FS) (p : Path) (st : Stream) (src : List U8)
    (hne : src ≠ []) (hb : ¬ src.length ≤ os.bufferRoom) :
    fwrite os fs p st src =
      match (fflush os fs p st).2 p with
      | some (Node.file d _) =>
        if src.take os.room = [] then (0, { st with pending := [] }, (fflush os fs p st).2)
        else
          ((src.take os.room).length,
            { st with
              pos := (if st.append then d.length else st.pos) + (src.take os.room).length,
              pending := [] },
            (fflush os fs p st).2.set p (some (Node.file
              (splice d (if st.append then d.length else st.pos) (src.take os.room))
              os.now)))
      | _ =>
        ((src.take os.room).length,
          { st with
            pos := (if st.append then 0 else st.pos) + (src.take os.room).length,
            pending := [] },
          (fflush os fs p st).2) := by
  unfold fwrite
  rw [if_neg hne, if_neg hb]
  dsimp only
  rw [fflush_stream]

/-- The call `fwrite` of bytes the stream's buffer does not take, on a regular
file, when the volume takes at least one byte. -/
theorem fwrite_direct (os : Os) (fs : FS) (p : Path) (st : Stream) (src d : List U8) (m : Int)
    (hne : src ≠ []) (hb : ¬ src.length ≤ os.bufferRoom)
    (hp : (fflush os fs p st).2 p = some (Node.file d m)) (hw : src.take os.room ≠ []) :
    fwrite os fs p st src =
      ((src.take os.room).length,
        { st with
          pos := (if st.append then d.length else st.pos) + (src.take os.room).length,
          pending := [] },
        (fflush os fs p st).2.set p (some (Node.file
          (splice d (if st.append then d.length else st.pos) (src.take os.room)) os.now))) := by
  rw [fwrite_direct_eq os fs p st src hne hb, hp]
  dsimp only
  rw [if_neg hw]

/-- The three ways an `fwrite` goes, for a property of its result. -/
theorem fwrite_cases (os : Os) (fs : FS) (p : Path) (st : Stream) (src : List U8)
    (P : Nat × Stream × FS → Prop)
    (hnil : src = [] → P (0, st, fs))
    (hbuf : src ≠ [] → src.length ≤ os.bufferRoom →
      P (src.length,
        { st with
          pos := (if st.append then
              (match fs p with
                | some (Node.file d _) => d.length
                | _ => 0) + st.pending.length
            else st.pos) + src.length,
          pending := st.pending ++ src },
        fs))
    (hzero : src ≠ [] → ¬ src.length ≤ os.bufferRoom → src.take os.room = [] →
      (∃ (d : List U8) (m : Int), (fflush os fs p st).2 p = some (Node.file d m)) →
      P (0, { st with pending := [] }, (fflush os fs p st).2))
    (hfile : ∀ (d : List U8) (m : Int), src ≠ [] → ¬ src.length ≤ os.bufferRoom →
      (fflush os fs p st).2 p = some (Node.file d m) → src.take os.room ≠ [] →
      P ((src.take os.room).length,
        { st with
          pos := (if st.append then d.length else st.pos) + (src.take os.room).length,
          pending := [] },
        (fflush os fs p st).2.set p (some (Node.file
          (splice d (if st.append then d.length else st.pos) (src.take os.room)) os.now))))
    (hgone : src ≠ [] → ¬ src.length ≤ os.bufferRoom →
      (∀ (d : List U8) (m : Int), (fflush os fs p st).2 p ≠ some (Node.file d m)) →
      P ((src.take os.room).length,
        { st with
          pos := (if st.append then 0 else st.pos) + (src.take os.room).length,
          pending := [] },
        (fflush os fs p st).2)) :
    P (fwrite os fs p st src) := by
  by_cases h1 : src = []
  · rw [h1, fwrite_nil]
    exact hnil h1
  · by_cases h2 : src.length ≤ os.bufferRoom
    · rw [fwrite_buffered os fs p st src h1 h2]
      exact hbuf h1 h2
    · rw [fwrite_direct_eq os fs p st src h1 h2]
      cases hq : (fflush os fs p st).2 p with
      | none =>
        dsimp only
        exact hgone h1 h2 (fun d m hh => by rw [hq] at hh; exact Option.noConfusion hh)
      | some nd =>
        cases nd with
        | file d m =>
          dsimp only
          by_cases hw : src.take os.room = []
          · rw [if_pos hw]
            exact hzero h1 h2 hw ⟨d, m, hq⟩
          · rw [if_neg hw]
            exact hfile d m h1 h2 hq hw
        | dir m =>
          dsimp only
          exact hgone h1 h2 (fun d m1 hh => by
            rw [hq] at hh
            exact Node.noConfusion (Option.some.inj hh))

/-- The call `fwrite` never transfers more than it is given. -/
theorem fwrite_count_le (os : Os) (fs : FS) (p : Path) (st : Stream) (src : List U8) :
    (fwrite os fs p st src).1 ≤ src.length := by
  refine fwrite_cases os fs p st src (fun r => r.1 ≤ src.length) ?_ ?_ ?_ ?_ ?_
  · intro _
    exact Nat.zero_le _
  · intro _ _
    exact le_refl _
  · intro _ _ _ _
    exact Nat.zero_le _
  · intro d m _ _ _ _
    exact (by rw [List.length_take]; exact Nat.min_le_right _ _ :
      (src.take os.room).length ≤ src.length)
  · intro _ _ _
    exact (by rw [List.length_take]; exact Nat.min_le_right _ _ :
      (src.take os.room).length ≤ src.length)

/-- The calls `fflush`, `fseek`, `fread` and `fwrite` keep the kind of the
stream. -/
theorem fflush_append (os : Os) (fs : FS) (p : Path) (st : Stream) :
    (fflush os fs p st).1.append = st.append := by
  rw [fflush_stream]

theorem fseek_append (os : Os) (fs : FS) (p : Path) (st : Stream) (offset : Int) :
    (fseek os fs p st offset).2.1.append = st.append := by
  unfold fseek
  dsimp only
  split <;> exact fflush_append os fs p st

theorem fread_append (fs : FS) (p : Path) (st : Stream) (n : Nat) :
    (fread fs p st n).2.append = st.append := by
  unfold fread
  split <;> rfl

theorem fwrite_append (os : Os) (fs : FS) (p : Path) (st : Stream) (src : List U8) :
    (fwrite os fs p st src).2.1.append = st.append := by
  refine fwrite_cases os fs p st src (fun r => r.2.1.append = st.append) ?_ ?_ ?_ ?_ ?_
  · intro _
    rfl
  · intro _ _
    rfl
  · intro _ _ _ _
    rfl
  · intro d m _ _ _ _
    rfl
  · intro _ _ _
    rfl

/-- The call `fseek` leaves the buffer empty, and `fread` keeps it. -/
theorem fseek_pending (os : Os) (fs : FS) (p : Path) (st : Stream) (offset : Int) :
    (fseek os fs p st offset).2.1.pending = [] := by
  unfold fseek
  dsimp only
  split <;> rw [fflush_stream]

theorem fread_pending (fs : FS) (p : Path) (st : Stream) (n : Nat) :
    (fread fs p st n).2.pending = st.pending := by
  unfold fread
  split <;> rfl

/-- The calls `fseek` and `fwrite` touch no other path. -/
theorem fseek_other (os : Os) (fs : FS) (p q : Path) (st : Stream) (offset : Int)
    (hq : q ≠ p) : (fseek os fs p st offset).2.2 q = fs q := by
  unfold fseek
  dsimp only
  split <;> exact fflush_other os fs p q st hq

theorem fwrite_other (os : Os) (fs : FS) (p q : Path) (st : Stream) (src : List U8)
    (hq : q ≠ p) : (fwrite os fs p st src).2.2 q = fs q := by
  refine fwrite_cases os fs p st src (fun r => r.2.2 q = fs q) ?_ ?_ ?_ ?_ ?_
  · intro _
    rfl
  · intro _ _
    rfl
  · intro _ _ _ _
    exact fflush_other os fs p q st hq
  · intro d m _ _ _ _
    exact (FS.set_other _ _ _ _ hq).trans (fflush_other os fs p q st hq)
  · intro _ _ _
    exact fflush_other os fs p q st hq

/-- The handle `close()` leaves: the same with no stream. -/
theorem close_handle (os : Os) (h : LLFileSystem) (fs : FS) :
    (h.close os fs).1 = { h with mFile := none } := by
  unfold LLFileSystem.close
  split <;> rfl

/-- The filesystem `close()` leaves on an open handle: the stream is flushed. -/
theorem close_fs_open (os : Os) (h : LLFileSystem) (fs : FS) (st : Stream)
    (hopen : h.mFile = some st) :
    (h.close os fs).2 = (fflush os fs h.mFilePath st).2 := by
  unfold LLFileSystem.close
  rw [hopen]

/-- On a handle with no open file `close()` changes nothing. -/
theorem close_not_open (os : Os) (h : LLFileSystem) (fs : FS) (hf : h.mFile = none) :
    h.close os fs = (h, fs) := by
  unfold LLFileSystem.close
  rw [hf]
  cases h
  simp only at hf
  subst hf
  rfl

/-- On a handle whose stream has an empty buffer `close()` leaves the
filesystem as it was. -/
theorem close_clean (os : Os) (h : LLFileSystem) (fs : FS) (st : Stream)
    (hopen : h.mFile = some st) (hclean : st.pending = []) :
    (h.close os fs).2 = fs := by
  rw [close_fs_open os h fs st hopen, fflush_clean os fs _ st hclean]

/-- The method `close()` touches no other path. -/
theorem close_other (os : Os) (h : LLFileSystem) (fs : FS) (q : Path)
    (hq : q ≠ h.mFilePath) : (h.close os fs).2 q = fs q := by
  cases hf : h.mFile with
  | none => rw [close_not_open os h fs hf]
  | some st =>
    rw [close_fs_open os h fs st hf]
    exact fflush_other os fs _ q st hq

/-- The method `close()` creates no file. -/
theorem close_no_file (os : Os) (h : LLFileSystem) (fs : FS)
    (hp : ∀ (d : List U8) (m : Int), fs h.mFilePath ≠ some (Node.file d m)) :
    (h.close os fs).2 = fs := by
  cases hf : h.mFile with
  | none => rw [close_not_open os h fs hf]
  | some st =>
    rw [close_fs_open os h fs st hf]
    exact fflush_no_file os fs _ st hp

/-- The refresh after a transfer is the refresh of the handle before it: a
transfer leaves the path alone. -/
theorem updateFileAccessTime_after_transfer (os : Os) (h : LLFileSystem) (fs : FS)
    (x y : Int) (s : Option Stream) :
    LLFileSystem.updateFileAccessTime os
        { h with mPosition := x, mBytesRead := y, mFile := s } fs
      = h.updateFileAccessTime os fs := by
  rfl

/-- A transfer leaves the path alone, so `getSize()` sees the same file. -/
theorem getSize_after_transfer (h : LLFileSystem) (fs : FS) (x y : Int) (s : Option Stream) :
    LLFileSystem.getSize { h with mPosition := x, mBytesRead := y, mFile := s } fs
      = h.getSize fs := by
  rfl

/-- A read rejected by a guard leaves everything as it was. -/
theorem read_rejected (os : Os) (h : LLFileSystem) (fs : FS) (buffer : List U8) (bytes : Int)
    (hrej : h.mFile = none ∨ Int.land h.mMode READ = 0) :
    h.read os fs buffer bytes = (false, h, fs, buffer) := by
  unfold LLFileSystem.read
  cases hf : h.mFile with
  | none => rfl
  | some st =>
    rcases hrej with hn | hg
    · rw [hf] at hn
      exact absurd hn (by simp)
    · dsimp only
      rw [if_pos hg]

/-- A handle that passes both guards of `read`: what the call returns.  The
`fseek` flushes the stream; the bytes come from the file after the flush. -/
theorem read_of_open (os : Os) (h : LLFileSystem) (fs : FS) (buffer : List U8) (bytes : Int)
    (st : Stream) (hopen : h.mFile = some st) (hmode : Int.land h.mMode READ ≠ 0) :
    h.read os fs buffer bytes =
      if h.mPosition < 0 then
        (false, { h with mFile := some { st with pending := [] } },
          h.updateFileAccessTime os (fflush os fs h.mFilePath st).2, buffer)
      else
        (decide (wrapS32 (fread (fflush os fs h.mFilePath st).2 h.mFilePath
              { st with pos := h.mPosition.toNat, pending := [] } (toSizeT bytes)).1.length ≠ 0),
          { h with
            mFile := some (fread (fflush os fs h.mFilePath st).2 h.mFilePath
              { st with pos := h.mPosition.toNat, pending := [] } (toSizeT bytes)).2,
            mBytesRead := wrapS32 (fread (fflush os fs h.mFilePath st).2 h.mFilePath
              { st with pos := h.mPosition.toNat, pending := [] } (toSizeT bytes)).1.length,
            mPosition := wrapS32 (ftell (fread (fflush os fs h.mFilePath st).2 h.mFilePath
              { st with pos := h.mPosition.toNat, pending := [] } (toSizeT bytes)).2) },
          h.updateFileAccessTime os (fflush os fs h.mFilePath st).2,
          (fread (fflush os fs h.mFilePath st).2 h.mFilePath
              { st with pos := h.mPosition.toNat, pending := [] } (toSizeT bytes)).1
            ++ buffer.drop (fread (fflush os fs h.mFilePath st).2 h.mFilePath
              { st with pos := h.mPosition.toNat, pending := [] } (toSizeT bytes)).1.length) := by
  by_cases hneg : h.mPosition < 0
  · rw [if_pos hneg]
    unfold LLFileSystem.read
    rw [hopen]
    dsimp only
    rw [if_neg hmode, fseek_negative os fs h.mFilePath st h.mPosition hneg]
    rfl
  · rw [if_neg hneg]
    unfold LLFileSystem.read
    rw [hopen]
    dsimp only
    rw [if_neg hmode, fseek_ok os fs h.mFilePath st h.mPosition (by omega)]
    rfl


theorem readable_modes (mMode : Int) (hmode : mMode = READ ∨ mMode = READ_WRITE) :
    Int.land mMode READ ≠ 0 := by
  rcases hmode with hm | hm <;> subst hm <;> decide

/-- What a read that passes both guards leaves behind, whatever it transfers. -/
theorem read_frame (os : Os) (h : LLFileSystem) (fs : FS) (buffer : List U8) (bytes : Int)
    (st : Stream) (hopen : h.mFile = some st) (hmode : Int.land h.mMode READ ≠ 0) :
    (h.read os fs buffer bytes).2.1.mFilePath = h.mFilePath ∧
    (h.read os fs buffer bytes).2.1.mMode = h.mMode ∧
    (∃ st1, (h.read os fs buffer bytes).2.1.mFile = some st1 ∧ st1.pending = [] ∧
      st1.append = st.append) ∧
    (h.read os fs buffer bytes).2.2.1
      = h.updateFileAccessTime os (fflush os fs h.mFilePath st).2 := by
  rw [read_of_open os h fs buffer bytes st hopen hmode]
  by_cases hneg : h.mPosition < 0
  · rw [if_pos hneg]
    exact ⟨rfl, rfl, ⟨_, rfl, rfl, rfl⟩, rfl⟩
  · rw [if_neg hneg]
    refine ⟨rfl, rfl, ⟨_, rfl, ?_, ?_⟩, rfl⟩
    · rw [fread_pending]
    · rw [fread_append]

/-- The filesystem the stream of an open handle sees is the one its flush
leaves. -/
theorem flushed_open (os : Os) (h : LLFileSystem) (fs : FS) (st : Stream)
    (hopen : h.mFile = some st) :
    h.flushed os fs = (fflush os fs h.mFilePath st).2 :=
  close_fs_open os h fs st hopen

/-- With an empty buffer the stream sees the filesystem as it is. -/
theorem flushed_clean (os : Os) (h : LLFileSystem) (fs : FS) (st : Stream)
    (hopen : h.mFile = some st) (hclean : st.pending = []) : h.flushed os fs = fs :=
  close_clean os h fs st hopen hclean

/-- With no open stream there is nothing to flush. -/
theorem flushed_not_open (os : Os) (h : LLFileSystem) (fs : FS) (hf : h.mFile = none) :
    h.flushed os fs = fs := by
  unfold LLFileSystem.flushed
  rw [close_not_open os h fs hf]

/-- A read that passes both guards, over a regular file (as the stream sees
it), with a cursor that is not negative: the bytes from the cursor on are
transferred. -/
theorem read_on_file (os : Os) (h : LLFileSystem) (fs : FS) (buffer : List U8) (bytes : Int)
    (st : Stream) (data : List U8) (m : Int)
    (hopen : h.mFile = some st) (hmode : Int.land h.mMode READ ≠ 0)
    (hfile : h.flushed os fs h.mFilePath = some (Node.file data m)) (hc0 : 0 ≤ h.mPosition) :
    h.read os fs buffer bytes =
      (decide (wrapS32 ((data.drop h.mPosition.toNat).take (toSizeT bytes)).length ≠ 0),
        { h with
          mFile := some { st with
            pos := h.mPosition.toNat
              + ((data.drop h.mPosition.toNat).take (toSizeT bytes)).length,
            pending := [] },
          mBytesRead := wrapS32 ((data.drop h.mPosition.toNat).take (toSizeT bytes)).length,
          mPosition := wrapS32 ((h.mPosition.toNat
            + ((data.drop h.mPosition.toNat).take (toSizeT bytes)).length : Nat) : Int) },
        h.updateFileAccessTime os (h.flushed os fs),
        (data.drop h.mPosition.toNat).take (toSizeT bytes)
          ++ buffer.drop ((data.drop h.mPosition.toNat).take (toSizeT bytes)).length) := by
  rw [flushed_open os h fs st hopen] at hfile ⊢
  rw [read_of_open os h fs buffer bytes st hopen hmode, if_neg (by omega)]
  simp only [fread, hfile, ftell]

/-- A read that passes both guards and asks for bytes the file has: all `n`
bytes from the cursor on are transferred. -/
theorem read_exact (os : Os) (h : LLFileSystem) (fs : FS) (buffer : List U8) (n : Int)
    (st : Stream) (data : List U8) (m : Int)
    (hopen : h.mFile = some st) (hmode : Int.land h.mMode READ ≠ 0)
    (hfile : h.flushed os fs h.mFilePath = some (Node.file data m)) (hc0 : 0 ≤ h.mPosition)
    (hn0 : 0 ≤ n) (hend : h.mPosition + n ≤ data.length)
    (hS32 : inS32 (h.mPosition + n)) :
    h.read os fs buffer n =
      (decide (n ≠ 0),
        { h with
          mFile := some { st with pos := h.mPosition.toNat + n.toNat, pending := [] },
          mBytesRead := n, mPosition := h.mPosition + n },
        h.updateFileAccessTime os (h.flushed os fs),
        (data.drop h.mPosition.toNat).take n.toNat ++ buffer.drop n.toNat) := by
  unfold inS32 at hS32
  have hn : inS32 n := by unfold inS32; omega
  have hnn : toSizeT n = n.toNat := toSizeT_of_nonneg hn0 hn
  have hlen : ((data.drop h.mPosition.toNat).take n.toNat).length = n.toNat := by
    rw [length_take_drop]
    omega
  have hw1 : wrapS32 ((n.toNat : Nat) : Int) = n := by
    rw [wrapS32_of_inS32 (by unfold inS32; omega)]
    omega
  have hw2 : wrapS32 ((h.mPosition.toNat + n.toNat : Nat) : Int) = h.mPosition + n := by
    rw [wrapS32_of_inS32 (by unfold inS32; omega)]
    omega
  rw [read_on_file os h fs buffer n st data m hopen hmode hfile hc0, hnn, hlen, hw1, hw2]

/-- The filesystem a handle's stream sees depends on the handle only through
its stream and its path. -/
theorem flushed_congr (os : Os) (h h1 : LLFileSystem) (fs : FS)
    (hf : h1.mFile = h.mFile) (hp : h1.mFilePath = h.mFilePath) :
    h1.flushed os fs = h.flushed os fs := by
  cases hm : h.mFile with
  | none =>
    rw [flushed_not_open os h fs hm, flushed_not_open os h1 fs (hf.trans hm)]
  | some st =>
    rw [flushed_open os h fs st hm, flushed_open os h1 fs st (hf.trans hm), hp]


/-- The method `open()` in Read mode. -/
theorem open_read_mode (os : Os) (h : LLFileSystem) (fs : FS) (hm : h.mMode = READ) :
    h.open_ os fs =
      match fs h.mFilePath with
      | some (Node.file _ _) => (true, { h with mFile := some ⟨false, 0, []⟩, mPosition := 0 }, fs)
      | _ => (false, { h with mFile := none }, fs) := by
  have n1 : ¬ (READ = READ_WRITE) := by decide
  unfold LLFileSystem.open_
  rw [hm]
  cases hp : fs h.mFilePath with
  | none => simp [fopen, hp, n1]
  | some nd =>
    cases nd with
    | file d m => simp [fopen, hp, n1, ftell, wrapS32]
    | dir m => simp [fopen, hp, n1]

/-- The method `open()` in Write mode. -/
theorem open_write_mode (os : Os) (h : LLFileSystem) (fs : FS) (hm : h.mMode = WRITE) :
    h.open_ os fs =
      match fs h.mFilePath with
      | some (Node.dir _) => (false, { h with mFile := none }, fs)
      | _ => (true, { h with mFile := some ⟨false, 0, []⟩, mPosition := 0 },
              fs.set h.mFilePath (some (Node.file [] os.now))) := by
  have n0 : ¬ (WRITE = READ) := by decide
  have n1 : ¬ (WRITE = READ_WRITE) := by decide
  unfold LLFileSystem.open_
  rw [hm]
  cases hp : fs h.mFilePath with
  | none => simp [fopen, hp, n0, n1, ftell, wrapS32]
  | some nd =>
    cases nd with
    | file d m => simp [fopen, hp, n0, n1, ftell, wrapS32]
    | dir m => simp [fopen, hp, n0, n1]

/-- The method `open()` in ReadWrite mode: the fallback to `wb+` creates an
absent file. -/
theorem open_read_write_mode (os : Os) (h : LLFileSystem) (fs : FS)
    (hm : h.mMode = READ_WRITE) :
    h.open_ os fs =
      match fs h.mFilePath with
      | some (Node.file _ _) => (true, { h with mFile := some ⟨false, 0, []⟩, mPosition := 0 }, fs)
      | some (Node.dir _) => (false, { h with mFile := none }, fs)
      | none => (true, { h with mFile := some ⟨false, 0, []⟩, mPosition := 0 },
              fs.set h.mFilePath (some (Node.file [] os.now))) := by
  have n0 : ¬ (READ_WRITE = READ) := by decide
  have n1 : ¬ (READ_WRITE = WRITE) := by decide
  unfold LLFileSystem.open_
  rw [hm]
  cases hp : fs h.mFilePath with
  | none => simp [fopen, hp, n0, n1, ftell, wrapS32]
  | some nd =>
    cases nd with
    | file d m => simp [fopen, hp, n0, n1, ftell, wrapS32]
    | dir m => simp [fopen, hp, n0, n1]

/-- The method `open()` in Append mode on an absent file. -/
theorem open_append_mode_fresh (os : Os) (h : LLFileSystem) (fs : FS)
    (hm : h.mMode = APPEND) (hp : fs h.mFilePath = none) :
    h.open_ os fs =
      (true, { h with mFile := some ⟨true, 0, []⟩, mPosition := 0 },
        fs.set h.mFilePath (some (Node.file [] os.now))) := by
  have n0 : ¬ (APPEND = READ) := by decide
  have n1 : ¬ (APPEND = WRITE) := by decide
  have n2 : ¬ (APPEND = READ_WRITE) := by decide
  unfold LLFileSystem.open_
  rw [hm]
  simp [fopen, hp, n0, n1, n2, ftell, wrapS32]

/-- The method `open()` on a fresh entry, in any writable mode: the file is
created empty and the cursor is 0. -/
theorem open_fresh_writable (os : Os) (h : LLFileSystem) (fs : FS)
    (hmode : h.mMode = WRITE ∨ h.mMode = READ_WRITE ∨ h.mMode = APPEND)
    (hp : fs h.mFilePath = none) :
    ∃ a : Bool, h.open_ os fs =
      (true, { h with mFile := some ⟨a, 0, []⟩, mPosition := 0 },
        fs.set h.mFilePath (some (Node.file [] os.now))) := by
  rcases hmode with hm | hm | hm
  · refine ⟨false, ?_⟩
    rw [open_write_mode os h fs hm, hp]
  · refine ⟨false, ?_⟩
    rw [open_read_write_mode os h fs hm, hp]
  · exact ⟨true, open_append_mode_fresh os h fs hm hp⟩

/-- The method `open()` in Write mode where the path holds a regular file or
nothing: the file is created or truncated. -/
theorem open_write_not_dir (os : Os) (h : LLFileSystem) (fs : FS) (hm : h.mMode = WRITE)
    (hnd : ∀ m : Int, fs h.mFilePath ≠ some (Node.dir m)) :
    h.open_ os fs =
      (true, { h with mFile := some ⟨false, 0, []⟩, mPosition := 0 },
        fs.set h.mFilePath (some (Node.file [] os.now))) := by
  rw [open_write_mode os h fs hm]
  cases hp : fs h.mFilePath with
  | none => rfl
  | some nd =>
    cases nd with
    | file d m => rfl
    | dir m => exact absurd hp (hnd m)

/-- The methods `open`, `read`, `write` and `seek` leave the identifier, the
type and the path alone. -/
theorem open_identity (os : Os) (h : LLFileSystem) (fs : FS) :
    (h.open_ os fs).2.1.mFileID = h.mFileID ∧ (h.open_ os fs).2.1.mFileType = h.mFileType ∧
    (h.open_ os fs).2.1.mFilePath = h.mFilePath := by
  unfold LLFileSystem.open_
  dsimp only
  split <;> exact ⟨rfl, rfl, rfl⟩

/-- The method `open()` keeps the mode. -/
theorem open_mode (os : Os) (h : LLFileSystem) (fs : FS) : (h.open_ os fs).2.1.mMode = h.mMode := by
  unfold LLFileSystem.open_
  dsimp only
  split <;> rfl

/-- The method `open()` in Append mode is one `fopen` with `a+b`. -/
theorem open_append_mode (os : Os) (h : LLFileSystem) (fs : FS) (hm : h.mMode = APPEND) :
    h.open_ os fs =
      match (fopen os fs h.mFilePath FMode.aPlusB).1 with
      | some st => (true, { h with mFile := some st, mPosition := wrapS32 (ftell st) },
          (fopen os fs h.mFilePath FMode.aPlusB).2)
      | none => (false, { h with mFile := none }, (fopen os fs h.mFilePath FMode.aPlusB).2) := by
  have n0 : ¬ (h.mMode = READ) := by
    rw [hm]
    decide
  have n1 : ¬ (h.mMode = WRITE) := by
    rw [hm]
    decide
  have n2 : ¬ (h.mMode = READ_WRITE) := by
    rw [hm]
    decide
  have n3 : ¬ (h.mMode = READ_WRITE ∧ (fopen os fs h.mFilePath FMode.aPlusB).1 = none) :=
    fun hh => n2 hh.1
  unfold LLFileSystem.open_
  dsimp only
  rw [if_neg n0, if_neg n1, if_neg n2, if_pos hm, if_neg n3]

/-- The three writable modes pass the guard of `write`. -/
theorem writable_modes (mMode : Int)
    (hmode : mMode = WRITE ∨ mMode = READ_WRITE ∨ mMode = APPEND) :
    LLFileSystem.writeGuard mMode = false := by
  rcases hmode with hm | hm | hm <;> subst hm <;> decide

/-- A write rejected by a guard leaves everything as it was. -/
theorem write_rejected (os : Os) (h : LLFileSystem) (fs : FS) (buffer : List U8) (bytes : Int)
    (hrej : h.mFile = none ∨ LLFileSystem.writeGuard h.mMode = true) :
    h.write os fs buffer bytes = (false, h, fs) := by
  unfold LLFileSystem.write
  cases hf : h.mFile with
  | none => rfl
  | some st =>
    rcases hrej with hn | hg
    · rw [hf] at hn
      exact absurd hn (by simp)
    · dsimp only
      rw [hg]
      rfl

/-- A write in Write or Append mode on an open handle that passes the guard:
no seek, one `fwrite` on the stream as it is. -/
theorem write_sequential (os : Os) (h : LLFileSystem) (fs : FS) (buffer : List U8)
    (bytes : Int) (st : Stream) (hopen : h.mFile = some st)
    (hg : LLFileSystem.writeGuard h.mMode = false) (hm : h.mMode ≠ READ_WRITE) :
    h.write os fs buffer bytes =
      (decide ((fwrite os fs h.mFilePath st (buffer.take (toSizeT bytes))).1 = toSizeT bytes),
        { h with
          mFile := some (fwrite os fs h.mFilePath st (buffer.take (toSizeT bytes))).2.1,
          mPosition :=
            wrapS32 (ftell (fwrite os fs h.mFilePath st (buffer.take (toSizeT bytes))).2.1) },
        (fwrite os fs h.mFilePath st (buffer.take (toSizeT bytes))).2.2) := by
  unfold LLFileSystem.write
  rw [hopen]
  dsimp only
  rw [hg, if_neg hm]
  simp

/-- A write in ReadWrite mode on an open handle with a cursor that is not
negative: a seek to the cursor, which flushes the stream, then one `fwrite`. -/
theorem write_random (os : Os) (h : LLFileSystem) (fs : FS) (buffer : List U8)
    (bytes : Int) (st : Stream) (hopen : h.mFile = some st)
    (hm : h.mMode = READ_WRITE) (hc0 : 0 ≤ h.mPosition) :
    h.write os fs buffer bytes =
      (decide ((fwrite os (h.flushed os fs) h.mFilePath
            { st with pos := h.mPosition.toNat, pending := [] }
            (buffer.take (toSizeT bytes))).1 = toSizeT bytes),
        { h with
          mFile := some (fwrite os (h.flushed os fs) h.mFilePath
            { st with pos := h.mPosition.toNat, pending := [] }
            (buffer.take (toSizeT bytes))).2.1,
          mPosition := wrapS32 (ftell (fwrite os (h.flushed os fs) h.mFilePath
            { st with pos := h.mPosition.toNat, pending := [] }
            (buffer.take (toSizeT bytes))).2.1) },
        (fwrite os (h.flushed os fs) h.mFilePath
            { st with pos := h.mPosition.toNat, pending := [] }
            (buffer.take (toSizeT bytes))).2.2) := by
  have hg : LLFileSystem.writeGuard h.mMode = false := by rw [hm]; decide
  rw [flushed_open os h fs st hopen]
  unfold LLFileSystem.write
  rw [hopen]
  dsimp only
  rw [hg, if_pos hm, fseek_ok os fs h.mFilePath st h.mPosition hc0]
  simp

/-- A write in ReadWrite mode with a negative cursor: the seek fails after
the flush and nothing is written. -/
theorem write_random_negative (os : Os) (h : LLFileSystem) (fs : FS) (buffer : List U8)
    (bytes : Int) (st : Stream) (hopen : h.mFile = some st)
    (hm : h.mMode = READ_WRITE) (hneg : h.mPosition < 0) :
    h.write os fs buffer bytes =
      (false,
        { h with mFile := some { st with pending := [] },
                 mPosition := wrapS32 (ftell { st with pending := [] }) },
        h.flushed os fs) := by
  have hg : LLFileSystem.writeGuard h.mMode = false := by rw [hm]; decide
  rw [flushed_open os h fs st hopen]
  unfold LLFileSystem.write
  rw [hopen]
  dsimp only
  rw [hg, if_pos hm, fseek_negative os fs h.mFilePath st h.mPosition hneg]
  simp


theorem write_identity (os : Os) (h : LLFileSystem) (fs : FS) (buffer : List U8) (bytes : Int) :
    (h.write os fs buffer bytes).2.1.mFileID = h.mFileID ∧
    (h.write os fs buffer bytes).2.1.mFileType = h.mFileType ∧
    (h.write os fs buffer bytes).2.1.mFilePath = h.mFilePath := by
  unfold LLFileSystem.write
  cases hf : h.mFile with
  | none => exact ⟨rfl, rfl, rfl⟩
  | some st =>
    dsimp only
    split <;> exact ⟨rfl, rfl, rfl⟩

/-- After a write that passes both guards the cursor is what `ftell` reports
on the handle's stream. -/
theorem write_tell (os : Os) (h : LLFileSystem) (fs : FS) (buffer : List U8) (bytes : Int)
    (st : Stream) (hopen : h.mFile = some st) (hg : LLFileSystem.writeGuard h.mMode = false) :
    ∃ st1, (h.write os fs buffer bytes).2.1.mFile = some st1 ∧
      (h.write os fs buffer bytes).2.1.mPosition = wrapS32 (ftell st1) := by
  unfold LLFileSystem.write
  rw [hopen]
  dsimp only
  rw [hg]
  exact ⟨_, rfl, rfl⟩

/-- A write in Write or Append mode does not read the cursor. -/
theorem write_sequential_cursor (os : Os) (h : LLFileSystem) (fs : FS) (buffer : List U8)
    (bytes : Int) (st : Stream) (hopen : h.mFile = some st)
    (hg : LLFileSystem.writeGuard h.mMode = false) (hm : h.mMode ≠ READ_WRITE) (c : Int) :
    LLFileSystem.write os { h with mPosition := c } fs buffer bytes
      = h.write os fs buffer bytes := by
  rw [write_sequential os h fs buffer bytes st hopen hg hm,
    write_sequential os { h with mPosition := c } fs buffer bytes st hopen hg hm]

theorem read_identity (os : Os) (h : LLFileSystem) (fs : FS) (buffer : List U8) (bytes : Int) :
    (h.read os fs buffer bytes).2.1.mFileID = h.mFileID ∧
    (h.read os fs buffer bytes).2.1.mFileType = h.mFileType ∧
    (h.read os fs buffer bytes).2.1.mFilePath = h.mFilePath := by
  cases hf : h.mFile with
  | none =>
    rw [read_rejected os h fs buffer bytes (Or.inl hf)]
    exact ⟨rfl, rfl, rfl⟩
  | some st =>
    by_cases hg : Int.land h.mMode READ = 0
    · rw [read_rejected os h fs buffer bytes (Or.inr hg)]
      exact ⟨rfl, rfl, rfl⟩
    · rw [read_of_open os h fs buffer bytes st hf hg]
      split <;> exact ⟨rfl, rfl, rfl⟩

/-- The method `close()` leaves the identifier, the type, the path, the mode,
the cursor and the count alone. -/
theorem close_identity (os : Os) (h : LLFileSystem) (fs : FS) :
    (h.close os fs).1.mFileID = h.mFileID ∧ (h.close os fs).1.mFileType = h.mFileType ∧
    (h.close os fs).1.mFilePath = h.mFilePath ∧ (h.close os fs).1.mMode = h.mMode ∧
    (h.close os fs).1.mPosition = h.mPosition ∧ (h.close os fs).1.mBytesRead = h.mBytesRead ∧
    (h.close os fs).1.mFile = none := by
  rw [close_handle]
  exact ⟨rfl, rfl, rfl, rfl, rfl, rfl, rfl⟩

/-- The method `remove()` closes the handle and leaves its identity alone. -/
theorem remove_handle (os : Os) (h : LLFileSystem) (fs : FS) :
    (h.remove os fs).2.1 = { h with mFile := none } := by
  unfold LLFileSystem.remove
  dsimp only
  exact close_handle os h fs

/-- The handle `rename` leaves: closed, with the new identity. -/
theorem rename_handle (pathFor : LLUUID → EType → Path) (os : Os) (h : LLFileSystem) (fs : FS)
    (new_id : LLUUID) (new_type : EType) :
    (h.rename pathFor os fs new_id new_type).2.1
      = { h with mFile := none, mFileID := new_id, mFileType := new_type,
                 mFilePath := pathFor new_id new_type } := by
  unfold LLFileSystem.rename
  dsimp only
  rw [close_handle]


/-- A call other than `rename` leaves the identifier, the type and the path
alone. -/
theorem Call.run_identity (pathFor : LLUUID → EType → Path) (c : Call)
    (s : LLFileSystem × FS) (hc : c.isRename = false) :
    (c.run pathFor s).1.mFileID = s.1.mFileID ∧
    (c.run pathFor s).1.mFileType = s.1.mFileType ∧
    (c.run pathFor s).1.mFilePath = s.1.mFilePath := by
  cases c with
  | open_ os => exact open_identity os s.1 s.2
  | close os =>
    exact ⟨(close_identity os s.1 s.2).1, (close_identity os s.1 s.2).2.1,
      (close_identity os s.1 s.2).2.2.1⟩
  | read os buffer bytes => exact read_identity os s.1 s.2 buffer bytes
  | write os buffer bytes => exact write_identity os s.1 s.2 buffer bytes
  | seek offset origin => exact seek_identity s.1 s.2 offset origin
  | tell => exact ⟨rfl, rfl, rfl⟩
  | getSize => exact ⟨rfl, rfl, rfl⟩
  | eof => exact ⟨rfl, rfl, rfl⟩
  | exists_ => exact ⟨rfl, rfl, rfl⟩
  | rename os new_id new_type => exact absurd hc Bool.noConfusion
  | remove os =>
    have e : (Call.run pathFor (Call.remove os) s).1 = { s.1 with mFile := none } :=
      remove_handle os s.1 s.2
    rw [e]
    exact ⟨rfl, rfl, rfl⟩

/-- Every call keeps the path equal to the naming policy's path for the
identifier and the type. -/
theorem Call.run_path (pathFor : LLUUID → EType → Path) (c : Call) (s : LLFileSystem × FS)
    (hs : s.1.mFilePath = pathFor s.1.mFileID s.1.mFileType) :
    (c.run pathFor s).1.mFilePath
      = pathFor (c.run pathFor s).1.mFileID (c.run pathFor s).1.mFileType := by
  by_cases hc : c.isRename = false
  · obtain ⟨h1, h2, h3⟩ := Call.run_identity pathFor c s hc
    rw [h1, h2, h3]
    exact hs
  · cases c with
    | rename os new_id new_type =>
      have e : (Call.run pathFor (Call.rename os new_id new_type) s).1
          = { s.1 with mFile := none, mFileID := new_id, mFileType := new_type,
                       mFilePath := pathFor new_id new_type } :=
        rename_handle pathFor os s.1 s.2 new_id new_type
      rw [e]
    | open_ os => exact absurd rfl hc
    | close os => exact absurd rfl hc
    | read os buffer bytes => exact absurd rfl hc
    | write os buffer bytes => exact absurd rfl hc
    | seek offset origin => exact absurd rfl hc
    | tell => exact absurd rfl hc
    | getSize => exact absurd rfl hc
    | eof => exact absurd rfl hc
    | exists_ => exact absurd rfl hc
    | remove os => exact absurd rfl hc

theorem runCalls_path (pathFor : LLUUID → EType → Path) :
    ∀ (calls : List Call) (s : LLFileSystem × FS),
      s.1.mFilePath = pathFor s.1.mFileID s.1.mFileType →
      (runCalls pathFor calls s).1.mFilePath
        = pathFor (runCalls pathFor calls s).1.mFileID (runCalls pathFor calls s).1.mFileType := by
  intro calls
  induction calls with
  | nil => intro s hs; exact hs
  | cons c rest ih =>
    intro s hs
    exact ih (c.run pathFor s) (Call.run_path pathFor c s hs)

/-- Only `fopen` with `a+b` yields an append stream. -/
theorem fopen_append (os : Os) (fs : FS) (p : Path) (fm : FMode) (st : Stream)
    (ho : (fopen os fs p fm).1 = some st) (ha : st.append = true) : fm = FMode.aPlusB := by
  cases fm with
  | aPlusB => rfl
  | rb =>
    unfold fopen at ho
    cases hp : fs p with
    | none => rw [hp] at ho; exact absurd ho (by simp)
    | some nd =>
      cases nd with
      | file d m =>
        rw [hp] at ho
        have : st = ⟨false, 0, []⟩ := (Option.some.inj ho).symm
        rw [this] at ha
        exact absurd ha Bool.noConfusion
      | dir m => rw [hp] at ho; exact absurd ho (by simp)
  | rPlusB =>
    unfold fopen at ho
    cases hp : fs p with
    | none => rw [hp] at ho; exact absurd ho (by simp)
    | some nd =>
      cases nd with
      | file d m =>
        rw [hp] at ho
        have : st = ⟨false, 0, []⟩ := (Option.some.inj ho).symm
        rw [this] at ha
        exact absurd ha Bool.noConfusion
      | dir m => rw [hp] at ho; exact absurd ho (by simp)
  | wb =>
    unfold fopen at ho
    cases hp : fs p with
    | none =>
      rw [hp] at ho
      have : st = ⟨false, 0, []⟩ := (Option.some.inj ho).symm
      rw [this] at ha
      exact absurd ha Bool.noConfusion
    | some nd =>
      cases nd with
      | file d m =>
        rw [hp] at ho
        have : st = ⟨false, 0, []⟩ := (Option.some.inj ho).symm
        rw [this] at ha
        exact absurd ha Bool.noConfusion
      | dir m => rw [hp] at ho; exact absurd ho (by simp)
  | wbPlus =>
    unfold fopen at ho
    cases hp : fs p with
    | none =>
      rw [hp] at ho
      have : st = ⟨false, 0, []⟩ := (Option.some.inj ho).symm
      rw [this] at ha
      exact absurd ha Bool.noConfusion
    | some nd =>
      cases nd with
      | file d m =>
        rw [hp] at ho
        have : st = ⟨false, 0, []⟩ := (Option.some.inj ho).symm
        rw [this] at ha
        exact absurd ha Bool.noConfusion
      | dir m => rw [hp] at ho; exact absurd ho (by simp)

/-- Every stream `fopen` with `a+b` yields is an append stream. -/
theorem fopen_aPlusB_append (os : Os) (fs : FS) (p : Path) (st : Stream)
    (ho : (fopen os fs p FMode.aPlusB).1 = some st) : st.append = true := by
  unfold fopen at ho
  cases hp : fs p with
  | none =>
    rw [hp] at ho
    rw [← Option.some.inj ho]
  | some nd =>
    cases nd with
    | file d m =>
      rw [hp] at ho
      rw [← Option.some.inj ho]
    | dir m =>
      rw [hp] at ho
      exact absurd ho (by simp)

/-- The method `open()` keeps the mode, and the stream it leaves is an append
stream only in Append mode, provided that held before. -/
theorem open_stream (os : Os) (h : LLFileSystem) (fs : FS)
    (hinv : ∀ st, h.mFile = some st → st.append = true → h.mMode = APPEND) :
    (h.open_ os fs).2.1.mMode = h.mMode ∧
    (∀ st, (h.open_ os fs).2.1.mFile = some st → st.append = true → h.mMode = APPEND) := by
  have hr1 : ∀ st, (if h.mMode = READ then fopen os fs h.mFilePath FMode.rb
      else if h.mMode = WRITE then fopen os fs h.mFilePath FMode.wb
      else if h.mMode = READ_WRITE then fopen os fs h.mFilePath FMode.rPlusB
      else if h.mMode = APPEND then fopen os fs h.mFilePath FMode.aPlusB
      else (h.mFile, fs)).1 = some st → st.append = true → h.mMode = APPEND := by
    intro st hst ha
    split_ifs at hst with h1 h2 h3 h4
    · exact absurd (fopen_append os fs _ _ st hst ha) (by decide)
    · exact absurd (fopen_append os fs _ _ st hst ha) (by decide)
    · exact absurd (fopen_append os fs _ _ st hst ha) (by decide)
    · exact h4
    · exact hinv st hst ha
  have hr2 : ∀ st, (LLFileSystem.open_ os h fs).2.1.mFile = some st → st.append = true →
      h.mMode = APPEND := by
    intro st hst ha
    unfold LLFileSystem.open_ at hst
    dsimp only at hst
    generalize hr1def : (if h.mMode = READ then fopen os fs h.mFilePath FMode.rb
      else if h.mMode = WRITE then fopen os fs h.mFilePath FMode.wb
      else if h.mMode = READ_WRITE then fopen os fs h.mFilePath FMode.rPlusB
      else if h.mMode = APPEND then fopen os fs h.mFilePath FMode.aPlusB
      else (h.mFile, fs)) = r1 at hst
    have hr1g : ∀ st, r1.1 = some st → st.append = true → h.mMode = APPEND := by
      rw [← hr1def]
      exact hr1
    split at hst
    · rename_i st0 heq
      have hst0 : st0 = st := Option.some.inj hst
      subst hst0
      by_cases hc : h.mMode = READ_WRITE ∧ r1.1 = none
      · rw [if_pos hc] at heq
        exact absurd (fopen_append os _ _ _ st0 heq ha) (by decide)
      · rw [if_neg hc] at heq
        exact hr1g st0 heq ha
    · exact absurd hst (by simp)
  refine ⟨?_, hr2⟩
  unfold LLFileSystem.open_
  dsimp only
  split <;> rfl

/-- The stream `open()` leaves in Append mode is an append stream. -/
theorem open_append_stream (os : Os) (h : LLFileSystem) (fs : FS) (st : Stream)
    (hm : h.mMode = APPEND) (hst : (h.open_ os fs).2.1.mFile = some st) :
    st.append = true := by
  rw [open_append_mode os h fs hm] at hst
  cases hf : (fopen os fs h.mFilePath FMode.aPlusB).1 with
  | none =>
    rw [hf] at hst
    exact absurd hst (by simp)
  | some st0 =>
    rw [hf] at hst
    have e : st0 = st := Option.some.inj hst
    rw [← e]
    exact fopen_aPlusB_append os fs h.mFilePath st0 hf

/-- The methods `read`, `write` and `seek` keep the mode and the kind of the
stream. -/
theorem read_stream (os : Os) (h : LLFileSystem) (fs : FS) (buffer : List U8) (bytes : Int) :
    (h.read os fs buffer bytes).2.1.mMode = h.mMode ∧
    (∀ st1, (h.read os fs buffer bytes).2.1.mFile = some st1 →
      ∃ st, h.mFile = some st ∧ st1.append = st.append) := by
  cases hf : h.mFile with
  | none =>
    rw [read_rejected os h fs buffer bytes (Or.inl hf)]
    refine ⟨rfl, ?_⟩
    intro st1 h1
    rw [hf] at h1
    exact absurd h1 (by simp)
  | some st =>
    by_cases hg : Int.land h.mMode READ = 0
    · rw [read_rejected os h fs buffer bytes (Or.inr hg)]
      exact ⟨rfl, fun st1 h1 => ⟨st, rfl, by rw [hf] at h1; rw [Option.some.inj h1]⟩⟩
    · obtain ⟨_, hmd, ⟨st2, hst2, _, hap⟩, _⟩ := read_frame os h fs buffer bytes st hf hg
      refine ⟨hmd, fun st1 h1 => ⟨st, rfl, ?_⟩⟩
      rw [hst2] at h1
      rw [← Option.some.inj h1]
      exact hap

theorem write_stream (os : Os) (h : LLFileSystem) (fs : FS) (buffer : List U8) (bytes : Int) :
    (h.write os fs buffer bytes).2.1.mMode = h.mMode ∧
    (∀ st1, (h.write os fs buffer bytes).2.1.mFile = some st1 →
      ∃ st, h.mFile = some st ∧ st1.append = st.append) := by
  cases hf : h.mFile with
  | none =>
    rw [write_rejected os h fs buffer bytes (Or.inl hf)]
    refine ⟨rfl, ?_⟩
    intro st1 h1
    rw [hf] at h1
    exact absurd h1 (by simp)
  | some st =>
    by_cases hg : LLFileSystem.writeGuard h.mMode = true
    · rw [write_rejected os h fs buffer bytes (Or.inr hg)]
      exact ⟨rfl, fun st1 h1 => ⟨st, rfl, by rw [hf] at h1; rw [Option.some.inj h1]⟩⟩
    · have hg2 : LLFileSystem.writeGuard h.mMode = false := by
        cases hx : LLFileSystem.writeGuard h.mMode with
        | true => exact absurd hx hg
        | false => rfl
      by_cases hm : h.mMode = READ_WRITE
      · by_cases hc : 0 ≤ h.mPosition
        · rw [write_random os h fs buffer bytes st hf hm hc]
          refine ⟨rfl, fun st1 h1 => ⟨st, rfl, ?_⟩⟩
          have h2 := Option.some.inj h1
          rw [← h2, fwrite_append]
        · rw [write_random_negative os h fs buffer bytes st hf hm (by omega)]
          exact ⟨rfl, fun st1 h1 => ⟨st, rfl, by rw [← Option.some.inj h1]⟩⟩
      · rw [write_sequential os h fs buffer bytes st hf hg2 hm]
        refine ⟨rfl, fun st1 h1 => ⟨st, rfl, ?_⟩⟩
        have h2 := Option.some.inj h1
        rw [← h2, fwrite_append]


/-- Every call keeps the mode, and keeps the stream an append stream only in
Append mode. -/
theorem Call.run_stream (pathFor : LLUUID → EType → Path) (c : Call) (s : LLFileSystem × FS)
    (hinv : ∀ st, s.1.mFile = some st → st.append = true → s.1.mMode = APPEND) :
    (c.run pathFor s).1.mMode = s.1.mMode ∧
    (∀ st, (c.run pathFor s).1.mFile = some st → st.append = true →
      (c.run pathFor s).1.mMode = APPEND) := by
  have closed : ∀ h1 : LLFileSystem, h1.mFile = none → h1.mMode = s.1.mMode →
      h1.mMode = s.1.mMode ∧ (∀ st, h1.mFile = some st → st.append = true → h1.mMode = APPEND) := by
    intro h1 hf hm
    refine ⟨hm, ?_⟩
    intro st hst
    rw [hf] at hst
    exact absurd hst (by simp)
  have kept : ∀ h1 : LLFileSystem, h1.mMode = s.1.mMode →
      (∀ st1, h1.mFile = some st1 → ∃ st, s.1.mFile = some st ∧ st1.append = st.append) →
      h1.mMode = s.1.mMode ∧ (∀ st, h1.mFile = some st → st.append = true → h1.mMode = APPEND) := by
    intro h1 hm hk
    refine ⟨hm, ?_⟩
    intro st1 hst1 ha
    obtain ⟨st, hst, hap⟩ := hk st1 hst1
    rw [hm]
    exact hinv st hst (by rw [← hap]; exact ha)
  cases c with
  | open_ os =>
    obtain ⟨hm, hs⟩ := open_stream os s.1 s.2 hinv
    refine ⟨hm, ?_⟩
    intro st hst ha
    have hm2 : (s.1.open_ os s.2).2.1.mMode = APPEND := by
      rw [hm]
      exact hs st hst ha
    exact hm2
  | close os =>
    exact closed _ (close_identity os s.1 s.2).2.2.2.2.2.2 (close_identity os s.1 s.2).2.2.2.1
  | read os buffer bytes =>
    exact kept _ (read_stream os s.1 s.2 buffer bytes).1 (read_stream os s.1 s.2 buffer bytes).2
  | write os buffer bytes =>
    exact kept _ (write_stream os s.1 s.2 buffer bytes).1 (write_stream os s.1 s.2 buffer bytes).2
  | seek offset origin =>
    refine kept _ (seek_stream s.1 s.2 offset origin).1 ?_
    intro st1 hst1
    have hf : (s.1.seek s.2 offset origin).2.mFile = s.1.mFile :=
      (seek_stream s.1 s.2 offset origin).2
    exact ⟨st1, by rw [← hf]; exact hst1, rfl⟩
  | tell => exact ⟨rfl, hinv⟩
  | getSize => exact ⟨rfl, hinv⟩
  | eof => exact ⟨rfl, hinv⟩
  | exists_ => exact ⟨rfl, hinv⟩
  | rename os new_id new_type =>
    have e : (Call.run pathFor (Call.rename os new_id new_type) s).1
        = { s.1 with mFile := none, mFileID := new_id, mFileType := new_type,
                     mFilePath := pathFor new_id new_type } :=
      rename_handle pathFor os s.1 s.2 new_id new_type
    rw [e]
    exact closed _ rfl rfl
  | remove os =>
    have e : (Call.run pathFor (Call.remove os) s).1 = { s.1 with mFile := none } :=
      remove_handle os s.1 s.2
    rw [e]
    exact closed _ rfl rfl

theorem runCalls_stream (pathFor : LLUUID → EType → Path) :
    ∀ (calls : List Call) (s : LLFileSystem × FS),
      (∀ st, s.1.mFile = some st → st.append = true → s.1.mMode = APPEND) →
      (runCalls pathFor calls s).1.mMode = s.1.mMode ∧
      (∀ st, (runCalls pathFor calls s).1.mFile = some st → st.append = true →
        (runCalls pathFor calls s).1.mMode = APPEND) := by
  intro calls
  induction calls with
  | nil => intro s hs; exact ⟨rfl, hs⟩
  | cons c rest ih =>
    intro s hs
    obtain ⟨hm, hi⟩ := Call.run_stream pathFor c s hs
    obtain ⟨hm2, hi2⟩ := ih (c.run pathFor s) hi
    exact ⟨hm2.trans hm, hi2⟩

/-- The stream of a ReadWrite handle reached from the constructor is not an
append stream. -/
theorem read_write_stream (pathFor : LLUUID → EType → Path) (file_id : LLUUID)
    (file_type : EType) (fs : FS) (calls : List Call) (st : Stream)
    (hst : (runCalls pathFor calls
      (LLFileSystem.construct pathFor file_id file_type READ_WRITE, fs)).1.mFile = some st) :
    st.append = false := by
  obtain ⟨hm, hi⟩ := runCalls_stream pathFor calls
    (LLFileSystem.construct pathFor file_id file_type READ_WRITE, fs)
    (fun st0 h0 => absurd h0 (by simp [LLFileSystem.construct]))
  cases ha : st.append with
  | false => rfl
  | true =>
    have h1 := hi st hst ha
    rw [hm] at h1
    have h2 : READ_WRITE = APPEND := h1
    exact absurd h2 (by decide)

/-- In Append mode every call keeps the stream an append stream. -/
theorem Call.run_append_stream (pathFor : LLUUID → EType → Path) (c : Call)
    (s : LLFileSystem × FS) (hm : s.1.mMode = APPEND)
    (hinv : ∀ st, s.1.mFile = some st → st.append = true) :
    ∀ st, (c.run pathFor s).1.mFile = some st → st.append = true := by
  have closed : ∀ h1 : LLFileSystem, h1.mFile = none →
      ∀ st, h1.mFile = some st → st.append = true := by
    intro h1 hf st hst
    rw [hf] at hst
    exact absurd hst (by simp)
  have kept : ∀ h1 : LLFileSystem,
      (∀ st1, h1.mFile = some st1 → ∃ st, s.1.mFile = some st ∧ st1.append = st.append) →
      ∀ st, h1.mFile = some st → st.append = true := by
    intro h1 hk st1 hst1
    obtain ⟨st, hst, hap⟩ := hk st1 hst1
    rw [hap]
    exact hinv st hst
  cases c with
  | open_ os => exact fun st hst => open_append_stream os s.1 s.2 st hm hst
  | close os => exact closed _ (close_identity os s.1 s.2).2.2.2.2.2.2
  | read os buffer bytes => exact kept _ (read_stream os s.1 s.2 buffer bytes).2
  | write os buffer bytes => exact kept _ (write_stream os s.1 s.2 buffer bytes).2
  | seek offset origin =>
    refine kept _ ?_
    intro st1 hst1
    have hf : (s.1.seek s.2 offset origin).2.mFile = s.1.mFile :=
      (seek_stream s.1 s.2 offset origin).2
    exact ⟨st1, by rw [← hf]; exact hst1, rfl⟩
  | tell => exact hinv
  | getSize => exact hinv
  | eof => exact hinv
  | exists_ => exact hinv
  | rename os new_id new_type =>
    have e : (Call.run pathFor (Call.rename os new_id new_type) s).1
        = { s.1 with mFile := none, mFileID := new_id, mFileType := new_type,
                     mFilePath := pathFor new_id new_type } :=
      rename_handle pathFor os s.1 s.2 new_id new_type
    rw [e]
    exact closed _ rfl
  | remove os =>
    have e : (Call.run pathFor (Call.remove os) s).1 = { s.1 with mFile := none } :=
      remove_handle os s.1 s.2
    rw [e]
    exact closed _ rfl

theorem runCalls_append_stream (pathFor : LLUUID → EType → Path) :
    ∀ (calls : List Call) (s : LLFileSystem × FS), s.1.mMode = APPEND →
      (∀ st, s.1.mFile = some st → st.append = true) →
      ∀ st, (runCalls pathFor calls s).1.mFile = some st → st.append = true := by
  intro calls
  induction calls with
  | nil => intro s _ hs; exact hs
  | cons c rest ih =>
    intro s hm hs
    have hm1 : (c.run pathFor s).1.mMode = APPEND :=
      (Call.run_stream pathFor c s (fun _ _ _ => hm)).1.trans hm
    exact ih (c.run pathFor s) hm1 (Call.run_append_stream pathFor c s hm hs)

/-- The stream of a Write or Append handle reached from the constructor: an
append stream in Append mode, not one in Write mode. -/
theorem sequential_stream (pathFor : LLUUID → EType → Path) (file_id : LLUUID)
    (file_type : EType) (mode : Int) (fs : FS) (calls : List Call) (st : Stream)
    (hst : (runCalls pathFor calls
      (LLFileSystem.construct pathFor file_id file_type mode, fs)).1.mFile = some st) :
    (runCalls pathFor calls
      (LLFileSystem.construct pathFor file_id file_type mode, fs)).1.mMode = mode ∧
    (mode = WRITE → st.append = false) ∧ (mode = APPEND → st.append = true) := by
  obtain ⟨hm, hi⟩ := runCalls_stream pathFor calls
    (LLFileSystem.construct pathFor file_id file_type mode, fs)
    (fun st0 h0 => absurd h0 (by simp [LLFileSystem.construct]))
  refine ⟨hm, ?_, ?_⟩
  · intro hW
    cases ha : st.append with
    | false => rfl
    | true =>
      have h1 := hi st hst ha
      rw [hm] at h1
      have h2 : mode = APPEND := h1
      rw [hW] at h2
      exact absurd h2 (by decide)
  · intro hA
    exact runCalls_append_stream pathFor calls
      (LLFileSystem.construct pathFor file_id file_type mode, fs) hA
      (fun st0 h0 => absurd h0 (by simp [LLFileSystem.construct])) st hst

/-- Writing at the end of the file appends. -/
theorem splice_end (d w : List U8) : splice d d.length w = d ++ w := by
  unfold splice
  rw [List.take_length, Nat.sub_self, List.replicate_zero, List.append_nil,
    List.drop_eq_nil_of_le (Nat.le_add_right _ _), List.append_nil]

/-- Writing inside the file, or right at its end, leaves no gap. -/
theorem splice_inside (d w : List U8) (c : Nat) (hc : c ≤ d.length) :
    splice d c w = d.take c ++ w ++ d.drop (c + w.length) := by
  unfold splice
  rw [Nat.sub_eq_zero_of_le hc, List.replicate_zero, List.append_nil]

/-- Writing no byte inside the file changes nothing. -/
theorem splice_nil (d : List U8) (c : Nat) (hc : c ≤ d.length) : splice d c [] = d := by
  rw [splice_inside d [] c hc, List.append_nil, List.length_nil, Nat.add_zero,
    List.take_append_drop]

theorem length_splice (d w : List U8) (c : Nat) :
    (splice d c w).length = max d.length (c + w.length) := by
  unfold splice
  simp only [List.length_append, List.length_take, List.length_replicate, List.length_drop]
  omega

/-- The bytes before the write are those of the file, then zero bytes. -/
theorem take_splice (d w : List U8) (c : Nat) :
    (splice d c w).take c = d.take c ++ List.replicate (c - d.length) 0 := by
  unfold splice
  have hl : (d.take c ++ List.replicate (c - d.length) 0).length = c := by
    simp only [List.length_append, List.length_take, List.length_replicate]
    omega
  rw [List.append_assoc (List.take c d ++ List.replicate (c - d.length) 0),
    List.take_left' hl]

/-- After the bytes of the write come those the file had there. -/
theorem drop_splice (d w : List U8) (c : Nat) :
    (splice d c w).drop (c + w.length) = d.drop (c + w.length) := by
  unfold splice
  have hl : (d.take c ++ List.replicate (c - d.length) 0 ++ w).length = c + w.length := by
    simp only [List.length_append, List.length_take, List.length_replicate]
    omega
  rw [List.drop_left' hl]

/-- Two writes, the second where the first ended, are one write of both. -/
theorem splice_splice (d p w : List U8) (a : Nat) :
    splice (splice d a p) (a + p.length) w = splice d a (p ++ w) := by
  have h1 : (splice d a p).take (a + p.length)
      = d.take a ++ List.replicate (a - d.length) 0 ++ p := by
    have hl : (d.take a ++ List.replicate (a - d.length) 0 ++ p).length = a + p.length := by
      simp only [List.length_append, List.length_take, List.length_replicate]
      omega
    unfold splice
    rw [List.take_left' hl]
  have h2 : a + p.length - (splice d a p).length = 0 := by
    rw [length_splice]
    omega
  have h3 : (splice d a p).drop (a + p.length + w.length) = d.drop (a + (p ++ w).length) := by
    have e : a + p.length + w.length = (a + p.length) + w.length := rfl
    rw [e, ← List.drop_drop, drop_splice, List.drop_drop, List.length_append]
    congr 1
    omega
  have key : splice (splice d a p) (a + p.length) w
      = (splice d a p).take (a + p.length)
        ++ List.replicate (a + p.length - (splice d a p).length) 0 ++ w
        ++ (splice d a p).drop (a + p.length + w.length) := rfl
  rw [key, h1, h2, h3, List.replicate_zero, List.append_nil]
  unfold splice
  simp only [List.append_assoc]

/-- The bytes a flush leaves do not depend on the clock. -/
theorem contents_fflush_os (os os2 : Os) (fs : FS) (p q : Path) (st : Stream) :
    contents (fflush os2 fs p st).2 q = contents (fflush os fs p st).2 q := by
  unfold fflush
  by_cases hc : st.pending = []
  · rw [if_pos hc, if_pos hc]
  · rw [if_neg hc, if_neg hc]
    cases hp : fs p with
    | none => rfl
    | some nd =>
      cases nd with
      | file d m =>
        dsimp only
        by_cases hq : q = p
        · subst hq
          unfold contents
          rw [FS.set_same, FS.set_same]
        · unfold contents
          rw [FS.set_other _ _ _ _ hq, FS.set_other _ _ _ _ hq]
      | dir m => rfl

/-- The bytes at a path where a regular file is. -/
theorem contents_of_file (fs : FS) (p : Path) (d : List U8) (m : Int)
    (hp : fs p = some (Node.file d m)) : contents fs p = some d := by
  unfold contents
  rw [hp]

/-- The bytes of a regular file after a flush. -/
theorem contents_fflush_file (os : Os) (fs : FS) (p : Path) (st : Stream) (d : List U8)
    (m : Int) (hp : fs p = some (Node.file d m)) :
    contents (fflush os fs p st).2 p
      = some (if st.pending = [] then d
          else splice d (if st.append then d.length else st.pos - st.pending.length)
            st.pending) := by
  by_cases hc : st.pending = []
  · rw [fflush_clean os fs p st hc, if_pos hc]
    exact contents_of_file fs p d m hp
  · rw [fflush_file os fs p st d m hp hc, if_neg hc]
    exact contents_of_file _ p _ os.now (FS.set_same _ _ _)

/-- A path with bytes holds a regular file. -/
theorem file_of_contents (fs : FS) (p : Path) (d : List U8) (hc : contents fs p = some d) :
    ∃ m : Int, fs p = some (Node.file d m) := by
  unfold contents at hc
  cases hq : fs p with
  | none => rw [hq] at hc; exact absurd hc (by simp)
  | some nd =>
    cases nd with
    | file d2 m =>
      rw [hq] at hc
      simp only [Option.some.injEq] at hc
      exact ⟨m, by rw [hc]⟩
    | dir m => rw [hq] at hc; exact absurd hc (by simp)

/-- A write taken in full through a stream that is not an append stream, over
a regular file: the count is full, the position advances by it, and after the
next flush the file is the one the stream saw before with the bytes written
at the stream's position.  Until that flush the file on disk is either as it
was or already the new one. -/
theorem fwrite_seen (os os1 os2 : Os) (fs : FS) (p : Path) (st : Stream) (src d : List U8)
    (m : Int) (hp : fs p = some (Node.file d m)) (happ : st.append = false)
    (hinv : st.pending.length ≤ st.pos) (hroom : src.length ≤ os.room) (hne : src ≠ []) :
    (fwrite os fs p st src).1 = src.length ∧
    (fwrite os fs p st src).2.1.pos = st.pos + src.length ∧
    (fwrite os fs p st src).2.1.pending.length ≤ (fwrite os fs p st src).2.1.pos ∧
    ∃ d0, contents (fflush os1 fs p st).2 p = some d0 ∧
      contents (fflush os2 (fwrite os fs p st src).2.2 p (fwrite os fs p st src).2.1).2 p
        = some (splice d0 st.pos src) ∧
      (src.length ≤ os.bufferRoom → (fwrite os fs p st src).2.2 = fs) ∧
      (¬ src.length ≤ os.bufferRoom →
        contents (fwrite os fs p st src).2.2 p = some (splice d0 st.pos src)) := by
  have hd0 := contents_fflush_file os1 fs p st d m hp
  by_cases hb : src.length ≤ os.bufferRoom
  · rw [fwrite_buffered os fs p st src hne hb]
    have hpe : st.pending ++ src ≠ [] := by
      intro hh
      exact hne (List.append_eq_nil.mp hh).2
    refine ⟨rfl, ?_, ?_, _, hd0, ?_, fun _ => rfl, fun hnb => absurd hb hnb⟩
    · dsimp only
      rw [happ]
      rfl
    · dsimp only
      rw [happ, List.length_append]
      simp only [Bool.false_eq_true, if_false]
      omega
    · rw [contents_fflush_file os2 fs p _ d m hp]
      dsimp only
      rw [if_neg hpe, happ]
      simp only [Bool.false_eq_true, if_false]
      by_cases hc : st.pending = []
      · rw [if_pos hc]
        simp only [hc, List.nil_append, List.length_nil, Nat.zero_add, Nat.add_sub_cancel]
      · rw [if_neg hc, List.length_append]
        have e1 : st.pos + src.length - (st.pending.length + src.length)
            = st.pos - st.pending.length := by omega
        have e2 : splice (splice d (st.pos - st.pending.length) st.pending) st.pos src
            = splice (splice d (st.pos - st.pending.length) st.pending)
                (st.pos - st.pending.length + st.pending.length) src := by
          congr 1
          omega
        rw [e1, e2, splice_splice]
  · obtain ⟨d1, m1, hF⟩ := fflush_keeps_file os fs p st d m hp
    have htake : src.take os.room = src := List.take_of_length_le hroom
    have hw : src.take os.room ≠ [] := by rw [htake]; exact hne
    have hd1 : contents (fflush os fs p st).2 p = some d1 := contents_of_file _ p d1 m1 hF
    have hsame : d1 = (if st.pending = [] then d
        else splice d (if st.append then d.length else st.pos - st.pending.length)
          st.pending) := by
      rw [contents_fflush_os os1 os fs p p st] at hd1
      rw [hd0] at hd1
      exact (Option.some.inj hd1).symm
    have e : fwrite os fs p st src =
        (src.length, { st with pos := st.pos + src.length, pending := [] },
          (fflush os fs p st).2.set p (some (Node.file (splice d1 st.pos src) os.now))) := by
      rw [fwrite_direct os fs p st src d1 m1 hne hb hF hw, htake, happ]
      rfl
    rw [e]
    refine ⟨rfl, rfl, Nat.zero_le _, _, hd0, ?_, fun hbb => absurd hbb hb, fun _ => ?_⟩
    · rw [fflush_clean os2 _ p _ rfl]
      dsimp only
      rw [← hsame]
      exact contents_of_file _ p _ os.now (FS.set_same _ _ _)
    · dsimp only
      rw [← hsame]
      exact contents_of_file _ p _ os.now (FS.set_same _ _ _)

/-- A write taken in full through an append stream over a regular file: the
count is full, and after the next flush the file is the one the stream saw
before with the bytes at its end; the position is the end of that file. -/
theorem fwrite_seen_append (os os1 os2 : Os) (fs : FS) (p : Path) (st : Stream)
    (src d : List U8) (m : Int) (hp : fs p = some (Node.file d m)) (happ : st.append = true)
    (hroom : src.length ≤ os.room) (hne : src ≠ []) :
    (fwrite os fs p st src).1 = src.length ∧
    ∃ d0, contents (fflush os1 fs p st).2 p = some d0 ∧
      (fwrite os fs p st src).2.1.pos = d0.length + src.length ∧
      contents (fflush os2 (fwrite os fs p st src).2.2 p (fwrite os fs p st src).2.1).2 p
        = some (d0 ++ src) ∧
      (src.length ≤ os.bufferRoom → (fwrite os fs p st src).2.2 = fs) ∧
      (¬ src.length ≤ os.bufferRoom →
        contents (fwrite os fs p st src).2.2 p = some (d0 ++ src)) := by
  have hd0 := contents_fflush_file os1 fs p st d m hp
  rw [happ] at hd0
  simp only [if_true] at hd0
  by_cases hb : src.length ≤ os.bufferRoom
  · rw [fwrite_buffered os fs p st src hne hb]
    have hpe : st.pending ++ src ≠ [] := by
      intro hh
      exact hne (List.append_eq_nil.mp hh).2
    refine ⟨rfl, _, hd0, ?_, ?_, fun _ => rfl, fun hnb => absurd hb hnb⟩
    · dsimp only
      rw [happ, hp]
      simp only [if_true]
      by_cases hc : st.pending = []
      · rw [if_pos hc, hc, List.length_nil, Nat.add_zero]
      · rw [if_neg hc, splice_end, List.length_append]
    · rw [contents_fflush_file os2 fs p _ d m hp]
      dsimp only
      rw [if_neg hpe, happ]
      simp only [if_true]
      by_cases hc : st.pending = []
      · rw [if_pos hc, hc, List.nil_append, splice_end]
      · rw [if_neg hc, splice_end, splice_end, List.append_assoc]
  · obtain ⟨d1, m1, hF⟩ := fflush_keeps_file os fs p st d m hp
    have htake : src.take os.room = src := List.take_of_length_le hroom
    have hw : src.take os.room ≠ [] := by rw [htake]; exact hne
    have hd1 : contents (fflush os fs p st).2 p = some d1 := contents_of_file _ p d1 m1 hF
    have hsame : d1 = (if st.pending = [] then d else splice d d.length st.pending) := by
      rw [contents_fflush_os os1 os fs p p st] at hd1
      rw [hd0] at hd1
      exact (Option.some.inj hd1).symm
    have e : fwrite os fs p st src =
        (src.length, { st with pos := d1.length + src.length, pending := [] },
          (fflush os fs p st).2.set p (some (Node.file (d1 ++ src) os.now))) := by
      rw [fwrite_direct os fs p st src d1 m1 hne hb hF hw, htake, happ]
      simp only [if_true, splice_end]
    rw [e]
    refine ⟨rfl, _, hd0, ?_, ?_, fun hbb => absurd hbb hb, fun _ => ?_⟩
    · dsimp only
      rw [← hsame]
    · rw [fflush_clean os2 _ p _ rfl]
      dsimp only
      rw [← hsame]
      exact contents_of_file _ p _ os.now (FS.set_same _ _ _)
    · dsimp only
      rw [← hsame]
      exact contents_of_file _ p _ os.now (FS.set_same _ _ _)

/-- A write taken in full on an empty file, through a stream at position 0
with an empty buffer: the count is full, the position is the length, and
after the next flush the file holds the bytes; until then the file is as it
was or holds them already. -/
theorem fwrite_fresh (os os2 : Os) (fs : FS) (p : Path) (st : Stream) (B : List U8) (m : Int)
    (hp : fs p = some (Node.file [] m)) (hpos : st.pos = 0) (hclean : st.pending = [])
    (hroom : B.length ≤ os.room) :
    (fwrite os fs p st B).1 = B.length ∧
    (fwrite os fs p st B).2.1.pos = B.length ∧
    contents (fflush os2 (fwrite os fs p st B).2.2 p (fwrite os fs p st B).2.1).2 p
      = some B ∧
    ((fwrite os fs p st B).2.2 = fs ∨ contents (fwrite os fs p st B).2.2 p = some B) := by
  have hd0 : contents (fflush os fs p st).2 p = some [] := by
    rw [fflush_clean os fs p st hclean]
    exact contents_of_file fs p [] m hp
  by_cases hne : B = []
  · subst hne
    rw [fwrite_nil]
    refine ⟨rfl, hpos, ?_, Or.inl rfl⟩
    rw [contents_fflush_os os os2 fs p p st]
    exact hd0
  · cases happ : st.append with
    | false =>
      obtain ⟨h1, h2, _, d0, hd, hc, hb, hnb⟩ := fwrite_seen os os os2 fs p st B [] m hp happ
        (by rw [hclean]; exact Nat.zero_le _) hroom hne
      rw [hd0] at hd
      have e : d0 = [] := (Option.some.inj hd).symm
      have e2 : splice ([] : List U8) 0 B = B := by
        have := splice_end ([] : List U8) B
        simpa using this
      rw [e, hpos, e2] at hc hnb
      refine ⟨h1, by rw [h2, hpos, Nat.zero_add], hc, ?_⟩
      by_cases hbuf : B.length ≤ os.bufferRoom
      · exact Or.inl (hb hbuf)
      · exact Or.inr (hnb hbuf)
    | true =>
      obtain ⟨h1, d0, hd, h2, hc, hb, hnb⟩ := fwrite_seen_append os os os2 fs p st B [] m hp
        happ hroom hne
      rw [hd0] at hd
      have e : d0 = [] := (Option.some.inj hd).symm
      rw [e, List.nil_append] at hc hnb
      rw [e] at h2
      refine ⟨h1, by rw [h2, List.length_nil, Nat.zero_add], hc, ?_⟩
      by_cases hbuf : B.length ≤ os.bufferRoom
      · exact Or.inl (hb hbuf)
      · exact Or.inr (hnb hbuf)

/-- A write of `N` bytes, taken in full, on a handle just opened on an empty
file, in any writable mode: it succeeds, the cursor is `N`, and once the
stream is flushed the file holds the bytes; until then the filesystem is as
it was or the file holds them already; other paths are untouched. -/
theorem write_to_empty_file (os : Os) (h : LLFileSystem) (fs : FS) (B : List U8) (N : Int)
    (st : Stream) (m : Int)
    (hopen : h.mFile = some st) (hpos : st.pos = 0) (hclean : st.pending = [])
    (hc : h.mPosition = 0)
    (hmode : h.mMode = WRITE ∨ h.mMode = READ_WRITE ∨ h.mMode = APPEND)
    (hfile : fs h.mFilePath = some (Node.file [] m))
    (hlen : (B.length : Int) = N) (hN : inS32 N) (hroom : B.length ≤ os.room) :
    (h.write os fs B N).1 = true ∧
    (h.write os fs B N).2.1.tell = N ∧
    (h.write os fs B N).2.1.mFilePath = h.mFilePath ∧
    (h.write os fs B N).2.1.mMode = h.mMode ∧
    (∃ st1, (h.write os fs B N).2.1.mFile = some st1 ∧ st1.append = st.append) ∧
    (∀ os2 : Os, contents ((h.write os fs B N).2.1.flushed os2 (h.write os fs B N).2.2)
      h.mFilePath = some B) ∧
    (∀ q, q ≠ h.mFilePath → (h.write os fs B N).2.2 q = fs q) ∧
    ((h.write os fs B N).2.2 = fs ∨
      contents (h.write os fs B N).2.2 h.mFilePath = some B) := by
  have hN0 : 0 ≤ N := by omega
  have hsz : toSizeT N = B.length := by
    rw [toSizeT_of_nonneg hN0 hN]
    omega
  have htake : B.take B.length = B := List.take_of_length_le (le_refl _)
  have hwrap : wrapS32 (B.length : Int) = N := by
    rw [hlen]
    exact wrapS32_of_inS32 hN
  have hst0 : ({ st with pos := h.mPosition.toNat, pending := [] } : Stream) = st := by
    cases st
    simp only at hpos hclean
    subst hpos
    subst hclean
    rw [hc]
    rfl
  have hw : h.write os fs B N =
      (decide ((fwrite os fs h.mFilePath st B).1 = B.length),
        { h with
          mFile := some (fwrite os fs h.mFilePath st B).2.1,
          mPosition := wrapS32 (ftell (fwrite os fs h.mFilePath st B).2.1) },
        (fwrite os fs h.mFilePath st B).2.2) := by
    by_cases hrw : h.mMode = READ_WRITE
    · rw [write_random os h fs B N st hopen hrw (by omega),
        flushed_clean os h fs st hopen hclean, hsz, htake, hst0]
    · rw [write_sequential os h fs B N st hopen (writable_modes _ hmode) hrw, hsz, htake]
  have hf := fun os2 => fwrite_fresh os os2 fs h.mFilePath st B m hfile hpos hclean hroom
  rw [hw]
  refine ⟨?_, ?_, rfl, rfl, ⟨_, rfl, fwrite_append os fs _ st B⟩, ?_, ?_, (hf os).2.2.2⟩
  · simp [(hf os).1]
  · show wrapS32 (ftell (fwrite os fs h.mFilePath st B).2.1) = N
    unfold ftell
    rw [(hf os).2.1]
    exact hwrap
  · intro os2
    rw [flushed_open os2 _ _ (fwrite os fs h.mFilePath st B).2.1 rfl]
    exact (hf os2).2.2.1
  · intro q hq
    exact fwrite_other os fs h.mFilePath q st B hq

/-! ## seek -/

/-- C1: `seek` computes the target as specified.  With `size` the on-disk
size as `getSize()` reports it, `size >= 0`, `base` the cursor when
`origin == -1` and `origin` otherwise, and `target = base + offset` not
overflowing `S32`: a target above `size` clamps the cursor to `size` and
fails, a negative target clamps it to 0 and fails, any other target becomes
the cursor and `seek` succeeds.  In particular `seek(size+100, 0)` fails with
the cursor at `size`, `seek(-(size+100), 0)` fails with the cursor at 0, and
`seek(size, 0)` and `seek(0, 0)` succeed. -/
theorem seek_computes_target (h : LLFileSystem) (fs : FS)
    (hsize : 0 ≤ h.getSize fs) :
    (∀ offset origin : Int,
      inS32 ((if origin = -1 then h.mPosition else origin) + offset) →
      ((if origin = -1 then h.mPosition else origin) + offset > h.getSize fs →
        h.seek fs offset origin = (false, { h with mPosition := h.getSize fs })) ∧
      ((if origin = -1 then h.mPosition else origin) + offset < 0 →
        h.seek fs offset origin = (false, { h with mPosition := 0 })) ∧
      (0 ≤ (if origin = -1 then h.mPosition else origin) + offset →
        (if origin = -1 then h.mPosition else origin) + offset ≤ h.getSize fs →
        h.seek fs offset origin =
          (true, { h with mPosition :=
            (if origin = -1 then h.mPosition else origin) + offset }))) ∧
    (inS32 (h.getSize fs + 100) →
      h.seek fs (h.getSize fs + 100) 0 = (false, { h with mPosition := h.getSize fs }) ∧
      h.seek fs (-(h.getSize fs + 100)) 0 = (false, { h with mPosition := 0 })) ∧
    h.seek fs (h.getSize fs) 0 = (true, { h with mPosition := h.getSize fs }) ∧
    h.seek fs 0 0 = (true, { h with mPosition := 0 }) := by
  have hS := getSize_inS32 h fs
  have key : ∀ offset origin : Int,
      inS32 ((if origin = -1 then h.mPosition else origin) + offset) →
      h.seek fs offset origin =
        if (if origin = -1 then h.mPosition else origin) + offset > h.getSize fs then
          (false, { h with mPosition := h.getSize fs })
        else if (if origin = -1 then h.mPosition else origin) + offset < 0 then
          (false, { h with mPosition := 0 })
        else (true, { h with mPosition :=
            (if origin = -1 then h.mPosition else origin) + offset }) := by
    intro offset origin hsum
    have e : (if -1 = origin then h.mPosition else origin)
        = (if origin = -1 then h.mPosition else origin) := by
      by_cases ho : origin = -1
      · simp [ho]
      · have ho2 : ¬ (-1 = origin) := fun hh => ho hh.symm
        simp [ho, ho2]
    unfold LLFileSystem.seek
    simp only [e, wrapS32_of_inS32 hsum]
  have gen : ∀ offset origin : Int,
      inS32 ((if origin = -1 then h.mPosition else origin) + offset) →
      ((if origin = -1 then h.mPosition else origin) + offset > h.getSize fs →
        h.seek fs offset origin = (false, { h with mPosition := h.getSize fs })) ∧
      ((if origin = -1 then h.mPosition else origin) + offset < 0 →
        h.seek fs offset origin = (false, { h with mPosition := 0 })) ∧
      (0 ≤ (if origin = -1 then h.mPosition else origin) + offset →
        (if origin = -1 then h.mPosition else origin) + offset ≤ h.getSize fs →
        h.seek fs offset origin =
          (true, { h with mPosition :=
            (if origin = -1 then h.mPosition else origin) + offset })) := by
    intro offset origin hsum
    rw [key offset origin hsum]
    refine ⟨?_, ?_, ?_⟩
    · intro hgt
      rw [if_pos hgt]
    · intro hlt
      have hng : ¬ ((if origin = -1 then h.mPosition else origin) + offset > h.getSize fs) := by
        omega
      rw [if_neg hng, if_pos hlt]
    · intro h0 hle
      have hng : ¬ ((if origin = -1 then h.mPosition else origin) + offset > h.getSize fs) := by
        omega
      have hnl : ¬ ((if origin = -1 then h.mPosition else origin) + offset < 0) := by omega
      rw [if_neg hng, if_neg hnl]
  have e0 : ∀ x : Int, (if (0 : Int) = -1 then h.mPosition else 0) + x = x := by
    intro x
    have hne : ¬ ((0 : Int) = -1) := by decide
    rw [if_neg hne, zero_add]
  have atZero : ∀ x : Int, inS32 x →
      (x > h.getSize fs → h.seek fs x 0 = (false, { h with mPosition := h.getSize fs })) ∧
      (x < 0 → h.seek fs x 0 = (false, { h with mPosition := 0 })) ∧
      (0 ≤ x → x ≤ h.getSize fs → h.seek fs x 0 = (true, { h with mPosition := x })) := by
    intro x hx
    have g := gen x 0
    rw [e0 x] at g
    exact g hx
  unfold inS32 at hS
  refine ⟨gen, ?_, ?_, ?_⟩
  · intro h100
    unfold inS32 at h100
    constructor
    · exact (atZero _ (by unfold inS32; omega)).1 (by omega)
    · exact (atZero _ (by unfold inS32; omega)).2.1 (by omega)
  · exact (atZero _ (by unfold inS32; omega)).2.2 hsize (le_refl _)
  · exact (atZero 0 (by unfold inS32; omega)).2.2 (le_refl _) hsize

/-- Witness for C1 on a four-byte entry. -/
theorem seek_computes_target_witness :
    0 ≤ (demoHandle READ).getSize demoFS ∧
    (inS32 ((demoHandle READ).getSize demoFS + 100) →
      (demoHandle READ).seek demoFS ((demoHandle READ).getSize demoFS + 100) 0
        = (false, { demoHandle READ with mPosition := (demoHandle READ).getSize demoFS }) ∧
      (demoHandle READ).seek demoFS (-((demoHandle READ).getSize demoFS + 100)) 0
        = (false, { demoHandle READ with mPosition := 0 })) :=
  ⟨by decide, (seek_computes_target (demoHandle READ) demoFS (by decide)).2.1⟩

/-- C2: after every `seek`, successful or not, the cursor lies in
`[0, size]`, for every offset and origin (their sum taken with 32-bit
wrap-around) and every on-disk size `size >= 0` as `getSize()` reports it
(a value below `2^31`); `seek` returns true only when the cursor equals the
computed target. -/
theorem seek_cursor_in_bounds (h : LLFileSystem) (fs : FS) (offset origin : Int)
    (hsize : 0 ≤ h.getSize fs) :
    h.getSize fs < 2147483648 ∧
    0 ≤ (h.seek fs offset origin).2.tell ∧
    (h.seek fs offset origin).2.tell ≤ h.getSize fs ∧
    (h.seek fs offset origin).2.getSize fs = h.getSize fs ∧
    ((h.seek fs offset origin).1 = true →
      (h.seek fs offset origin).2.tell
        = wrapS32 ((if origin = -1 then h.mPosition else origin) + offset)) := by
  have hS := getSize_inS32 h fs
  unfold inS32 at hS
  have e : (if -1 = origin then h.mPosition else origin)
      = (if origin = -1 then h.mPosition else origin) := by
    by_cases ho : origin = -1
    · simp [ho]
    · have ho2 : ¬ (-1 = origin) := fun hh => ho hh.symm
      simp [ho, ho2]
  refine ⟨hS.2, ?_⟩
  unfold LLFileSystem.seek LLFileSystem.tell
  simp only [e]
  by_cases h1 : wrapS32 ((if origin = -1 then h.mPosition else origin) + offset) > h.getSize fs
  · simp only [if_pos h1]
    refine ⟨hsize, le_refl _, rfl, ?_⟩
    intro hf
    exact absurd hf (by decide)
  · by_cases h2 : wrapS32 ((if origin = -1 then h.mPosition else origin) + offset) < 0
    · simp only [if_neg h1, if_pos h2]
      refine ⟨le_refl _, hsize, rfl, ?_⟩
      intro hf
      exact absurd hf (by decide)
    · simp only [if_neg h1, if_neg h2]
      refine ⟨by omega, by omega, rfl, ?_⟩
      intro _
      trivial

/-- Witness for C2: a relative seek whose sum wraps around. -/
theorem seek_cursor_in_bounds_witness :
    0 ≤ (demoHandle READ).getSize demoFS ∧
    0 ≤ ((demoHandle READ).seek demoFS 2147483647 2147483647).2.tell ∧
    ((demoHandle READ).seek demoFS 2147483647 2147483647).2.tell ≤ (demoHandle READ).getSize demoFS :=
  ⟨by decide,
    (seek_cursor_in_bounds (demoHandle READ) demoFS 2147483647 2147483647 (by decide)).2.1,
    (seek_cursor_in_bounds (demoHandle READ) demoFS 2147483647 2147483647 (by decide)).2.2.1⟩

/-! ## read -/

/-- C3: postcondition of `read` on an open handle in Read or ReadWrite mode.
The file is the entry's file as the handle's stream sees it (`flushed`: the
file on disk when the stream holds no unwritten bytes, as for every handle in
Read mode).  For a file of size `S` (the size `getSize()` reports), a cursor
`c` with `0 <= c <= S` and a byte count `n >= 0`, the call transfers
`k = min(n, S - c)` bytes, exactly the file bytes `[c, c+k)`, into the front
of the buffer; afterwards `getLastBytesRead() == k` and `tell() == c + k`;
the call returns true exactly when `k > 0`; when `n >= S - c`, `eof()` is
true afterwards.  The file's bytes are unchanged. -/
theorem read_postcondition (os : Os) (h : LLFileSystem) (fs : FS) (buffer : List U8)
    (n : Int) (st : Stream) (data : List U8) (m : Int)
    (hopen : h.mFile = some st)
    (hmode : h.mMode = READ ∨ h.mMode = READ_WRITE)
    (hfile : h.flushed os fs h.mFilePath = some (Node.file data m))
    (hS : h.getSize (h.flushed os fs) = data.length)
    (hc0 : 0 ≤ h.mPosition) (hcS : h.mPosition ≤ data.length)
    (hn0 : 0 ≤ n) (hn : inS32 n) :
    (h.read os fs buffer n).2.2.2 =
        (data.drop h.mPosition.toNat).take (min n (data.length - h.mPosition)).toNat
          ++ buffer.drop (min n (data.length - h.mPosition)).toNat ∧
    (((data.drop h.mPosition.toNat).take
        (min n (data.length - h.mPosition)).toNat).length : Int)
      = min n (data.length - h.mPosition) ∧
    (h.read os fs buffer n).2.1.getLastBytesRead = min n (data.length - h.mPosition) ∧
    (h.read os fs buffer n).2.1.tell = h.mPosition + min n (data.length - h.mPosition) ∧
    ((h.read os fs buffer n).1 = true ↔ 0 < min n (data.length - h.mPosition)) ∧
    (n ≥ data.length - h.mPosition →
      (h.read os fs buffer n).2.1.eof (h.read os fs buffer n).2.2.1 = true) ∧
    contents (h.read os fs buffer n).2.2.1 h.mFilePath = some data := by
  have hL : (data.length : Int) < 2147483648 := by
    have := getSize_inS32 h (h.flushed os fs)
    unfold inS32 at this
    omega
  have hnn : toSizeT n = n.toNat := toSizeT_of_nonneg hn0 hn
  have hlen : ((data.drop h.mPosition.toNat).take n.toNat).length
      = (min n (data.length - h.mPosition)).toNat := by
    rw [length_take_drop]
    omega
  have hgot : (data.drop h.mPosition.toNat).take n.toNat
      = (data.drop h.mPosition.toNat).take (min n (data.length - h.mPosition)).toNat := by
    by_cases hle : n.toNat ≤ (data.drop h.mPosition.toNat).length
    · have : (min n (data.length - h.mPosition)).toNat = n.toNat := by
        rw [List.length_drop] at hle
        omega
      rw [this]
    · have h1 : (data.drop h.mPosition.toNat).length ≤ n.toNat := by omega
      have h2 : (data.drop h.mPosition.toNat).length
          ≤ (min n (data.length - h.mPosition)).toNat := by
        rw [List.length_drop] at h1 ⊢
        omega
      rw [List.take_of_length_le h1, List.take_of_length_le h2]
  have hk0 : 0 ≤ min n (data.length - h.mPosition) := by omega
  unfold inS32 at hn
  have hw1 : wrapS32 ((min n (data.length - h.mPosition)).toNat : Int)
      = min n (data.length - h.mPosition) := by
    rw [wrapS32_of_inS32 (by unfold inS32; omega)]
    omega
  have hw2 : wrapS32 ((h.mPosition.toNat + (min n (data.length - h.mPosition)).toNat : Nat) : Int)
      = h.mPosition + min n (data.length - h.mPosition) := by
    rw [wrapS32_of_inS32 (by unfold inS32; omega)]
    omega
  have hr := read_on_file os h fs buffer n st data m hopen (readable_modes _ hmode) hfile hc0
  rw [hnn, hlen, hw1, hw2, hgot] at hr
  rw [hr]
  refine ⟨rfl, ?_, rfl, rfl, ?_, ?_, ?_⟩
  · rw [← hgot, hlen]
    omega
  · simp only [decide_eq_true_eq]
    omega
  · intro hge
    simp only [LLFileSystem.eof, decide_eq_true_eq]
    rw [getSize_after_transfer, getSize_updateFileAccessTime, hS, min_eq_right hge]
    clear hr hw1 hw2 hlen hgot hnn
    omega
  · simp only []
    rw [contents_updateFileAccessTime]
    simp [contents, hfile]

/-- Witness for C3, scenario B: a 2048-byte read of the 1024-byte entry
returns true with `getLastBytesRead() == 1024` and `eof()` true. -/
theorem read_postcondition_witness :
    ((demoOpen READ).mFile = some ⟨false, 0, []⟩ ∧
      ((demoOpen READ).mMode = READ ∨ (demoOpen READ).mMode = READ_WRITE) ∧
      (demoOpen READ).flushed ⟨100, 0, false, 4096, true⟩ scenarioFS (demoOpen READ).mFilePath
        = some (Node.file scenarioData 0) ∧
      (demoOpen READ).getSize ((demoOpen READ).flushed ⟨100, 0, false, 4096, true⟩ scenarioFS)
        = scenarioData.length ∧
      0 ≤ (demoOpen READ).mPosition ∧ (demoOpen READ).mPosition ≤ scenarioData.length ∧
      (0 : Int) ≤ 2048 ∧ inS32 2048) ∧
    ((demoOpen READ).read ⟨100, 0, false, 4096, true⟩ scenarioFS [] 2048).1 = true ∧
    ((demoOpen READ).read ⟨100, 0, false, 4096, true⟩ scenarioFS [] 2048).2.1.getLastBytesRead
      = min 2048 (scenarioData.length - (demoOpen READ).mPosition) ∧
    min (2048 : Int) (scenarioData.length - (demoOpen READ).mPosition) = 1024 ∧
    ((demoOpen READ).read ⟨100, 0, false, 4096, true⟩ scenarioFS [] 2048).2.1.eof
      ((demoOpen READ).read ⟨100, 0, false, 4096, true⟩ scenarioFS [] 2048).2.2.1 = true := by
  have hlen : scenarioData.length = 1024 := by
    unfold scenarioData
    rw [List.length_replicate]
  have hpos : (demoOpen READ).mPosition = 0 := rfl
  have hfl : (demoOpen READ).flushed ⟨100, 0, false, 4096, true⟩ scenarioFS = scenarioFS :=
    flushed_clean _ _ _ ⟨false, 0, []⟩ rfl rfl
  have hsz : (demoOpen READ).getSize
      ((demoOpen READ).flushed ⟨100, 0, false, 4096, true⟩ scenarioFS) = scenarioData.length := by
    rw [hfl, getSize_of_file (demoOpen READ) scenarioFS scenarioData 0 rfl, hlen]
    decide
  have hk : min (2048 : Int) (scenarioData.length - (demoOpen READ).mPosition) = 1024 := by
    rw [hlen, hpos]
    decide
  have hcS : (demoOpen READ).mPosition ≤ scenarioData.length := by
    rw [hlen, hpos]
    decide
  have w := read_postcondition ⟨100, 0, false, 4096, true⟩ (demoOpen READ) scenarioFS [] 2048
    ⟨false, 0, []⟩ scenarioData 0 rfl (Or.inl rfl) (by rw [hfl]; rfl) hsz (by decide) hcS (by decide) (by decide)
  refine ⟨⟨rfl, Or.inl rfl, by rw [hfl]; rfl, hsz, by decide, hcS, by decide, by decide⟩, ?_, w.2.2.1, hk, ?_⟩
  · exact w.2.2.2.2.1.mpr (by rw [hk]; decide)
  · exact w.2.2.2.2.2.1 (by rw [hlen, hpos]; decide)

/-! ## write -/

/-- The round trip with its intermediate results named. -/
theorem round_trip_steps (pathFor : LLUUID → EType → Path) (file_id : LLUUID)
    (file_type : EType) (fs : FS) (B buf : List U8) (N : Int) (os1 os2 os3 os4 os5 : Os)
    (hfresh : fs (pathFor file_id file_type) = none)
    (hlen : (B.length : Int) = N) (hN : inS32 N)
    (hroom : B.length ≤ os2.room)
    (w1 w2 r1 : Bool × LLFileSystem × FS) (wc : LLFileSystem × FS)
    (r2 : Bool × LLFileSystem × FS × List U8)
    (hw1 : w1 = (LLFileSystem.construct pathFor file_id file_type WRITE).open_ os1 fs)
    (hw2 : w2 = w1.2.1.write os2 w1.2.2 B N)
    (hwc : wc = w2.2.1.close os3 w2.2.2)
    (hr1 : r1 = (LLFileSystem.construct pathFor file_id file_type READ).open_ os4 wc.2)
    (hr2 : r2 = r1.2.1.read os5 r1.2.2 buf N) :
    w1.1 = true ∧ w2.1 = true ∧ wc.1.mFile = none ∧
    contents wc.2 (pathFor file_id file_type) = some B ∧ r1.1 = true ∧
    r2.2.2.2.take B.length = B ∧ r2.2.1.getLastBytesRead = N := by
  have e1 : w1 = (true,
      { LLFileSystem.construct pathFor file_id file_type WRITE with
        mFile := some ⟨false, 0, []⟩, mPosition := 0 },
      fs.set (pathFor file_id file_type) (some (Node.file [] os1.now))) := by
    rw [hw1, open_write_mode _ _ _ rfl]
    show (match fs (pathFor file_id file_type) with
      | some (Node.dir _) => _
      | _ => _) = _
    rw [hfresh]
    rfl
  clear hw1
  subst e1
  have hw := write_to_empty_file os2
    { LLFileSystem.construct pathFor file_id file_type WRITE with
      mFile := some ⟨false, 0, []⟩, mPosition := 0 }
    (fs.set (pathFor file_id file_type) (some (Node.file [] os1.now)))
    B N ⟨false, 0, []⟩ os1.now
    rfl rfl rfl rfl (Or.inl rfl) (FS.set_same _ _ _) hlen hN hroom
  rw [← hw2] at hw
  clear hw2
  have hcont : contents wc.2 (pathFor file_id file_type) = some B := by
    rw [hwc]
    exact hw.2.2.2.2.2.1 os3
  have hclosed : wc.1.mFile = none := by
    rw [hwc]
    exact (close_identity os3 w2.2.1 w2.2.2).2.2.2.2.2.2
  obtain ⟨t, hfile3⟩ := file_of_contents wc.2 _ B hcont
  have e3 : r1 = (true,
      { LLFileSystem.construct pathFor file_id file_type READ with
        mFile := some ⟨false, 0, []⟩, mPosition := 0 },
      wc.2) := by
    rw [hr1, open_read_mode _ _ _ rfl]
    show (match wc.2 (pathFor file_id file_type) with
      | some (Node.file _ _) => _
      | _ => _) = _
    rw [hfile3]
  clear hr1
  subst e3
  have hmode : Int.land READ READ ≠ 0 := by decide
  have hfl : LLFileSystem.flushed os5
      { LLFileSystem.construct pathFor file_id file_type READ with
        mFile := some ⟨false, 0, []⟩, mPosition := 0 } wc.2 = wc.2 :=
    flushed_clean os5 _ wc.2 ⟨false, 0, []⟩ rfl rfl
  have e4 := read_on_file os5
    { LLFileSystem.construct pathFor file_id file_type READ with
      mFile := some ⟨false, 0, []⟩, mPosition := 0 }
    wc.2 buf N ⟨false, 0, []⟩ B t rfl hmode (by rw [hfl]; exact hfile3) (le_refl _)
  rw [← hr2] at e4
  have hsz : toSizeT N = B.length := by
    rw [toSizeT_of_nonneg (by omega) hN]
    omega
  have hc : (0 : Int).toNat = 0 := rfl
  have hwrap : wrapS32 (B.length : Int) = N := by
    rw [hlen]
    exact wrapS32_of_inS32 hN
  refine ⟨rfl, hw.1, hclosed, hcont, rfl, ?_, ?_⟩
  · rw [e4]
    show List.take B.length (List.take (toSizeT N) (List.drop (0 : Int).toNat B) ++ _) = B
    rw [hsz, hc, List.drop_zero, List.take_of_length_le (le_refl _), List.take_left]
  · rw [e4]
    show wrapS32 ((List.take (toSizeT N) (List.drop (0 : Int).toNat B)).length : Int) = N
    rw [hsz, hc, List.drop_zero, List.take_of_length_le (le_refl _)]
    exact hwrap

/-- C4: write/read round trip.  On a fresh entry (no file at its path), a
handle in Write mode is opened, `N <= getMaxSize()` bytes `B` are written
(the volume takes them: the write transfers all `N` bytes) and the handle is
closed, which flushes the stream; a handle in Read mode for the same
identifier and type is then opened on the filesystem `close()` left and reads
`N` bytes.  Every call succeeds in turn, after `close()` the file holds `B`,
the first `N` bytes of the buffer equal `B`, and `getLastBytesRead() == N`. -/
theorem write_read_round_trip (pathFor : LLUUID → EType → Path) (file_id : LLUUID)
    (file_type : EType) (fs : FS) (B buf : List U8) (N : Int) (os1 os2 os3 os4 os5 : Os)
    (hfresh : fs (pathFor file_id file_type) = none)
    (hlen : (B.length : Int) = N) (hmax : N ≤ LLFileSystem.getMaxSize)
    (hroom : B.length ≤ os2.room) :
    let w1 := (LLFileSystem.construct pathFor file_id file_type WRITE).open_ os1 fs
    let w2 := w1.2.1.write os2 w1.2.2 B N
    let wc := w2.2.1.close os3 w2.2.2
    let r1 := (LLFileSystem.construct pathFor file_id file_type READ).open_ os4 wc.2
    let r2 := r1.2.1.read os5 r1.2.2 buf N
    w1.1 = true ∧ w2.1 = true ∧ wc.1.mFile = none ∧
    contents wc.2 (pathFor file_id file_type) = some B ∧ r1.1 = true ∧
    r2.2.2.2.take B.length = B ∧ r2.2.1.getLastBytesRead = N := by
  intro w1 w2 wc r1 r2
  have hN : inS32 N := by
    unfold inS32
    unfold LLFileSystem.getMaxSize at hmax
    omega
  exact round_trip_steps pathFor file_id file_type fs B buf N os1 os2 os3 os4 os5
    hfresh hlen hN hroom w1 w2 r1 wc r2 rfl rfl rfl rfl rfl

/-- Witness for C4: three bytes written to an empty cache and read back, once
with a write that only fills the stream's buffer and once with a write that
goes to the volume at once. -/
theorem write_read_round_trip_witness :
    (emptyFS (demoPathFor 1 0) = none ∧ (([1, 2, 3] : List U8).length : Int) = 3 ∧
      (3 : Int) ≤ LLFileSystem.getMaxSize ∧
      ([1, 2, 3] : List U8).length ≤ (demoOs 50).room ∧
      ([1, 2, 3] : List U8).length ≤ (directOs 50 4096).room) ∧
    (let w1 := (LLFileSystem.construct demoPathFor 1 0 WRITE).open_ (demoOs 40) emptyFS
     let w2 := w1.2.1.write (demoOs 50) w1.2.2 [1, 2, 3] 3
     let wc := w2.2.1.close (demoOs 55) w2.2.2
     let r1 := (LLFileSystem.construct demoPathFor 1 0 READ).open_ (demoOs 60) wc.2
     let r2 := r1.2.1.read (demoOs 70) r1.2.2 [0, 0, 0, 0, 0] 3
     w1.1 = true ∧ w2.1 = true ∧ wc.1.mFile = none ∧
     contents wc.2 (demoPathFor 1 0) = some [1, 2, 3] ∧ r1.1 = true ∧
     r2.2.2.2.take ([1, 2, 3] : List U8).length = [1, 2, 3] ∧
     r2.2.1.getLastBytesRead = 3) ∧
    (let w1 := (LLFileSystem.construct demoPathFor 1 0 WRITE).open_ (demoOs 40) emptyFS
     let w2 := w1.2.1.write (directOs 50 4096) w1.2.2 [1, 2, 3] 3
     let wc := w2.2.1.close (demoOs 55) w2.2.2
     let r1 := (LLFileSystem.construct demoPathFor 1 0 READ).open_ (demoOs 60) wc.2
     let r2 := r1.2.1.read (demoOs 70) r1.2.2 [0, 0, 0, 0, 0] 3
     w1.1 = true ∧ w2.1 = true ∧ wc.1.mFile = none ∧
     contents wc.2 (demoPathFor 1 0) = some [1, 2, 3] ∧ r1.1 = true ∧
     r2.2.2.2.take ([1, 2, 3] : List U8).length = [1, 2, 3] ∧
     r2.2.1.getLastBytesRead = 3) :=
  ⟨⟨rfl, by decide, by decide, by decide, by decide⟩,
    write_read_round_trip demoPathFor 1 0 emptyFS [1, 2, 3] [0, 0, 0, 0, 0] 3
      (demoOs 40) (demoOs 50) (demoOs 55) (demoOs 60) (demoOs 70)
      rfl (by decide) (by decide) (by decide),
    write_read_round_trip demoPathFor 1 0 emptyFS [1, 2, 3] [0, 0, 0, 0, 0] 3
      (demoOs 40) (directOs 50 4096) (demoOs 55) (demoOs 60) (demoOs 70)
      rfl (by decide) (by decide) (by decide)⟩

/-- C5: mode enforcement, with `READ = 1`, `WRITE = 2`, `READ_WRITE = 3` and
`APPEND = 6`.  On a handle in Read mode every `write` returns false and
leaves the handle (cursor, `getLastBytesRead()`) and the filesystem (the
file's bytes and size) unchanged; on a handle in Write mode every `read`
returns false and leaves the handle, the filesystem and the buffer
unchanged. -/
theorem mode_enforcement (os : Os) (h : LLFileSystem) (fs : FS) (buffer : List U8)
    (bytes : Int) :
    (READ = 1 ∧ WRITE = 2 ∧ READ_WRITE = 3 ∧ APPEND = 6) ∧
    (h.mMode = READ → h.write os fs buffer bytes = (false, h, fs)) ∧
    (h.mMode = WRITE → h.read os fs buffer bytes = (false, h, fs, buffer)) := by
  refine ⟨⟨rfl, rfl, rfl, rfl⟩, ?_, ?_⟩
  · intro hm
    have hg : LLFileSystem.writeGuard h.mMode = true := by rw [hm]; decide
    unfold LLFileSystem.write
    cases hf : h.mFile with
    | none => rfl
    | some st =>
      dsimp only
      rw [hg]
      rfl
  · intro hm
    have hg : Int.land h.mMode READ = 0 := by rw [hm]; decide
    unfold LLFileSystem.read
    cases hf : h.mFile with
    | none => rfl
    | some st =>
      dsimp only
      rw [if_pos hg]

/-- Witness for C5 on the open four-byte entry. -/
theorem mode_enforcement_witness :
    ((demoOpen READ).mMode = READ ∧ (demoOpen WRITE).mMode = WRITE) ∧
    (demoOpen READ).write (demoOs 7200) demoFS [1, 2] 2
      = (false, demoOpen READ, demoFS) ∧
    (demoOpen WRITE).read (demoOs 7200) demoFS [0, 0] 2
      = (false, demoOpen WRITE, demoFS, [0, 0]) :=
  ⟨⟨rfl, rfl⟩,
    (mode_enforcement (demoOs 7200) (demoOpen READ) demoFS [1, 2] 2).2.1 rfl,
    (mode_enforcement (demoOs 7200) (demoOpen WRITE) demoFS [0, 0] 2).2.2 rfl⟩

/-- The calls of C6 with their intermediate results named. -/
theorem writable_mode_steps (pathFor : LLUUID → EType → Path) (file_id : LLUUID)
    (file_type : EType) (mode : Int) (fs : FS) (buf : List U8) (n : Int) (os1 os2 os3 : Os)
    (hmode : mode = WRITE ∨ mode = READ_WRITE ∨ mode = APPEND)
    (hfresh : fs (pathFor file_id file_type) = none)
    (hlen : (buf.length : Int) = n) (hn : inS32 n) (hroom : buf.length ≤ os2.room)
    (o w : Bool × LLFileSystem × FS) (c : LLFileSystem × FS)
    (ho : o = (LLFileSystem.construct pathFor file_id file_type mode).open_ os1 fs)
    (hw : w = o.2.1.write os2 o.2.2 buf n)
    (hc : c = w.2.1.close os3 w.2.2) :
    o.1 = true ∧ w.1 = true ∧ c.1.mFile = none ∧
    c.1.getSize c.2 = n ∧
    (c.1.exists_ c.2 = true ↔ 0 < n) ∧
    contents c.2 (pathFor file_id file_type) = some buf := by
  obtain ⟨a, e1⟩ := open_fresh_writable os1
    (LLFileSystem.construct pathFor file_id file_type mode) fs hmode hfresh
  rw [← ho] at e1
  clear ho
  subst e1
  have hs := write_to_empty_file os2
    { LLFileSystem.construct pathFor file_id file_type mode with
      mFile := some ⟨a, 0, []⟩, mPosition := 0 }
    (fs.set (pathFor file_id file_type) (some (Node.file [] os1.now)))
    buf n ⟨a, 0, []⟩ os1.now rfl rfl rfl rfl hmode (FS.set_same _ _ _) hlen hn hroom
  have hw2 : w = LLFileSystem.write os2
      { LLFileSystem.construct pathFor file_id file_type mode with
        mFile := some ⟨a, 0, []⟩, mPosition := 0 }
      (fs.set (pathFor file_id file_type) (some (Node.file [] os1.now))) buf n := hw
  rw [← hw2] at hs
  clear hw hw2
  obtain ⟨hret, _, hh, _, _, hflush, _⟩ := hs
  have hcont : contents c.2 (pathFor file_id file_type) = some buf := by
    rw [hc]
    exact hflush os3
  obtain ⟨t, hfile2⟩ := file_of_contents c.2 _ buf hcont
  have hci := close_identity os3 w.2.1 w.2.2
  rw [← hc] at hci
  have hpath : c.1.mFilePath = pathFor file_id file_type := by
    rw [hci.2.2.1, hh]
    rfl
  have hstat : stat c.2 c.1.mFilePath = some ⟨true, buf.length⟩ := by
    rw [hpath]
    unfold stat
    rw [hfile2]
  refine ⟨rfl, hret, hci.2.2.2.2.2.2, ?_, ?_, hcont⟩
  · unfold LLFileSystem.getSize
    rw [hstat]
    show wrapS32 (buf.length : Int) = n
    rw [hlen]
    exact wrapS32_of_inS32 hn
  · unfold LLFileSystem.exists_
    rw [hstat]
    simp only [Bool.true_and, decide_eq_true_eq]
    omega

/-- C6: every writable mode accepts writes.  For each of Write, ReadWrite and
Append (constants 2, 3 and 6), on a fresh entry `open()` succeeds, and a
following `write(buf, n)` that the filesystem transfers in full passes the
guard `!(mMode & WRITE) || !(mMode & APPEND)` and returns true; after
`close()`, which flushes the stream, `size() == n`, `exists()` is true
exactly when `n > 0`, and the file holds the buffer. -/
theorem writable_modes_accept_writes (pathFor : LLUUID → EType → Path) (file_id : LLUUID)
    (file_type : EType) (mode : Int) (fs : FS) (buf : List U8) (n : Int) (os1 os2 os3 : Os)
    (hmode : mode = WRITE ∨ mode = READ_WRITE ∨ mode = APPEND)
    (hfresh : fs (pathFor file_id file_type) = none)
    (hlen : (buf.length : Int) = n) (hn : inS32 n) (hroom : buf.length ≤ os2.room) :
    let o := (LLFileSystem.construct pathFor file_id file_type mode).open_ os1 fs
    let w := o.2.1.write os2 o.2.2 buf n
    let c := w.2.1.close os3 w.2.2
    (WRITE = 2 ∧ READ_WRITE = 3 ∧ APPEND = 6) ∧
    o.1 = true ∧ LLFileSystem.writeGuard mode = false ∧ w.1 = true ∧
    c.1.mFile = none ∧ c.1.getSize c.2 = n ∧ (c.1.exists_ c.2 = true ↔ 0 < n) ∧
    contents c.2 (pathFor file_id file_type) = some buf := by
  intro o w c
  have hs := writable_mode_steps pathFor file_id file_type mode fs buf n os1 os2 os3
    hmode hfresh hlen hn hroom o w c rfl rfl rfl
  exact ⟨⟨rfl, rfl, rfl⟩, hs.1, writable_modes mode hmode, hs.2.1, hs.2.2.1, hs.2.2.2.1,
    hs.2.2.2.2.1, hs.2.2.2.2.2⟩

/-- Witness for C6, scenario A: 1024 bytes written in Write mode through the
stream's buffer. -/
theorem writable_modes_accept_writes_witness :
    ((WRITE = WRITE ∨ WRITE = READ_WRITE ∨ WRITE = APPEND) ∧
      emptyFS (demoPathFor 1 0) = none ∧ (scenarioData.length : Int) = 1024 ∧
      inS32 1024 ∧ scenarioData.length ≤ (demoOs 50).room) ∧
    (let o := (LLFileSystem.construct demoPathFor 1 0 WRITE).open_ (demoOs 40) emptyFS
     let w := o.2.1.write (demoOs 50) o.2.2 scenarioData 1024
     let c := w.2.1.close (demoOs 60) w.2.2
     (WRITE = 2 ∧ READ_WRITE = 3 ∧ APPEND = 6) ∧
     o.1 = true ∧ LLFileSystem.writeGuard WRITE = false ∧ w.1 = true ∧
     c.1.mFile = none ∧ c.1.getSize c.2 = 1024 ∧
     (c.1.exists_ c.2 = true ↔ (0 : Int) < 1024) ∧
     contents c.2 (demoPathFor 1 0) = some scenarioData) := by
  have hlen : scenarioData.length = 1024 := by
    unfold scenarioData
    rw [List.length_replicate]
  have hl : (scenarioData.length : Int) = 1024 := by rw [hlen]; rfl
  have hroom : scenarioData.length ≤ (demoOs 50).room := by rw [hlen]; decide
  exact ⟨⟨Or.inl rfl, rfl, hl, by decide, hroom⟩,
    writable_modes_accept_writes demoPathFor 1 0 WRITE emptyFS scenarioData 1024
      (demoOs 40) (demoOs 50) (demoOs 60) (Or.inl rfl) rfl hl (by decide) hroom⟩


/-! ## Handles with no open file -/

/-- C7: a handle with no open file rejects transfers without changing
anything.  A handle that was never opened, whose `open()` failed, or that has
been closed has no open file; on such a handle `read` and `write` return
false and leave the handle (cursor, `getLastBytesRead()`, identity), the
caller's buffer and the filesystem (every file's bytes and modification
time) as they were. -/
theorem closed_handle_rejects_transfers :
    (∀ (pathFor : LLUUID → EType → Path) (file_id : LLUUID) (file_type : EType) (mode : Int),
      (LLFileSystem.construct pathFor file_id file_type mode).mFile = none) ∧
    (∀ (os : Os) (h : LLFileSystem) (fs : FS),
      (h.open_ os fs).1 = false → (h.open_ os fs).2.1.mFile = none) ∧
    (∀ (os : Os) (h : LLFileSystem) (fs : FS), (h.close os fs).1.mFile = none) ∧
    (∀ (os : Os) (h : LLFileSystem) (fs : FS) (buffer : List U8) (bytes : Int),
      h.mFile = none →
      h.read os fs buffer bytes = (false, h, fs, buffer) ∧
      h.write os fs buffer bytes = (false, h, fs)) := by
  refine ⟨fun _ _ _ _ => rfl, ?_, fun os h fs => (close_identity os h fs).2.2.2.2.2.2, ?_⟩
  · intro os h fs
    unfold LLFileSystem.open_
    dsimp only
    split
    · intro hf
      exact absurd hf Bool.noConfusion
    · intro _
      rfl
  · intro os h fs buffer bytes hf
    constructor
    · unfold LLFileSystem.read
      rw [hf]
    · unfold LLFileSystem.write
      rw [hf]

/-- Witness for C7: the closed handle of the four-byte entry, and a Read
handle whose `open()` fails on an empty cache. -/
theorem closed_handle_rejects_transfers_witness :
    ((((demoOpen READ_WRITE).close (demoOs 7100) demoFS).1).mFile = none ∧
      ((demoHandle READ).open_ (demoOs 7200) emptyFS).1 = false) ∧
    (((demoOpen READ_WRITE).close (demoOs 7100) demoFS).1).read (demoOs 7200) demoFS [0, 0] 2
      = (false, ((demoOpen READ_WRITE).close (demoOs 7100) demoFS).1, demoFS, [0, 0]) ∧
    (((demoOpen READ_WRITE).close (demoOs 7100) demoFS).1).write (demoOs 7200) demoFS [1, 2] 2
      = (false, ((demoOpen READ_WRITE).close (demoOs 7100) demoFS).1, demoFS) ∧
    ((demoHandle READ).open_ (demoOs 7200) emptyFS).2.1.mFile = none :=
  ⟨⟨rfl, by decide⟩,
    (closed_handle_rejects_transfers.2.2.2 (demoOs 7200)
      ((demoOpen READ_WRITE).close (demoOs 7100) demoFS).1 demoFS [0, 0] 2 rfl).1,
    (closed_handle_rejects_transfers.2.2.2 (demoOs 7200)
      ((demoOpen READ_WRITE).close (demoOs 7100) demoFS).1 demoFS [1, 2] 2 rfl).2,
    closed_handle_rejects_transfers.2.1 (demoOs 7200) (demoHandle READ) emptyFS
      (by decide)⟩


/-! ## The freshness signal -/

/-- A flush leaves the modification time of the stream's file as it was or
sets it to the time of the call. -/
theorem lastWriteTime_fflush_cases (os : Os) (fs : FS) (p : Path) (st : Stream) :
    lastWriteTime (fflush os fs p st).2 p = lastWriteTime fs p ∨
    lastWriteTime (fflush os fs p st).2 p = some os.now := by
  by_cases hc : st.pending = []
  · rw [fflush_clean os fs p st hc]
    exact Or.inl rfl
  · cases hp : fs p with
    | none =>
      rw [fflush_absent os fs p st hp]
      exact Or.inl rfl
    | some nd =>
      cases nd with
      | file d m =>
        rw [fflush_file os fs p st d m hp hc]
        right
        unfold lastWriteTime
        rw [FS.set_same]
      | dir m =>
        rw [fflush_no_file os fs p st
          (fun d m1 hh => by rw [hp] at hh; exact Node.noConfusion (Option.some.inj hh))]
        exact Or.inl rfl

/-- A flush that has bytes to write to a file stamps it with the time of the
call. -/
theorem lastWriteTime_fflush_file (os : Os) (fs : FS) (p : Path) (st : Stream)
    (d : List U8) (m : Int) (hp : fs p = some (Node.file d m)) (hne : st.pending ≠ []) :
    lastWriteTime (fflush os fs p st).2 p = some os.now := by
  rw [fflush_file os fs p st d m hp hne]
  unfold lastWriteTime
  rw [FS.set_same]

/-- The refresh leaves the modification time as it was or sets it to the time
of the call. -/
theorem lastWriteTime_updateFileAccessTime_cases (os : Os) (h : LLFileSystem) (fs : FS) :
    lastWriteTime (h.updateFileAccessTime os fs) h.mFilePath = lastWriteTime fs h.mFilePath ∨
    lastWriteTime (h.updateFileAccessTime os fs) h.mFilePath = some os.now := by
  rw [lastWriteTime_updateFileAccessTime]
  cases lastWriteTime fs h.mFilePath with
  | none => exact Or.inl rfl
  | some m =>
    dsimp only
    split
    · exact Or.inr rfl
    · exact Or.inl rfl

/-- A `read` that passes the guards leaves the modification time of the
entry's file as it was or sets it to the time of the call. -/
theorem read_time_cases (os : Os) (h : LLFileSystem) (fs : FS) (buffer : List U8)
    (bytes : Int) (st : Stream) (hopen : h.mFile = some st)
    (hmode : Int.land h.mMode READ ≠ 0) :
    lastWriteTime (h.read os fs buffer bytes).2.2.1 h.mFilePath = lastWriteTime fs h.mFilePath ∨
    lastWriteTime (h.read os fs buffer bytes).2.2.1 h.mFilePath = some os.now := by
  rw [(read_frame os h fs buffer bytes st hopen hmode).2.2.2]
  rcases lastWriteTime_updateFileAccessTime_cases os h (fflush os fs h.mFilePath st).2 with h1 | h1
  · rcases lastWriteTime_fflush_cases os fs h.mFilePath st with h2 | h2
    · exact Or.inl (h1.trans h2)
    · exact Or.inr (h1.trans h2)
  · exact Or.inr h1

/-- A `read` made more than an hour after the modification time of the
entry's file, whose time write the filesystem accepts, sets that time to the
time of the call. -/
theorem read_sets_time (os : Os) (h : LLFileSystem) (fs : FS) (buffer : List U8)
    (bytes : Int) (st : Stream) (m : Int) (hopen : h.mFile = some st)
    (hmode : Int.land h.mMode READ ≠ 0)
    (hm : lastWriteTime fs h.mFilePath = some m) (hgt : os.now - m > 3600)
    (hok : os.touchOk = true) :
    lastWriteTime (h.read os fs buffer bytes).2.2.1 h.mFilePath = some os.now := by
  rw [(read_frame os h fs buffer bytes st hopen hmode).2.2.2, lastWriteTime_updateFileAccessTime]
  rcases lastWriteTime_fflush_cases os fs h.mFilePath st with h2 | h2
  · rw [h2, hm]
    dsimp only
    rw [if_pos ⟨hgt, hok⟩]
  · rw [h2]
    dsimp only
    split <;> rfl

/-- A `read` through a stream with an empty buffer, made at most an hour
after the modification time of the entry's file, leaves the filesystem as it
was. -/
theorem read_quiet (os : Os) (h : LLFileSystem) (fs : FS) (buffer : List U8)
    (bytes : Int) (st : Stream) (hopen : h.mFile = some st)
    (hmode : Int.land h.mMode READ ≠ 0) (hclean : st.pending = [])
    (hk : ∀ m : Int, lastWriteTime fs h.mFilePath = some m → ¬ (os.now - m > 3600)) :
    (h.read os fs buffer bytes).2.2.1 = fs := by
  rw [(read_frame os h fs buffer bytes st hopen hmode).2.2.2, fflush_clean os fs _ st hclean]
  exact updateFileAccessTime_keep os h fs hk

/-- One step of a sequence of reads. -/
theorem readSequence_cons (c : Os × Int) (rest : List (Os × Int)) (h : LLFileSystem)
    (fs : FS) (buffer : List U8) :
    (readSequence (c :: rest) h fs buffer).2.2.2 =
      (readSequence rest (h.read c.1 fs buffer c.2).2.1 (h.read c.1 fs buffer c.2).2.2.1
          (h.read c.1 fs buffer c.2).2.2.2).2.2.2
        + (if lastWriteTime (h.read c.1 fs buffer c.2).2.2.1 h.mFilePath
              = lastWriteTime fs h.mFilePath then 0 else 1) := by
  rfl

/-- No read of a sequence changes the modification time when the stream's
buffer is empty and every call is made at most an hour after that time. -/
theorem readSequence_quiet (hi : Int) :
    ∀ (calls : List (Os × Int)) (h : LLFileSystem) (fs : FS) (buffer : List U8) (st : Stream),
      h.mFile = some st → Int.land h.mMode READ ≠ 0 → st.pending = [] →
      (∀ t ∈ callTimes calls, t ≤ hi) →
      (∀ m : Int, lastWriteTime fs h.mFilePath = some m → hi - m ≤ 3600) →
      (readSequence calls h fs buffer).2.2.2 = 0 := by
  intro calls
  induction calls with
  | nil => intro h fs buffer st _ _ _ _ _; rfl
  | cons c rest ih =>
    intro h fs buffer st hopen hmode hclean htimes hm
    have hnow : c.1.now ≤ hi := htimes c.1.now (by simp [callTimes])
    obtain ⟨hpath, hmd, ⟨st1, hst1, hclean1, _⟩, _⟩ :=
      read_frame c.1 h fs buffer c.2 st hopen hmode
    have hfs : (h.read c.1 fs buffer c.2).2.2.1 = fs :=
      read_quiet c.1 h fs buffer c.2 st hopen hmode hclean
        (fun m hmm => by have := hm m hmm; omega)
    rw [readSequence_cons, hfs, if_pos rfl, Nat.add_zero]
    apply ih _ fs _ st1 hst1
    · rw [hmd]; exact hmode
    · exact hclean1
    · intro t ht
      exact htimes t (by simp only [callTimes, List.map_cons, List.mem_cons] at ht ⊢; exact Or.inr ht)
    · intro m hmm
      rw [hpath] at hmm
      exact hm m hmm

/-- At most one read of a sequence changes the modification time when all
calls fall in a window of one hour. -/
theorem readSequence_at_most_once (lo hi : Int) (hwin : hi - lo ≤ 3600) :
    ∀ (calls : List (Os × Int)) (h : LLFileSystem) (fs : FS) (buffer : List U8) (st : Stream),
      h.mFile = some st → Int.land h.mMode READ ≠ 0 →
      (∀ t ∈ callTimes calls, lo ≤ t ∧ t ≤ hi) →
      (readSequence calls h fs buffer).2.2.2 ≤ 1 := by
  intro calls
  induction calls with
  | nil => intro h fs buffer st _ _ _; exact Nat.zero_le _
  | cons c rest ih =>
    intro h fs buffer st hopen hmode htimes
    have hnow : lo ≤ c.1.now ∧ c.1.now ≤ hi := htimes c.1.now (by simp [callTimes])
    have hrest : ∀ t ∈ callTimes rest, lo ≤ t ∧ t ≤ hi := by
      intro t ht
      exact htimes t (by simp only [callTimes, List.map_cons, List.mem_cons] at ht ⊢; exact Or.inr ht)
    obtain ⟨hpath, hmd, ⟨st1, hst1, hclean1, _⟩, _⟩ :=
      read_frame c.1 h fs buffer c.2 st hopen hmode
    have hmode1 : Int.land (h.read c.1 fs buffer c.2).2.1.mMode READ ≠ 0 := by
      rw [hmd]; exact hmode
    rw [readSequence_cons]
    by_cases hsame : lastWriteTime (h.read c.1 fs buffer c.2).2.2.1 h.mFilePath
        = lastWriteTime fs h.mFilePath
    · rw [if_pos hsame, Nat.add_zero]
      exact ih (h.read c.1 fs buffer c.2).2.1 (h.read c.1 fs buffer c.2).2.2.1
        (h.read c.1 fs buffer c.2).2.2.2 st1 hst1 hmode1 hrest
    · have hnew : lastWriteTime (h.read c.1 fs buffer c.2).2.2.1 h.mFilePath = some c.1.now := by
        rcases read_time_cases c.1 h fs buffer c.2 st hopen hmode with h1 | h1
        · exact absurd h1 hsame
        · exact h1
      have hq := readSequence_quiet hi rest (h.read c.1 fs buffer c.2).2.1
        (h.read c.1 fs buffer c.2).2.2.1 (h.read c.1 fs buffer c.2).2.2.2 st1 hst1 hmode1
        hclean1 (fun t ht => (hrest t ht).2)
        (by
          intro m1 hm1
          rw [hpath, hnew] at hm1
          have : c.1.now = m1 := Option.some.inj hm1
          omega)
      rw [hq, if_neg hsame]

/-- C9, as stated, fails when the filesystem refuses the time write: the
four-byte entry was last modified at time 0 and the refresh runs at time
7200, more than 3600 seconds later, yet the modification time is left at 0.
The same call with the write accepted sets it to 7200. -/
theorem refused_time_write_keeps_time :
    lastWriteTime demoFS (demoHandle READ).mFilePath = some 0 ∧ (7200 : Int) - 0 > 3600 ∧
    (Os.mk 7200 4096 false 4096 false).touchOk = false ∧
    lastWriteTime ((demoHandle READ).updateFileAccessTime ⟨7200, 4096, false, 4096, false⟩ demoFS)
      (demoHandle READ).mFilePath = some 0 ∧
    lastWriteTime ((demoHandle READ).updateFileAccessTime (demoOs 7200) demoFS)
      (demoHandle READ).mFilePath = some 7200 := by
  decide

/-- C9, amended: throttle rule of `updateFileAccessTime`.  If reading the
file's modification time fails nothing is modified; otherwise, with `m` the
modification time, the time write is attempted exactly when
`now - m > 3600`: when the filesystem accepts it the modification time is
`now`, when it refuses it the filesystem is left as it was, and so it is when
`now - m <= 3600` (at exactly 3600 seconds, and whenever `m` lies in the
future).  No file's bytes or size change, and no other path is touched. -/
theorem updateFileAccessTime_throttle (os : Os) (h : LLFileSystem) (fs : FS) :
    (lastWriteTime fs h.mFilePath = none → h.updateFileAccessTime os fs = fs) ∧
    (∀ m : Int, lastWriteTime fs h.mFilePath = some m →
      (os.now - m > 3600 → os.touchOk = true →
        lastWriteTime (h.updateFileAccessTime os fs) h.mFilePath = some os.now) ∧
      (os.now - m > 3600 → os.touchOk = false → h.updateFileAccessTime os fs = fs) ∧
      (¬ (os.now - m > 3600) → h.updateFileAccessTime os fs = fs) ∧
      (os.now - m = 3600 → h.updateFileAccessTime os fs = fs) ∧
      (os.now < m → h.updateFileAccessTime os fs = fs)) ∧
    (∀ q : Path, contents (h.updateFileAccessTime os fs) q = contents fs q ∧
      stat (h.updateFileAccessTime os fs) q = stat fs q) ∧
    (∀ q : Path, q ≠ h.mFilePath → h.updateFileAccessTime os fs q = fs q) := by
  have hkeep : ∀ m : Int, lastWriteTime fs h.mFilePath = some m → ¬ (os.now - m > 3600) →
      h.updateFileAccessTime os fs = fs := by
    intro m hm hle
    unfold LLFileSystem.updateFileAccessTime
    rw [hm]
    dsimp only
    have hle2 : ¬ (os.now - m > 1 * 60 * 60) := by omega
    rw [if_neg hle2]
  refine ⟨?_, ?_, ?_, ?_⟩
  · intro hnone
    unfold LLFileSystem.updateFileAccessTime
    rw [hnone]
  · intro m hm
    refine ⟨?_, ?_, hkeep m hm, ?_, ?_⟩
    · intro hgt hok
      rw [lastWriteTime_updateFileAccessTime, hm]
      dsimp only
      rw [if_pos ⟨hgt, hok⟩]
    · intro _ hno
      exact updateFileAccessTime_refused os h fs hno
    · intro heq
      exact hkeep m hm (by omega)
    · intro hfut
      exact hkeep m hm (by omega)
  · intro q
    exact ⟨contents_updateFileAccessTime os h fs q, stat_updateFileAccessTime os h fs q⟩
  · intro q hq
    exact updateFileAccessTime_other os h fs q hq

/-- Witness for the amended C9 on the four-byte entry last modified at time
0: a refresh at 3601 rewrites the time when the write is accepted and leaves
the filesystem as it was when it is refused, and one at exactly 3600 does not
attempt the write. -/
theorem updateFileAccessTime_throttle_witness :
    (lastWriteTime demoFS (demoHandle READ).mFilePath = some 0 ∧
      (Os.mk 3601 0 false 4096 true).now - 0 > 3600 ∧
      (Os.mk 3601 0 false 4096 true).touchOk = true ∧
      (Os.mk 3601 0 false 4096 false).touchOk = false ∧
      (Os.mk 3600 0 false 4096 true).now - 0 = 3600) ∧
    lastWriteTime ((demoHandle READ).updateFileAccessTime ⟨3601, 0, false, 4096, true⟩ demoFS)
      (demoHandle READ).mFilePath = some (Os.mk 3601 0 false 4096 true).now ∧
    (demoHandle READ).updateFileAccessTime ⟨3601, 0, false, 4096, false⟩ demoFS = demoFS ∧
    (demoHandle READ).updateFileAccessTime ⟨3600, 0, false, 4096, true⟩ demoFS = demoFS :=
  ⟨⟨rfl, by decide, rfl, rfl, by decide⟩,
    ((updateFileAccessTime_throttle ⟨3601, 0, false, 4096, true⟩ (demoHandle READ) demoFS).2.1
      0 rfl).1 (by decide) rfl,
    ((updateFileAccessTime_throttle ⟨3601, 0, false, 4096, false⟩ (demoHandle READ) demoFS).2.1
      0 rfl).2.1 (by decide) rfl,
    ((updateFileAccessTime_throttle ⟨3600, 0, false, 4096, true⟩ (demoHandle READ) demoFS).2.1
      0 rfl).2.2.2.1 (by decide)⟩

/-- C8, as stated, fails: a `read` rejected by a guard returns before the
refresh.  The four-byte entry was last modified at time 0; a `read` at time
7200 on a handle that was never opened, and one on an open handle in Write
mode, both leave the modification time at 0, where the refresh would have
set it to 7200. -/
theorem read_rejected_skips_refresh :
    lastWriteTime demoFS "cache/1" = some 0 ∧ (7200 : Int) - 0 > 3600 ∧
    lastWriteTime ((demoHandle READ).updateFileAccessTime (demoOs 7200) demoFS)
      "cache/1" = some 7200 ∧
    (demoHandle READ).mFile = none ∧
    lastWriteTime ((demoHandle READ).read (demoOs 7200) demoFS [0, 0] 2).2.2.1
      "cache/1" = some 0 ∧
    (demoOpen WRITE).mFile = some ⟨false, 0, []⟩ ∧
    lastWriteTime ((demoOpen WRITE).read (demoOs 7200) demoFS [0, 0] 2).2.2.1
      "cache/1" = some 0 := by
  decide

/-- C8, amended: every `read` that passes the open and mode guards (an open
handle whose mode has the `READ` bit) ends with `updateFileAccessTime`,
whatever it transfers, run on the filesystem as the read's seek left it (the
stream flushed); a file whose modification time is more than one hour old
then has modification time `now` when the call returns, provided the
filesystem accepts the time write, and when it refuses it the refresh changes
nothing.  A `read` rejected by a guard (handle not open, or mode without
read capability) leaves the filesystem, modification times included, as it
was. -/
theorem read_refreshes_after_guards (os : Os) (h : LLFileSystem) (fs : FS)
    (buffer : List U8) (bytes : Int) :
    (∀ st : Stream, h.mFile = some st → Int.land h.mMode READ ≠ 0 →
      (h.read os fs buffer bytes).2.2.1 = h.updateFileAccessTime os (h.flushed os fs) ∧
      (st.pending = [] → (h.read os fs buffer bytes).2.2.1 = h.updateFileAccessTime os fs) ∧
      (∀ m : Int, lastWriteTime fs h.mFilePath = some m → os.now - m > 3600 →
        os.touchOk = true →
        lastWriteTime (h.read os fs buffer bytes).2.2.1 h.mFilePath = some os.now) ∧
      (os.touchOk = false → (h.read os fs buffer bytes).2.2.1 = h.flushed os fs)) ∧
    (h.mFile = none ∨ Int.land h.mMode READ = 0 →
      (h.read os fs buffer bytes).2.2.1 = fs) := by
  constructor
  · intro st hopen hmode
    have hf : (h.read os fs buffer bytes).2.2.1
        = h.updateFileAccessTime os (h.flushed os fs) := by
      rw [(read_frame os h fs buffer bytes st hopen hmode).2.2.2, flushed_open os h fs st hopen]
    refine ⟨hf, ?_, ?_, ?_⟩
    · intro hclean
      rw [hf, flushed_clean os h fs st hopen hclean]
    · intro m hm hgt hok
      exact read_sets_time os h fs buffer bytes st m hopen hmode hm hgt hok
    · intro hno
      rw [hf]
      exact updateFileAccessTime_refused os h _ hno
  · intro hrej
    rw [read_rejected os h fs buffer bytes hrej]

/-- Witness for the amended C8: a read of zero bytes returns false and still
refreshes the modification time; with the time write refused the time stays
as it was. -/
theorem read_refreshes_after_guards_witness :
    ((demoOpen READ).mFile = some ⟨false, 0, []⟩ ∧ Int.land (demoOpen READ).mMode READ ≠ 0 ∧
      lastWriteTime demoFS (demoOpen READ).mFilePath = some 0 ∧
      (demoOs 7200).now - 0 > 3600 ∧ (demoOs 7200).touchOk = true ∧
      (Os.mk 7200 4096 false 4096 false).touchOk = false) ∧
    ((demoOpen READ).read (demoOs 7200) demoFS [0, 0] 0).1 = false ∧
    lastWriteTime ((demoOpen READ).read (demoOs 7200) demoFS [0, 0] 0).2.2.1
      (demoOpen READ).mFilePath = some (demoOs 7200).now ∧
    ((demoOpen READ).read ⟨7200, 4096, false, 4096, false⟩ demoFS [0, 0] 0).2.2.1
      = (demoOpen READ).flushed ⟨7200, 4096, false, 4096, false⟩ demoFS ∧
    lastWriteTime ((demoOpen READ).flushed ⟨7200, 4096, false, 4096, false⟩ demoFS)
      (demoOpen READ).mFilePath = some 0 :=
  ⟨⟨rfl, by decide, rfl, by decide, rfl, rfl⟩, by decide,
    ((read_refreshes_after_guards (demoOs 7200) (demoOpen READ) demoFS [0, 0] 0).1
      ⟨false, 0, []⟩ rfl (by decide)).2.2.1 0 rfl (by decide) rfl,
    ((read_refreshes_after_guards ⟨7200, 4096, false, 4096, false⟩ (demoOpen READ) demoFS
      [0, 0] 0).1 ⟨false, 0, []⟩ rfl (by decide)).2.2.2 rfl,
    rfl⟩

/-- C10, as stated, fails: the four-byte entry was last modified at time 0,
which is not before `t1 - 3600` for reads at `t1 = 3600` and `t2 = 3601`;
the second read still rewrites the modification time. -/
theorem refresh_within_hour_of_first_read :
    callTimes [(demoOs 3600, 1), (demoOs 3601, 1)] = [3600, 3601] ∧
    (3600 : Int) ≤ 3601 ∧ (3601 : Int) - 3600 ≤ 3600 ∧
    lastWriteTime demoFS (demoOpen READ).mFilePath = some 0 ∧ (3600 : Int) - 3600 ≤ 0 ∧
    (readSequence [(demoOs 3600, 1), (demoOs 3601, 1)]
      (demoOpen READ) demoFS [0]).2.2.2 = 1 ∧
    lastWriteTime (readSequence [(demoOs 3600, 1), (demoOs 3601, 1)]
      (demoOpen READ) demoFS [0]).2.1 (demoOpen READ).mFilePath = some 3601 := by
  decide

/-- C10, amended: throttled refresh over a sequence of reads.  For reads on
an open readable handle at non-decreasing times `t1 <= ... <= tk` with
`tk - t1 <= 3600`, the modification time changes during at most one read of
the sequence, and during none if it was set at or after `tk - 3600` and the
stream holds no bytes still to be written; and a read made more than 3600
seconds after the modification time, whose time write the filesystem
accepts, sets the modification time to the time of that read. -/
theorem throttled_refresh_over_reads (calls : List (Os × Int)) (h : LLFileSystem) (fs : FS)
    (buffer : List U8) (st : Stream) (t1 tk : Int)
    (hopen : h.mFile = some st) (hmode : h.mMode = READ ∨ h.mMode = READ_WRITE)
    (hsorted : List.Pairwise (fun x y : Int => x ≤ y) (callTimes calls))
    (hfirst : (callTimes calls).head? = some t1)
    (hlast : (callTimes calls).getLast? = some tk)
    (hwin : tk - t1 ≤ 3600) :
    (readSequence calls h fs buffer).2.2.2 ≤ 1 ∧
    (∀ m : Int, st.pending = [] → lastWriteTime fs h.mFilePath = some m → tk - 3600 ≤ m →
      (readSequence calls h fs buffer).2.2.2 = 0) ∧
    (∀ (os : Os) (bytes m : Int), lastWriteTime fs h.mFilePath = some m →
      os.now - m > 3600 → os.touchOk = true →
      lastWriteTime (h.read os fs buffer bytes).2.2.1 h.mFilePath = some os.now) := by
  have hread := readable_modes h.mMode hmode
  have hb := sorted_bounds (callTimes calls) t1 tk hsorted hfirst hlast
  refine ⟨?_, ?_, ?_⟩
  · exact readSequence_at_most_once t1 tk hwin calls h fs buffer st hopen hread hb
  · intro m hclean hm hrecent
    apply readSequence_quiet tk calls h fs buffer st hopen hread hclean
      (fun t ht => (hb t ht).2)
    intro m1 hm1
    rw [hm] at hm1
    have : m = m1 := Option.some.inj hm1
    omega
  · intro os bytes m hm hgt hok
    exact read_sets_time os h fs buffer bytes st m hopen hread hm hgt hok

/-- Witness for the amended C10: three reads within one hour of each other on
the entry last modified at time 0; only the first rewrites the time. -/
theorem throttled_refresh_over_reads_witness :
    ((demoOpen READ).mFile = some ⟨false, 0, []⟩ ∧
      ((demoOpen READ).mMode = READ ∨ (demoOpen READ).mMode = READ_WRITE) ∧
      List.Pairwise (fun x y : Int => x ≤ y)
        (callTimes [(demoOs 7200, 2), (demoOs 7300, 2), (demoOs 10800, 2)]) ∧
      (callTimes [(demoOs 7200, 2), (demoOs 7300, 2), (demoOs 10800, 2)]).head? = some 7200 ∧
      (callTimes [(demoOs 7200, 2), (demoOs 7300, 2), (demoOs 10800, 2)]).getLast?
        = some 10800 ∧
      (10800 : Int) - 7200 ≤ 3600) ∧
    (readSequence [(demoOs 7200, 2), (demoOs 7300, 2), (demoOs 10800, 2)]
      (demoOpen READ) demoFS [0, 0]).2.2.2 ≤ 1 ∧
    (readSequence [(demoOs 7200, 2), (demoOs 7300, 2), (demoOs 10800, 2)]
      (demoOpen READ) demoFS [0, 0]).2.2.2 = 1 :=
  ⟨⟨rfl, Or.inl rfl, by decide, rfl, rfl, by decide⟩,
    (throttled_refresh_over_reads
      [(demoOs 7200, 2), (demoOs 7300, 2), (demoOs 10800, 2)]
      (demoOpen READ) demoFS [0, 0] ⟨false, 0, []⟩ 7200 10800 rfl (Or.inl rfl) (by decide)
      rfl rfl (by decide)).1,
    by decide⟩

/-! ## rename, remove, exists -/

/-- The filesystem `rename` leaves: the stream is flushed, the destination
removed and the move attempted. -/
theorem rename_fs_eq (pathFor : LLUUID → EType → Path) (os : Os) (h : LLFileSystem) (fs : FS)
    (new_id : LLUUID) (new_type : EType) :
    (h.rename pathFor os fs new_id new_type).2.2 =
      match renamePath (removePath (h.flushed os fs) (pathFor new_id new_type)) h.mFilePath
        (pathFor new_id new_type) with
      | some fs2 => fs2
      | none => removePath (h.flushed os fs) (pathFor new_id new_type) := by
  unfold LLFileSystem.rename LLFileSystem.flushed
  dsimp only
  rw [(close_identity os h fs).2.2.1]

/-- What `rename` leaves in the filesystem when the move succeeds. -/
theorem rename_fs_of_move (pathFor : LLUUID → EType → Path) (os : Os) (h : LLFileSystem)
    (fs fs2 : FS) (new_id : LLUUID) (new_type : EType)
    (hmove : renamePath (removePath (h.flushed os fs) (pathFor new_id new_type)) h.mFilePath
      (pathFor new_id new_type) = some fs2) :
    (h.rename pathFor os fs new_id new_type).2.2 = fs2 := by
  rw [rename_fs_eq, hmove]

/-- What `rename` leaves in the filesystem when the move fails: the
destination has been removed, nothing else happened. -/
theorem rename_fs_of_failed_move (pathFor : LLUUID → EType → Path) (os : Os)
    (h : LLFileSystem) (fs : FS) (new_id : LLUUID) (new_type : EType)
    (hmove : renamePath (removePath (h.flushed os fs) (pathFor new_id new_type)) h.mFilePath
      (pathFor new_id new_type) = none) :
    (h.rename pathFor os fs new_id new_type).2.2
      = removePath (h.flushed os fs) (pathFor new_id new_type) := by
  rw [rename_fs_eq, hmove]

/-- The filesystem `rename` leaves depends on the handle only through its
path and the bytes its stream still holds. -/
theorem rename_fs_congr (pathFor : LLUUID → EType → Path) (os : Os) (h h1 : LLFileSystem)
    (fs : FS) (new_id : LLUUID) (new_type : EType) (hp : h1.mFilePath = h.mFilePath)
    (hfl : h1.flushed os fs = h.flushed os fs) :
    (h1.rename pathFor os fs new_id new_type).2.2
      = (h.rename pathFor os fs new_id new_type).2.2 := by
  rw [rename_fs_eq, rename_fs_eq, hp, hfl]

/-- The filesystem `remove` leaves. -/
theorem remove_fs_eq (os : Os) (h : LLFileSystem) (fs : FS) :
    (h.remove os fs).2.2 = removePath (h.flushed os fs) h.mFilePath := by
  unfold LLFileSystem.remove LLFileSystem.flushed
  dsimp only
  rw [(close_identity os h fs).2.2.1]

/-- Flushing does not turn the entry's path into a directory. -/
theorem flushed_not_dir (os : Os) (h : LLFileSystem) (fs : FS)
    (hd : ∀ m : Int, fs h.mFilePath ≠ some (Node.dir m)) :
    ∀ m : Int, h.flushed os fs h.mFilePath ≠ some (Node.dir m) := by
  intro m
  cases hf : h.mFile with
  | none =>
    rw [flushed_not_open os h fs hf]
    exact hd m
  | some st =>
    rw [flushed_open os h fs st hf]
    cases hp : fs h.mFilePath with
    | none =>
      rw [fflush_absent os fs _ st hp, hp]
      exact fun hh => Option.noConfusion hh
    | some nd =>
      cases nd with
      | file d m0 =>
        obtain ⟨d1, m1, e⟩ := fflush_keeps_file os fs _ st d m0 hp
        rw [e]
        exact fun hh => Node.noConfusion (Option.some.inj hh)
      | dir m0 => exact absurd hp (hd m0)

/-- Flushing leaves every path but the entry's as it was. -/
theorem flushed_other (os : Os) (h : LLFileSystem) (fs : FS) (q : Path)
    (hq : q ≠ h.mFilePath) : h.flushed os fs q = fs q :=
  close_other os h fs q hq

/-- C11: `rename` always reports success and always adopts the new identity.
For every handle, filesystem and `(new_id, new_type)`, whether the move
succeeds or fails, `rename` returns true; afterwards the identifier is
`new_id`, the type is `new_type`, the path is the naming policy's path for
them, and the handle is closed, so that a following `read` or `write`
returns false. -/
theorem rename_always_succeeds (pathFor : LLUUID → EType → Path) (os0 : Os)
    (h : LLFileSystem) (fs : FS) (new_id : LLUUID) (new_type : EType) :
    (h.rename pathFor os0 fs new_id new_type).1 = true ∧
    (h.rename pathFor os0 fs new_id new_type).2.1.mFileID = new_id ∧
    (h.rename pathFor os0 fs new_id new_type).2.1.mFileType = new_type ∧
    (h.rename pathFor os0 fs new_id new_type).2.1.mFilePath = pathFor new_id new_type ∧
    (h.rename pathFor os0 fs new_id new_type).2.1.mFile = none ∧
    (∀ (os : Os) (fs1 : FS) (buffer : List U8) (bytes : Int),
      ((h.rename pathFor os0 fs new_id new_type).2.1.read os fs1 buffer bytes).1 = false ∧
      ((h.rename pathFor os0 fs new_id new_type).2.1.write os fs1 buffer bytes).1 = false) := by
  have hh := rename_handle pathFor os0 h fs new_id new_type
  have hclosed : (h.rename pathFor os0 fs new_id new_type).2.1.mFile = none := by
    rw [hh]
  refine ⟨rfl, by rw [hh], by rw [hh], by rw [hh], hclosed, ?_⟩
  intro os fs1 buffer bytes
  constructor
  · rw [read_rejected os _ fs1 buffer bytes (Or.inl hclosed)]
  · unfold LLFileSystem.write
    rw [hclosed]

/-- C13: `remove` always returns true and deletes the entry.  For every
handle (open or closed) and filesystem (file present or absent), `remove()`
returns true; afterwards the handle is closed, no file exists at the resolved
path (nothing at all when the path held a file or nothing), `exists()` is
false, and every other path is as it was.  Hence `getExists(id, type)` after
`removeFile(id, type)` is false. -/
theorem remove_always_succeeds (pathFor : LLUUID → EType → Path) (os : Os)
    (h : LLFileSystem) (fs : FS) :
    (h.remove os fs).1 = true ∧
    (h.remove os fs).2.1.mFile = none ∧
    contents (h.remove os fs).2.2 h.mFilePath = none ∧
    ((∀ m : Int, fs h.mFilePath ≠ some (Node.dir m)) →
      (h.remove os fs).2.2 h.mFilePath = none) ∧
    (h.remove os fs).2.1.exists_ (h.remove os fs).2.2 = false ∧
    (∀ q : Path, q ≠ h.mFilePath → (h.remove os fs).2.2 q = fs q) ∧
    (∀ (file_id : LLUUID) (file_type : EType),
      (LLFileSystem.removeFile pathFor os fs file_id file_type).1 = true ∧
      LLFileSystem.getExists pathFor
        (LLFileSystem.removeFile pathFor os fs file_id file_type).2 file_id file_type
        = false) := by
  have hex : ∀ (fs0 : FS) (h1 : LLFileSystem) (p : Path), h1.mFilePath = p →
      h1.exists_ (removePath fs0 p) = false := by
    intro fs0 h1 p hp
    have hc := contents_removePath_same fs0 p
    rw [exists_eq, hp]
    unfold contents at hc
    cases hq : removePath fs0 p p with
    | none => rfl
    | some nd =>
      cases nd with
      | file d m => rw [hq] at hc; exact absurd hc (by simp)
      | dir m => rfl
  have hrem : ∀ h1 : LLFileSystem, (h1.remove os fs).2.1.exists_ (h1.remove os fs).2.2 = false := by
    intro h1
    rw [remove_fs_eq]
    exact hex _ _ _ (by rw [remove_handle])
  refine ⟨rfl, by rw [remove_handle], ?_, ?_, hrem h, ?_, ?_⟩
  · rw [remove_fs_eq]
    exact contents_removePath_same _ h.mFilePath
  · intro hd
    rw [remove_fs_eq]
    exact removePath_clears _ h.mFilePath (flushed_not_dir os h fs hd)
  · intro q hq
    rw [remove_fs_eq, removePath_other _ h.mFilePath q hq]
    exact flushed_other os h fs q hq
  · intro file_id file_type
    refine ⟨rfl, ?_⟩
    have e : (LLFileSystem.removeFile pathFor os fs file_id file_type).2
        = removePath fs (pathFor file_id file_type) := by
      unfold LLFileSystem.removeFile
      dsimp only
      rw [remove_fs_eq, flushed_not_open os _ fs rfl]
      rfl
    rw [e]
    exact hex fs _ _ rfl

/-- Witness for C13 on the four-byte entry. -/
theorem remove_always_succeeds_witness :
    ((∀ m : Int, demoFS (demoOpen READ).mFilePath ≠ some (Node.dir m)) ∧
      ("cache/other" : Path) ≠ (demoOpen READ).mFilePath) ∧
    ((demoOpen READ).remove (demoOs 100) demoFS).2.2 (demoOpen READ).mFilePath = none ∧
    ((demoOpen READ).remove (demoOs 100) demoFS).2.2 "cache/other" = demoFS "cache/other" ∧
    LLFileSystem.getExists demoPathFor
      (LLFileSystem.removeFile demoPathFor (demoOs 100) demoFS 1 0).2 1 0 = false :=
  ⟨⟨(fun m hm => Node.noConfusion (Option.some.inj
      ((rfl : demoFS (demoOpen READ).mFilePath = some (Node.file [10, 20, 30, 40] 0)).symm.trans
        hm))), by decide⟩,
    (remove_always_succeeds demoPathFor (demoOs 100) (demoOpen READ) demoFS).2.2.2.1
      (fun m hm => Node.noConfusion (Option.some.inj
      ((rfl : demoFS (demoOpen READ).mFilePath = some (Node.file [10, 20, 30, 40] 0)).symm.trans
        hm))),
    (remove_always_succeeds demoPathFor (demoOs 100) (demoOpen READ) demoFS).2.2.2.2.2.1
      "cache/other" (by decide),
    ((remove_always_succeeds demoPathFor (demoOs 100) (demoOpen READ) demoFS).2.2.2.2.2.2
      1 0).2⟩

/-- C12: a successful rename moves the entry.  The entry's file exists with
non-empty bytes `B` (the bytes the handle's stream still holds counted, as
`rename` closes the handle first), the destination path differs from the
current path (a file may or may not be there already), and the move primitive
succeeds.  Afterwards nothing is at the old path, the file at the new path
holds exactly `B`, `exists()` on the handle and
`getExists(new_id, new_type)` are true, and every other path is as it was. -/
theorem rename_moves_entry (pathFor : LLUUID → EType → Path) (os : Os) (h : LLFileSystem)
    (fs fs2 : FS) (new_id : LLUUID) (new_type : EType) (B : List U8) (m : Int)
    (hfile : h.flushed os fs h.mFilePath = some (Node.file B m)) (hB : B ≠ [])
    (hne : pathFor new_id new_type ≠ h.mFilePath)
    (hmove : renamePath (removePath (h.flushed os fs) (pathFor new_id new_type)) h.mFilePath
      (pathFor new_id new_type) = some fs2) :
    (h.rename pathFor os fs new_id new_type).1 = true ∧
    (h.rename pathFor os fs new_id new_type).2.2 h.mFilePath = none ∧
    contents (h.rename pathFor os fs new_id new_type).2.2 (pathFor new_id new_type) = some B ∧
    (h.rename pathFor os fs new_id new_type).2.1.exists_
      (h.rename pathFor os fs new_id new_type).2.2 = true ∧
    LLFileSystem.getExists pathFor (h.rename pathFor os fs new_id new_type).2.2
      new_id new_type = true ∧
    (∀ q : Path, q ≠ h.mFilePath → q ≠ pathFor new_id new_type →
      (h.rename pathFor os fs new_id new_type).2.2 q = fs q) := by
  have hsrc : removePath (h.flushed os fs) (pathFor new_id new_type) h.mFilePath
      = some (Node.file B m) := by
    rw [removePath_other _ _ _ (fun hh => hne hh.symm)]
    exact hfile
  obtain ⟨_, hfs2⟩ := renamePath_some _ fs2 _ _ _ hsrc hmove
  have hnew : fs2 (pathFor new_id new_type) = some (Node.file B m) := by
    rw [hfs2]
    exact FS.set_same _ _ _
  have hlen : decide (B.length > 0) = true := by
    simp only [decide_eq_true_eq]
    exact List.length_pos.mpr hB
  have hex : ∀ h1 : LLFileSystem, h1.mFilePath = pathFor new_id new_type →
      h1.exists_ fs2 = true := by
    intro h1 hp
    rw [exists_eq, hp, hnew]
    exact hlen
  rw [rename_fs_of_move pathFor os h fs fs2 new_id new_type hmove]
  refine ⟨rfl, ?_, ?_, hex _ (by rw [rename_handle]), ?_, ?_⟩
  · rw [hfs2, FS.set_other _ _ _ _ (fun hh => hne hh.symm)]
    exact FS.set_same _ _ _
  · unfold contents
    rw [hnew]
  · exact hex _ rfl
  · intro q hq1 hq2
    rw [hfs2, FS.set_other _ _ _ _ hq2, FS.set_other _ _ _ _ hq1,
      removePath_other _ _ q hq2]
    exact flushed_other os h fs q hq1

/-- Witness for C12, scenario D, onto a destination that already holds a
file: entry 1 is renamed to entry 2. -/
theorem rename_moves_entry_witness :
    ((demoOpen READ).flushed (demoOs 100) crowdedFS (demoOpen READ).mFilePath
        = some (Node.file [10, 20, 30, 40] 0) ∧
      ([10, 20, 30, 40] : List U8) ≠ [] ∧
      demoPathFor 2 0 ≠ (demoOpen READ).mFilePath ∧
      renamePath (removePath ((demoOpen READ).flushed (demoOs 100) crowdedFS) (demoPathFor 2 0))
        (demoOpen READ).mFilePath (demoPathFor 2 0)
        = some (((removePath crowdedFS "cache/other").set "cache/1" none).set "cache/other"
            (some (Node.file [10, 20, 30, 40] 0)))) ∧
    ((demoOpen READ).rename demoPathFor (demoOs 100) crowdedFS 2 0).2.2
      (demoOpen READ).mFilePath = none ∧
    contents ((demoOpen READ).rename demoPathFor (demoOs 100) crowdedFS 2 0).2.2
      (demoPathFor 2 0) = some [10, 20, 30, 40] ∧
    LLFileSystem.getExists demoPathFor
      ((demoOpen READ).rename demoPathFor (demoOs 100) crowdedFS 2 0).2.2 2 0 = true := by
  have hmove : renamePath
      (removePath ((demoOpen READ).flushed (demoOs 100) crowdedFS) (demoPathFor 2 0))
      (demoOpen READ).mFilePath (demoPathFor 2 0)
      = some (((removePath crowdedFS "cache/other").set "cache/1" none).set "cache/other"
          (some (Node.file [10, 20, 30, 40] 0))) := rfl
  have w := rename_moves_entry demoPathFor (demoOs 100) (demoOpen READ) crowdedFS _ 2 0
    [10, 20, 30, 40] 0 rfl (by decide) (by decide) hmove
  exact ⟨⟨rfl, by decide, by decide, hmove⟩, w.2.1, w.2.2.1, w.2.2.2.2.1⟩

/-- C14: `exists()` returns true exactly when the stat of the resolved path
succeeds, the path is a regular file and its size is greater than 0; it is
false for an absent path, for a directory and for a regular file of length
zero.  The method only reads: it yields a value and no new handle or
filesystem. -/
theorem exists_iff_nonempty_regular_file (h : LLFileSystem) (fs : FS) :
    (h.exists_ fs = true ↔
      ∃ s : Stat, stat fs h.mFilePath = some s ∧ s.isReg = true ∧ 0 < s.size) ∧
    (h.exists_ fs = true ↔
      ∃ (d : List U8) (m : Int), fs h.mFilePath = some (Node.file d m) ∧ d ≠ []) ∧
    (fs h.mFilePath = none → h.exists_ fs = false) ∧
    (∀ m : Int, fs h.mFilePath = some (Node.dir m) → h.exists_ fs = false) ∧
    (∀ m : Int, fs h.mFilePath = some (Node.file [] m) → h.exists_ fs = false) := by
  refine ⟨?_, ?_, ?_, ?_, ?_⟩
  · unfold LLFileSystem.exists_
    cases hs : stat fs h.mFilePath with
    | none => simp
    | some s => simp
  · rw [exists_eq]
    cases hp : fs h.mFilePath with
    | none => simp
    | some nd =>
      cases nd with
      | file d m =>
        simp only [decide_eq_true_eq]
        constructor
        · intro hl
          refine ⟨d, m, rfl, ?_⟩
          intro hd
          rw [hd] at hl
          exact absurd hl (by decide)
        · rintro ⟨d1, m1, he, hne⟩
          cases he
          exact List.length_pos.mpr hne
      | dir m => simp
  · intro hp
    rw [exists_eq, hp]
  · intro m hp
    rw [exists_eq, hp]
  · intro m hp
    rw [exists_eq, hp]
    rfl

/-- Witness for C14: the four-byte entry exists, an entry of an empty cache
does not. -/
theorem exists_iff_nonempty_regular_file_witness :
    (emptyFS (demoHandle READ).mFilePath = none ∧
      ∃ (d : List U8) (m : Int), demoFS (demoHandle READ).mFilePath = some (Node.file d m)
        ∧ d ≠ []) ∧
    (demoHandle READ).exists_ emptyFS = false ∧
    (demoHandle READ).exists_ demoFS = true :=
  ⟨⟨rfl, [10, 20, 30, 40], 0, rfl, by decide⟩,
    (exists_iff_nonempty_regular_file (demoHandle READ) emptyFS).2.2.1 rfl,
    (exists_iff_nonempty_regular_file (demoHandle READ) demoFS).2.1.mpr
      ⟨[10, 20, 30, 40], 0, rfl, by decide⟩⟩

/-! ## open -/

/-- The calls of C15 with their results named. -/
theorem zero_length_steps (pathFor : LLUUID → EType → Path) (file_id : LLUUID)
    (file_type : EType) (fs : FS) (os os2 : Os) (o : Bool × LLFileSystem × FS)
    (c : LLFileSystem × FS)
    (hprior : fs (pathFor file_id file_type) = none ∨
      ∃ (d : List U8) (m : Int), fs (pathFor file_id file_type) = some (Node.file d m))
    (ho : o = (LLFileSystem.construct pathFor file_id file_type WRITE).open_ os fs)
    (hc : c = o.2.1.close os2 o.2.2) :
    o.1 = true ∧ c.1.mFile = none ∧ c.2 = o.2.2 ∧
    contents c.2 (pathFor file_id file_type) = some [] ∧
    c.1.getSize c.2 = 0 ∧ c.1.exists_ c.2 = false := by
  have hnd : ∀ m : Int, fs (LLFileSystem.construct pathFor file_id file_type WRITE).mFilePath
      ≠ some (Node.dir m) := by
    intro m hd
    have hd2 : fs (pathFor file_id file_type) = some (Node.dir m) := hd
    rcases hprior with hn | ⟨d, m1, hf⟩
    · rw [hn] at hd2
      exact absurd hd2 (by simp)
    · rw [hf] at hd2
      exact absurd hd2 (by simp)
  rw [open_write_not_dir os _ fs rfl hnd] at ho
  subst ho
  have hc0 : c = LLFileSystem.close os2
      { LLFileSystem.construct pathFor file_id file_type WRITE with
        mFile := some ⟨false, 0, []⟩, mPosition := 0 }
      (fs.set (pathFor file_id file_type) (some (Node.file [] os.now))) := hc
  clear hc
  have hc2 : c.2 = fs.set (pathFor file_id file_type) (some (Node.file [] os.now)) := by
    rw [hc0]
    exact close_clean os2 _ _ ⟨false, 0, []⟩ rfl rfl
  have hc1 := close_identity os2
    { LLFileSystem.construct pathFor file_id file_type WRITE with
      mFile := some ⟨false, 0, []⟩, mPosition := 0 }
    (fs.set (pathFor file_id file_type) (some (Node.file [] os.now)))
  rw [← hc0] at hc1
  have hpath : c.1.mFilePath = pathFor file_id file_type := hc1.2.2.1
  have hnode : c.2 c.1.mFilePath = some (Node.file [] os.now) := by
    rw [hc2, hpath]
    exact FS.set_same _ _ _
  refine ⟨rfl, hc1.2.2.2.2.2.2, hc2, ?_, ?_, ?_⟩
  · rw [← hpath]
    unfold contents
    rw [hnode]
  · rw [getSize_of_file _ _ [] os.now hnode]
    exact wrapS32_zero
  · rw [exists_eq, hnode]
    rfl

/-- C15: zero-length is absent.  Whatever the entry's file was before (absent,
or present with any bytes), a handle constructed in Write mode, opened and
closed without a write leaves a file of length zero: `size() == 0` and
`exists() == false`. -/
theorem zero_length_is_absent (pathFor : LLUUID → EType → Path) (file_id : LLUUID)
    (file_type : EType) (fs : FS) (os os2 : Os)
    (hprior : fs (pathFor file_id file_type) = none ∨
      ∃ (d : List U8) (m : Int), fs (pathFor file_id file_type) = some (Node.file d m)) :
    let o := (LLFileSystem.construct pathFor file_id file_type WRITE).open_ os fs
    let c := o.2.1.close os2 o.2.2
    o.1 = true ∧ c.1.mFile = none ∧ contents c.2 (pathFor file_id file_type) = some [] ∧
    c.1.getSize c.2 = 0 ∧ c.1.exists_ c.2 = false := by
  intro o c
  have hs := zero_length_steps pathFor file_id file_type fs os os2 o c hprior rfl rfl
  exact ⟨hs.1, hs.2.1, hs.2.2.2.1, hs.2.2.2.2.1, hs.2.2.2.2.2⟩

/-- Witness for C15: the four-byte entry is truncated by an open in Write
mode. -/
theorem zero_length_is_absent_witness :
    (demoFS (demoPathFor 1 0) = none ∨
      ∃ (d : List U8) (m : Int), demoFS (demoPathFor 1 0) = some (Node.file d m)) ∧
    (let o := (LLFileSystem.construct demoPathFor 1 0 WRITE).open_ (demoOs 50) demoFS
     let c := o.2.1.close (demoOs 60) o.2.2
     o.1 = true ∧ c.1.mFile = none ∧ contents c.2 (demoPathFor 1 0) = some [] ∧
     c.1.getSize c.2 = 0 ∧ c.1.exists_ c.2 = false) :=
  ⟨Or.inr ⟨[10, 20, 30, 40], 0, rfl⟩,
    zero_length_is_absent demoPathFor 1 0 demoFS (demoOs 50) (demoOs 60)
      (Or.inr ⟨[10, 20, 30, 40], 0, rfl⟩)⟩

/-- C18: `open()` in Read mode returns true exactly when a regular file is at
the resolved path; it creates no file and changes no file; on success the
cursor is the position 0 the stream reports, whatever it was before; on
failure the cursor and `getLastBytesRead()` are unchanged and the handle is
not open. -/
theorem open_read_contract (os : Os) (h : LLFileSystem) (fs : FS) (hm : h.mMode = READ) :
    ((h.open_ os fs).1 = true ↔
      ∃ (d : List U8) (m : Int), fs h.mFilePath = some (Node.file d m)) ∧
    (h.open_ os fs).2.2 = fs ∧
    ((h.open_ os fs).1 = true →
      (h.open_ os fs).2.1 = { h with mFile := some ⟨false, 0, []⟩, mPosition := 0 } ∧
      (h.open_ os fs).2.1.tell = 0) ∧
    ((h.open_ os fs).1 = false →
      (h.open_ os fs).2.1 = { h with mFile := none } ∧
      (h.open_ os fs).2.1.tell = h.tell ∧
      (h.open_ os fs).2.1.getLastBytesRead = h.getLastBytesRead ∧
      (h.open_ os fs).2.1.mFile = none) := by
  rw [open_read_mode os h fs hm]
  cases hp : fs h.mFilePath with
  | none =>
    refine ⟨?_, rfl, ?_, ?_⟩
    · simp
    · intro hf
      exact absurd hf Bool.noConfusion
    · intro _
      exact ⟨rfl, rfl, rfl, rfl⟩
  | some nd =>
    cases nd with
    | file d m =>
      refine ⟨?_, rfl, ?_, ?_⟩
      · simp
      · intro _
        exact ⟨rfl, rfl⟩
      · intro hf
        exact absurd hf Bool.noConfusion
    | dir m =>
      refine ⟨?_, rfl, ?_, ?_⟩
      · simp
      · intro hf
        exact absurd hf Bool.noConfusion
      · intro _
        exact ⟨rfl, rfl, rfl, rfl⟩

/-- Witness for C18: a handle whose cursor a seek left at 3 opens the
four-byte entry with the cursor back at 0, and fails on an empty cache with
the cursor still at 3. -/
theorem open_read_contract_witness :
    (({ demoHandle READ with mPosition := 3 } : LLFileSystem).mMode = READ) ∧
    (({ demoHandle READ with mPosition := 3 } : LLFileSystem).open_ (demoOs 50)
      demoFS).2.1.tell = 0 ∧
    (({ demoHandle READ with mPosition := 3 } : LLFileSystem).open_ (demoOs 50)
      emptyFS).2.1.tell = ({ demoHandle READ with mPosition := 3 } : LLFileSystem).tell ∧
    (({ demoHandle READ with mPosition := 3 } : LLFileSystem).open_ (demoOs 50)
      emptyFS).2.2 = emptyFS :=
  ⟨rfl,
    ((open_read_contract (demoOs 50) { demoHandle READ with mPosition := 3 } demoFS
      rfl).2.2.1 (by decide)).2,
    ((open_read_contract (demoOs 50) { demoHandle READ with mPosition := 3 } emptyFS
      rfl).2.2.2 (by decide)).2.1,
    (open_read_contract (demoOs 50) { demoHandle READ with mPosition := 3 } emptyFS
      rfl).2.1⟩

/-! ## Path purity -/

/-- C16: path purity.  After any sequence of `open`, `close`, `read`, `write`,
`seek`, `tell`, `getSize`, `eof`, `exists`, `rename` and `remove` on a
constructed handle, the resolved path is the naming policy's path for the
handle's identifier and type; two handles constructed with the same
identifier and type have the same path; and a call other than `rename`
changes neither the identifier, nor the type, nor the path. -/
theorem path_purity (pathFor : LLUUID → EType → Path) :
    (∀ (file_id : LLUUID) (file_type : EType) (mode : Int) (fs : FS) (calls : List Call),
      (runCalls pathFor calls
          (LLFileSystem.construct pathFor file_id file_type mode, fs)).1.mFilePath
        = pathFor
          (runCalls pathFor calls
            (LLFileSystem.construct pathFor file_id file_type mode, fs)).1.mFileID
          (runCalls pathFor calls
            (LLFileSystem.construct pathFor file_id file_type mode, fs)).1.mFileType) ∧
    (∀ (file_id : LLUUID) (file_type : EType) (mode1 mode2 : Int),
      (LLFileSystem.construct pathFor file_id file_type mode1).mFilePath
        = (LLFileSystem.construct pathFor file_id file_type mode2).mFilePath) ∧
    (∀ (c : Call) (s : LLFileSystem × FS), c.isRename = false →
      (c.run pathFor s).1.mFileID = s.1.mFileID ∧
      (c.run pathFor s).1.mFileType = s.1.mFileType ∧
      (c.run pathFor s).1.mFilePath = s.1.mFilePath) :=
  ⟨fun file_id file_type mode fs calls =>
      runCalls_path pathFor calls (LLFileSystem.construct pathFor file_id file_type mode, fs) rfl,
    fun _ _ _ _ => rfl,
    fun c s hc => Call.run_identity pathFor c s hc⟩

/-- Witness for C16: a write of two bytes to entry 1 keeps its identity; after
open, write, rename to entry 2 and a read, the path is that of entry 2. -/
theorem path_purity_witness :
    (Call.write (demoOs 50) [1, 2] 2).isRename = false ∧
    ((Call.write (demoOs 50) [1, 2] 2).run demoPathFor
      (demoOpen READ_WRITE, demoFS)).1.mFilePath = (demoOpen READ_WRITE).mFilePath ∧
    (runCalls demoPathFor
      [Call.open_ (demoOs 40), Call.write (demoOs 50) [1, 2] 2,
        Call.rename (demoOs 55) 2 0, Call.read (demoOs 60) [0, 0] 2]
      (LLFileSystem.construct demoPathFor 1 0 READ_WRITE, demoFS)).1.mFilePath
      = demoPathFor
        (runCalls demoPathFor
          [Call.open_ (demoOs 40), Call.write (demoOs 50) [1, 2] 2,
            Call.rename (demoOs 55) 2 0, Call.read (demoOs 60) [0, 0] 2]
          (LLFileSystem.construct demoPathFor 1 0 READ_WRITE, demoFS)).1.mFileID
        (runCalls demoPathFor
          [Call.open_ (demoOs 40), Call.write (demoOs 50) [1, 2] 2,
            Call.rename (demoOs 55) 2 0, Call.read (demoOs 60) [0, 0] 2]
          (LLFileSystem.construct demoPathFor 1 0 READ_WRITE, demoFS)).1.mFileType :=
  ⟨rfl,
    ((path_purity demoPathFor).2.2 (Call.write (demoOs 50) [1, 2] 2)
      (demoOpen READ_WRITE, demoFS) rfl).2.2,
    (path_purity demoPathFor).1 1 0 READ_WRITE demoFS
      [Call.open_ (demoOs 40), Call.write (demoOs 50) [1, 2] 2,
        Call.rename (demoOs 55) 2 0, Call.read (demoOs 60) [0, 0] 2]⟩

/-! ## Random access -/

/-- Overwriting `src` at position `c` inside `d`: the bytes at `[c, c+n)` are
`src`, those before and after are those of `d`, and the length is the larger
of the old length and `c + n`. -/
theorem splice_facts (d src : List U8) (c : Nat) (hc : c ≤ d.length) :
    ((d.take c ++ src ++ d.drop (c + src.length)).drop c).take src.length = src ∧
    (d.take c ++ src ++ d.drop (c + src.length)).take c = d.take c ∧
    (d.take c ++ src ++ d.drop (c + src.length)).drop (c + src.length)
      = d.drop (c + src.length) ∧
    (d.take c ++ src ++ d.drop (c + src.length)).length = max d.length (c + src.length) := by
  have h1 : (d.take c).length = c := by
    rw [List.length_take]
    omega
  have h2 : (d.take c ++ src).length = c + src.length := by
    rw [List.length_append, h1]
  refine ⟨?_, ?_, ?_, ?_⟩
  · rw [List.append_assoc, List.drop_left' h1, List.take_left' rfl]
  · rw [List.append_assoc, List.take_left' h1]
  · rw [List.drop_left' h2]
  · rw [List.length_append, h2, List.length_drop]
    omega

/-- A write taken in full through a stream with an empty buffer that is not
an append stream, positioned inside the file: the count is full, the position
advances by the length, and after the next flush the bytes are in the file
at the position the stream had; until then the filesystem is as it was when
the bytes were only buffered. -/
theorem fwrite_at (os os2 : Os) (fs : FS) (p : Path) (st : Stream) (B F : List U8) (m : Int)
    (hp : fs p = some (Node.file F m)) (happ : st.append = false)
    (hclean : st.pending = []) (hcS : st.pos ≤ F.length) (hroom : B.length ≤ os.room) :
    (fwrite os fs p st B).1 = B.length ∧
    (fwrite os fs p st B).2.1.pos = st.pos + B.length ∧
    contents (fflush os2 (fwrite os fs p st B).2.2 p (fwrite os fs p st B).2.1).2 p
      = some (F.take st.pos ++ B ++ F.drop (st.pos + B.length)) ∧
    (B.length ≤ os.bufferRoom → (fwrite os fs p st B).2.2 = fs) ∧
    (¬ B.length ≤ os.bufferRoom →
      contents (fwrite os fs p st B).2.2 p
        = some (F.take st.pos ++ B ++ F.drop (st.pos + B.length))) := by
  have hd0 : contents (fflush os fs p st).2 p = some F := by
    rw [fflush_clean os fs p st hclean]
    exact contents_of_file fs p F m hp
  by_cases hne : B = []
  · subst hne
    rw [fwrite_nil]
    refine ⟨rfl, rfl, ?_, fun _ => rfl, fun hh => absurd (Nat.zero_le _) hh⟩
    rw [contents_fflush_os os os2 fs p p st, hd0]
    simp
  · obtain ⟨h1, h2, _, d0, hd, hc, hb, hnb⟩ := fwrite_seen os os os2 fs p st B F m hp happ
      (by rw [hclean]; exact Nat.zero_le _) hroom hne
    rw [hd0] at hd
    have e : d0 = F := (Option.some.inj hd).symm
    rw [e, splice_inside F B st.pos hcS] at hc hnb
    exact ⟨h1, h2, hc, hb, hnb⟩

/-- A write in ReadWrite mode through a stream that is not an append stream,
with the cursor inside the file and the buffer taken in full. -/
theorem write_inside_file (os : Os) (h : LLFileSystem) (fs : FS) (B : List U8) (n : Int)
    (st : Stream) (F : List U8) (m : Int)
    (hopen : h.mFile = some st) (hst : st.append = false)
    (hmode : h.mMode = READ_WRITE)
    (hfile : h.flushed os fs h.mFilePath = some (Node.file F m))
    (hc0 : 0 ≤ h.mPosition) (hcS : h.mPosition ≤ F.length)
    (hlen : (B.length : Int) = n) (hend : inS32 (h.mPosition + n))
    (hroom : B.length ≤ os.room) :
    (h.write os fs B n).1 = true ∧
    (h.write os fs B n).2.1.tell = h.mPosition + n ∧
    (∀ os2 : Os, contents ((h.write os fs B n).2.1.flushed os2 (h.write os fs B n).2.2)
      h.mFilePath
      = some (F.take h.mPosition.toNat ++ B ++ F.drop (h.mPosition.toNat + B.length))) ∧
    ((F.take h.mPosition.toNat ++ B ++ F.drop (h.mPosition.toNat + B.length)).drop
        h.mPosition.toNat).take B.length = B ∧
    (F.take h.mPosition.toNat ++ B ++ F.drop (h.mPosition.toNat + B.length)).take
        h.mPosition.toNat = F.take h.mPosition.toNat ∧
    (F.take h.mPosition.toNat ++ B ++ F.drop (h.mPosition.toNat + B.length)).drop
        (h.mPosition.toNat + B.length) = F.drop (h.mPosition.toNat + B.length) ∧
    (((F.take h.mPosition.toNat ++ B ++ F.drop (h.mPosition.toNat + B.length)).length : Nat)
        : Int) = max (F.length : Int) (h.mPosition + n) ∧
    (∀ os2 : Os, h.getSize (h.flushed os fs) = F.length →
      (h.write os fs B n).2.1.getSize
          ((h.write os fs B n).2.1.flushed os2 (h.write os fs B n).2.2)
        = max (F.length : Int) (h.mPosition + n)) ∧
    (B.length ≤ os.bufferRoom → (h.write os fs B n).2.2 = h.flushed os fs) ∧
    (¬ B.length ≤ os.bufferRoom →
      contents (h.write os fs B n).2.2 h.mFilePath
        = some (F.take h.mPosition.toNat ++ B ++ F.drop (h.mPosition.toNat + B.length))) ∧
    (∀ q : Path, q ≠ h.mFilePath → (h.write os fs B n).2.2 q = fs q) := by
  have hn0 : 0 ≤ n := by omega
  unfold inS32 at hend
  have hn : inS32 n := by unfold inS32; omega
  have hsz : toSizeT n = B.length := by
    rw [toSizeT_of_nonneg hn0 hn]
    omega
  have htake : B.take B.length = B := List.take_of_length_le (le_refl _)
  have hcN : h.mPosition.toNat ≤ F.length := by omega
  have hf := fun os2 => fwrite_at os os2 (h.flushed os fs) h.mFilePath
    { st with pos := h.mPosition.toNat, pending := [] } B F m hfile hst rfl hcN hroom
  have hsp := splice_facts F B h.mPosition.toNat hcN
  obtain ⟨hs1, hs2, hs3, hs4⟩ := hsp
  have hlenI : (((F.take h.mPosition.toNat ++ B
      ++ F.drop (h.mPosition.toNat + B.length)).length : Nat) : Int)
      = max (F.length : Int) (h.mPosition + n) := by
    rw [hs4]
    omega
  have hwrap : wrapS32 ((h.mPosition.toNat + B.length : Nat) : Int) = h.mPosition + n := by
    rw [wrapS32_of_inS32 (by unfold inS32; omega)]
    omega
  have hw := write_random os h fs B n st hopen hmode hc0
  rw [hsz, htake] at hw
  have hfl : ∀ os2 : Os, (h.write os fs B n).2.1.flushed os2 (h.write os fs B n).2.2
      = (fflush os2 (fwrite os (h.flushed os fs) h.mFilePath
          { st with pos := h.mPosition.toNat, pending := [] } B).2.2 h.mFilePath
          (fwrite os (h.flushed os fs) h.mFilePath
          { st with pos := h.mPosition.toNat, pending := [] } B).2.1).2 := by
    intro os2
    rw [hw]
    exact flushed_open os2 _ _ _ rfl
  have hpath : (h.write os fs B n).2.1.mFilePath = h.mFilePath :=
    (write_identity os h fs B n).2.2
  have hcont : ∀ os2 : Os,
      contents ((h.write os fs B n).2.1.flushed os2 (h.write os fs B n).2.2) h.mFilePath
      = some (F.take h.mPosition.toNat ++ B ++ F.drop (h.mPosition.toNat + B.length)) := by
    intro os2
    rw [hfl os2]
    exact (hf os2).2.2.1
  refine ⟨?_, ?_, hcont, hs1, hs2, hs3, hlenI, ?_, ?_, ?_, ?_⟩
  · rw [hw]
    simp only [(hf os).1, decide_eq_true_eq]
  · rw [hw]
    show wrapS32 (ftell (fwrite os (h.flushed os fs) h.mFilePath
      { st with pos := h.mPosition.toNat, pending := [] } B).2.1) = h.mPosition + n
    unfold ftell
    rw [(hf os).2.1]
    exact hwrap
  · intro os2 hS
    have hSb : (F.length : Int) < 2147483648 := by
      have := getSize_inS32 h (h.flushed os fs)
      unfold inS32 at this
      omega
    obtain ⟨t, hnd⟩ := file_of_contents _ _ _ (hcont os2)
    rw [getSize_of_file _ _ _ t (by rw [hpath]; exact hnd), hlenI]
    exact wrapS32_of_inS32 (by unfold inS32; omega)
  · intro hb
    rw [hw]
    exact (hf os).2.2.2.1 hb
  · intro hb
    rw [hw]
    exact (hf os).2.2.2.2 hb
  · intro q hq
    rw [hw]
    show (fwrite os (h.flushed os fs) h.mFilePath
      { st with pos := h.mPosition.toNat, pending := [] } B).2.2 q = fs q
    rw [fwrite_other os _ h.mFilePath q _ B hq]
    exact flushed_other os h fs q hq

/-- C19, as stated, fails: the bytes of a write stay in the stream's buffer
until it is flushed.  The four-byte entry is opened in ReadWrite mode and the
cursor moved to 3; a write of two bytes returns true and leaves `tell() == 5`,
but the file still holds its four bytes and `getSize()` is 4, not
`max(4, 3 + 2) = 5`.  After `close()` the file holds the five bytes. -/
theorem buffered_write_not_on_disk :
    (let s := runCalls demoPathFor [Call.open_ (demoOs 40), Call.seek 3 0]
        (LLFileSystem.construct demoPathFor 1 0 READ_WRITE, demoFS)
     let w := s.1.write (demoOs 50) s.2 [1, 2] 2
     let c := w.2.1.close (demoOs 60) w.2.2
     s.1.mMode = READ_WRITE ∧ s.1.mFile = some ⟨false, 0, []⟩ ∧
     contents s.2 "cache/1" = some [10, 20, 30, 40] ∧ s.1.tell = 3 ∧
     ([1, 2] : List U8).length ≤ (demoOs 50).room ∧
     w.1 = true ∧ w.2.1.tell = 5 ∧
     contents w.2.2 "cache/1" = some [10, 20, 30, 40] ∧
     w.2.1.getSize w.2.2 = 4 ∧ max (4 : Int) (3 + 2) = 5 ∧
     contents c.2 "cache/1" = some [10, 20, 30, 1, 2] ∧ c.1.getSize c.2 = 5) := by
  decide

/-- C19, amended: random-access write in ReadWrite mode.  The handle is any
open handle reached from a construction in ReadWrite mode; the file, with
the bytes the stream still holds written to it, has bytes `F` of size `S`,
the cursor `c` lies in `[0, S]`, `c + n` is an `S32` value, and the buffer
`B` of `n` bytes is transferred in full.  Then `write(B, n)` returns true and
`tell() == c + n`; once the stream is flushed (by `close()`, or by the seek
of the next `read` or ReadWrite `write`) the file's bytes `[c, c+n)` are `B`,
the bytes before `c` and from `c + n` on are those of `F`, and the file's
length, which `getSize()` then reports, is `max(S, c+n)`.  Until then the
file is as the write's own seek left it when the bytes were only buffered,
and holds them already when they were written through.  No other path
changes. -/
theorem random_access_write (pathFor : LLUUID → EType → Path) (file_id : LLUUID)
    (file_type : EType) (fs0 : FS) (calls : List Call) (s : LLFileSystem × FS)
    (os : Os) (B : List U8) (n : Int) (st : Stream) (F : List U8) (m : Int)
    (hs : s = runCalls pathFor calls
      (LLFileSystem.construct pathFor file_id file_type READ_WRITE, fs0))
    (hopen : s.1.mFile = some st)
    (hfile : s.1.flushed os s.2 s.1.mFilePath = some (Node.file F m))
    (hc0 : 0 ≤ s.1.mPosition) (hcS : s.1.mPosition ≤ F.length)
    (hlen : (B.length : Int) = n) (hend : inS32 (s.1.mPosition + n))
    (hroom : B.length ≤ os.room) :
    s.1.mMode = READ_WRITE ∧
    (s.1.write os s.2 B n).1 = true ∧
    (s.1.write os s.2 B n).2.1.tell = s.1.mPosition + n ∧
    (∀ os2 : Os,
      contents ((s.1.write os s.2 B n).2.1.flushed os2 (s.1.write os s.2 B n).2.2)
        s.1.mFilePath
      = some (F.take s.1.mPosition.toNat ++ B ++ F.drop (s.1.mPosition.toNat + B.length))) ∧
    ((F.take s.1.mPosition.toNat ++ B ++ F.drop (s.1.mPosition.toNat + B.length)).drop
        s.1.mPosition.toNat).take B.length = B ∧
    (F.take s.1.mPosition.toNat ++ B ++ F.drop (s.1.mPosition.toNat + B.length)).take
        s.1.mPosition.toNat = F.take s.1.mPosition.toNat ∧
    (F.take s.1.mPosition.toNat ++ B ++ F.drop (s.1.mPosition.toNat + B.length)).drop
        (s.1.mPosition.toNat + B.length) = F.drop (s.1.mPosition.toNat + B.length) ∧
    (((F.take s.1.mPosition.toNat ++ B ++ F.drop (s.1.mPosition.toNat + B.length)).length : Nat)
        : Int) = max (F.length : Int) (s.1.mPosition + n) ∧
    (∀ os2 : Os, s.1.getSize (s.1.flushed os s.2) = F.length →
      (s.1.write os s.2 B n).2.1.getSize
          ((s.1.write os s.2 B n).2.1.flushed os2 (s.1.write os s.2 B n).2.2)
        = max (F.length : Int) (s.1.mPosition + n)) ∧
    (B.length ≤ os.bufferRoom → (s.1.write os s.2 B n).2.2 = s.1.flushed os s.2) ∧
    (¬ B.length ≤ os.bufferRoom →
      contents (s.1.write os s.2 B n).2.2 s.1.mFilePath
        = some (F.take s.1.mPosition.toNat ++ B
            ++ F.drop (s.1.mPosition.toNat + B.length))) ∧
    (∀ q : Path, q ≠ s.1.mFilePath → (s.1.write os s.2 B n).2.2 q = s.2 q) := by
  have hmode : s.1.mMode = READ_WRITE := by
    rw [hs]
    exact (runCalls_stream pathFor calls
      (LLFileSystem.construct pathFor file_id file_type READ_WRITE, fs0)
      (fun st0 h0 => absurd h0 (by simp [LLFileSystem.construct]))).1
  have hst : st.append = false :=
    read_write_stream pathFor file_id file_type fs0 calls st (by rw [← hs]; exact hopen)
  exact ⟨hmode, write_inside_file os s.1 s.2 B n st F m hopen hst hmode hfile hc0 hcS hlen hend
    hroom⟩

/-- Witness for the amended C19: the four-byte entry is opened in ReadWrite
mode and the cursor moved to 3; two bytes written there overwrite the last
byte and extend the file to five bytes once the handle is closed. -/
theorem random_access_write_witness :
    ((runCalls demoPathFor [Call.open_ (demoOs 40), Call.seek 3 0]
        (LLFileSystem.construct demoPathFor 1 0 READ_WRITE, demoFS)).1.mFile
        = some ⟨false, 0, []⟩ ∧
      (runCalls demoPathFor [Call.open_ (demoOs 40), Call.seek 3 0]
        (LLFileSystem.construct demoPathFor 1 0 READ_WRITE, demoFS)).2 "cache/1"
        = some (Node.file [10, 20, 30, 40] 0) ∧
      (runCalls demoPathFor [Call.open_ (demoOs 40), Call.seek 3 0]
        (LLFileSystem.construct demoPathFor 1 0 READ_WRITE, demoFS)).1.mPosition = 3 ∧
      ((([1, 2] : List U8).length : Nat) : Int) = 2 ∧ inS32 (3 + 2) ∧
      ([1, 2] : List U8).length ≤ (demoOs 50).room) ∧
    ((runCalls demoPathFor [Call.open_ (demoOs 40), Call.seek 3 0]
        (LLFileSystem.construct demoPathFor 1 0 READ_WRITE, demoFS)).1.write (demoOs 50)
      (runCalls demoPathFor [Call.open_ (demoOs 40), Call.seek 3 0]
        (LLFileSystem.construct demoPathFor 1 0 READ_WRITE, demoFS)).2 [1, 2] 2).1 = true ∧
    contents (LLFileSystem.flushed (demoOs 60)
      ((runCalls demoPathFor [Call.open_ (demoOs 40), Call.seek 3 0]
        (LLFileSystem.construct demoPathFor 1 0 READ_WRITE, demoFS)).1.write (demoOs 50)
      (runCalls demoPathFor [Call.open_ (demoOs 40), Call.seek 3 0]
        (LLFileSystem.construct demoPathFor 1 0 READ_WRITE, demoFS)).2 [1, 2] 2).2.1
      ((runCalls demoPathFor [Call.open_ (demoOs 40), Call.seek 3 0]
        (LLFileSystem.construct demoPathFor 1 0 READ_WRITE, demoFS)).1.write (demoOs 50)
      (runCalls demoPathFor [Call.open_ (demoOs 40), Call.seek 3 0]
        (LLFileSystem.construct demoPathFor 1 0 READ_WRITE, demoFS)).2 [1, 2] 2).2.2) "cache/1"
      = some [10, 20, 30, 1, 2] := by
  have w := random_access_write demoPathFor 1 0 demoFS
    [Call.open_ (demoOs 40), Call.seek 3 0] _ (demoOs 50) [1, 2] 2 ⟨false, 0, []⟩
    [10, 20, 30, 40] 0 rfl (by decide) (by decide) (by decide) (by decide) (by decide)
    (by decide) (by decide)
  exact ⟨⟨by decide, by decide, by decide, by decide, by decide, by decide⟩, w.2.1,
    w.2.2.2.1 (demoOs 60)⟩


/-- The calls of C20 with their results named. -/
theorem seek_then_read_steps (os : Os) (h : LLFileSystem) (fs : FS) (buffer : List U8)
    (k n : Int) (st : Stream) (data : List U8) (m : Int)
    (hopen : h.mFile = some st) (hmode : h.mMode = READ ∨ h.mMode = READ_WRITE)
    (hfile : h.flushed os fs h.mFilePath = some (Node.file data m))
    (hS : h.getSize fs = data.length)
    (hk : 0 ≤ k) (hn : 0 < n) (hkn : k + n ≤ data.length)
    (s : Bool × LLFileSystem) (r : Bool × LLFileSystem × FS × List U8)
    (hs : s = h.seek fs k 0) (hr : r = s.2.read os fs buffer n) :
    s.1 = true ∧ s.2 = { h with mPosition := k } ∧ r.1 = true ∧
    r.2.2.2 = (data.drop k.toNat).take n.toNat ++ buffer.drop n.toNat ∧
    r.2.1.getLastBytesRead = n ∧ r.2.1.tell = k + n := by
  have hfile2 : LLFileSystem.flushed os { h with mPosition := k } fs h.mFilePath
      = some (Node.file data m) := by
    rw [flushed_congr os h { h with mPosition := k } fs rfl rfl]
    exact hfile
  have hL : (data.length : Int) < 2147483648 := by
    have := getSize_inS32 h fs
    unfold inS32 at this
    omega
  rw [seek_absolute h fs k hk (by omega)] at hs
  subst hs
  have hread : Int.land ({ h with mPosition := k } : LLFileSystem).mMode READ ≠ 0 :=
    readable_modes h.mMode hmode
  have h32 : inS32 (k + n) := by
    unfold inS32
    constructor <;> omega
  have e := read_exact os { h with mPosition := k } fs buffer n st data m hopen hread hfile2
    hk (le_of_lt hn) hkn h32
  rw [← hr] at e
  rw [e]
  refine ⟨rfl, rfl, ?_, rfl, rfl, rfl⟩
  simp only [decide_eq_true_eq]
  omega

/-- C20: seek then read positions the transfer.  On an open readable handle
over a file of size `S` (the size `getSize()` reports; the file's bytes are
those the handle's stream sees), for `0 <= k`, `0 < n` and `k + n <= S`:
`seek(k, 0)` returns true and changes only the cursor (the stream is not
repositioned), and the following `read(buf, n)` returns true,
puts exactly the file bytes `[k, k+n)` at the front of the buffer, and leaves
`getLastBytesRead() == n` and `tell() == k + n`. -/
theorem seek_then_read (os : Os) (h : LLFileSystem) (fs : FS) (buffer : List U8)
    (k n : Int) (st : Stream) (data : List U8) (m : Int)
    (hopen : h.mFile = some st) (hmode : h.mMode = READ ∨ h.mMode = READ_WRITE)
    (hfile : h.flushed os fs h.mFilePath = some (Node.file data m))
    (hS : h.getSize fs = data.length)
    (hk : 0 ≤ k) (hn : 0 < n) (hkn : k + n ≤ data.length) :
    let s := h.seek fs k 0
    let r := s.2.read os fs buffer n
    s.1 = true ∧ s.2 = { h with mPosition := k } ∧ s.2.mFile = h.mFile ∧ r.1 = true ∧
    r.2.2.2 = (data.drop k.toNat).take n.toNat ++ buffer.drop n.toNat ∧
    ((data.drop k.toNat).take n.toNat).length = n.toNat ∧
    r.2.1.getLastBytesRead = n ∧ r.2.1.tell = k + n := by
  intro s r
  have hs := seek_then_read_steps os h fs buffer k n st data m hopen hmode hfile hS hk hn hkn
    s r rfl rfl
  have hlen : ((data.drop k.toNat).take n.toNat).length = n.toNat := by
    rw [length_take_drop]
    omega
  have hfile2 : s.2.mFile = h.mFile := by rw [hs.2.1]
  exact ⟨hs.1, hs.2.1, hfile2, hs.2.2.1, hs.2.2.2.1, hlen, hs.2.2.2.2.1, hs.2.2.2.2.2⟩

/-- Witness for C20, scenario C: `seek(512, 0)` then `read(buf, 256)` on the
1024-byte entry leaves the cursor at 768. -/
theorem seek_then_read_witness :
    ((demoOpen READ).mFile = some ⟨false, 0, []⟩ ∧
      ((demoOpen READ).mMode = READ ∨ (demoOpen READ).mMode = READ_WRITE) ∧
      (demoOpen READ).flushed (demoOs 100) scenarioFS (demoOpen READ).mFilePath
        = some (Node.file scenarioData 0) ∧
      (demoOpen READ).getSize scenarioFS = scenarioData.length ∧
      (0 : Int) ≤ 512 ∧ (0 : Int) < 256 ∧ (512 : Int) + 256 ≤ scenarioData.length) ∧
    (let s := (demoOpen READ).seek scenarioFS 512 0
     let r := s.2.read (demoOs 100) scenarioFS [] 256
     s.1 = true ∧ s.2 = { demoOpen READ with mPosition := 512 } ∧
     s.2.mFile = (demoOpen READ).mFile ∧ r.1 = true ∧
     r.2.2.2 = (scenarioData.drop (512 : Int).toNat).take (256 : Int).toNat
       ++ ([] : List U8).drop (256 : Int).toNat ∧
     ((scenarioData.drop (512 : Int).toNat).take (256 : Int).toNat).length = (256 : Int).toNat ∧
     r.2.1.getLastBytesRead = 256 ∧ r.2.1.tell = 512 + 256) := by
  have hlen : scenarioData.length = 1024 := by
    unfold scenarioData
    rw [List.length_replicate]
  have hsz : (demoOpen READ).getSize scenarioFS = scenarioData.length := by
    rw [getSize_of_file (demoOpen READ) scenarioFS scenarioData 0 rfl, hlen]
    decide
  have hkn : (512 : Int) + 256 ≤ scenarioData.length := by
    rw [hlen]
    decide
  exact ⟨⟨rfl, Or.inl rfl, rfl, hsz, by decide, by decide, hkn⟩,
    seek_then_read (demoOs 100) (demoOpen READ) scenarioFS [] 512 256 ⟨false, 0, []⟩
      scenarioData 0 rfl (Or.inl rfl) rfl hsz (by decide) (by decide) hkn⟩


/-- The calls of C17 on an absent entry, with their results named. -/
theorem read_write_fresh_steps (pathFor : LLUUID → EType → Path) (file_id : LLUUID)
    (file_type : EType) (fs : FS) (os1 os2 os3 : Os) (B buf : List U8) (N : Int)
    (hp : fs (pathFor file_id file_type) = none)
    (hlen : (B.length : Int) = N) (hN : inS32 N) (hroom : B.length ≤ os2.room)
    (o w : Bool × LLFileSystem × FS) (s : Bool × LLFileSystem)
    (r : Bool × LLFileSystem × FS × List U8)
    (ho : o = (LLFileSystem.construct pathFor file_id file_type READ_WRITE).open_ os1 fs)
    (hw : w = o.2.1.write os2 o.2.2 B N)
    (hs : s = w.2.1.seek w.2.2 0 0)
    (hr : r = s.2.read os3 w.2.2 buf N) :
    w.1 = true ∧ s.1 = true ∧ s.2.tell = 0 ∧ r.2.2.2.take B.length = B ∧
    r.2.1.getLastBytesRead = N ∧ contents r.2.2.1 (pathFor file_id file_type) = some B := by
  have hN0 : 0 ≤ N := by omega
  have e1 : o = (true,
      { LLFileSystem.construct pathFor file_id file_type READ_WRITE with
        mFile := some ⟨false, 0, []⟩, mPosition := 0 },
      fs.set (pathFor file_id file_type) (some (Node.file [] os1.now))) := by
    rw [ho, open_read_write_mode _ _ _ rfl]
    show (match fs (pathFor file_id file_type) with
      | some (Node.file _ _) => _
      | some (Node.dir _) => _
      | none => _) = _
    rw [hp]
    rfl
  clear ho
  subst e1
  have hwf := write_to_empty_file os2
    { LLFileSystem.construct pathFor file_id file_type READ_WRITE with
      mFile := some ⟨false, 0, []⟩, mPosition := 0 }
    (fs.set (pathFor file_id file_type) (some (Node.file [] os1.now)))
    B N ⟨false, 0, []⟩ os1.now rfl rfl rfl rfl (Or.inr (Or.inl rfl)) (FS.set_same _ _ _)
    hlen hN hroom
  have hw2 : w = LLFileSystem.write os2
      { LLFileSystem.construct pathFor file_id file_type READ_WRITE with
        mFile := some ⟨false, 0, []⟩, mPosition := 0 }
      (fs.set (pathFor file_id file_type) (some (Node.file [] os1.now))) B N := hw
  rw [← hw2] at hwf
  clear hw hw2
  obtain ⟨hret, _, hpath, hmd, ⟨st1, hst1, _⟩, hflush, _, hdisk⟩ := hwf
  have hpath2 : w.2.1.mFilePath = pathFor file_id file_type := hpath
  have hmd2 : w.2.1.mMode = READ_WRITE := hmd
  have hflush2 : contents (w.2.1.flushed os3 w.2.2) (pathFor file_id file_type) = some B :=
    hflush os3
  have hsize : 0 ≤ w.2.1.getSize w.2.2 := by
    rcases hdisk with hd | hd
    · rw [hd, getSize_of_file w.2.1 _ [] os1.now (by rw [hpath2]; exact FS.set_same _ _ _)]
      exact le_of_eq wrapS32_zero.symm
    · obtain ⟨t, ht⟩ := file_of_contents _ _ _ hd
      have ht2 : w.2.2 (pathFor file_id file_type) = some (Node.file B t) := ht
      rw [getSize_of_file w.2.1 _ B t (by rw [hpath2]; exact ht2), hlen, wrapS32_of_inS32 hN]
      exact hN0
  rw [seek_absolute w.2.1 w.2.2 0 (le_refl _) hsize] at hs
  subst hs
  have hmode : Int.land ({ w.2.1 with mPosition := 0 } : LLFileSystem).mMode READ ≠ 0 := by
    show Int.land w.2.1.mMode READ ≠ 0
    rw [hmd2]
    decide
  obtain ⟨t, hfile⟩ := file_of_contents _ _ _ hflush2
  have hfile2 : LLFileSystem.flushed os3 { w.2.1 with mPosition := 0 } w.2.2
      ({ w.2.1 with mPosition := 0 } : LLFileSystem).mFilePath = some (Node.file B t) := by
    rw [flushed_congr os3 w.2.1 { w.2.1 with mPosition := 0 } w.2.2 rfl rfl]
    show w.2.1.flushed os3 w.2.2 w.2.1.mFilePath = some (Node.file B t)
    rw [hpath2]
    exact hfile
  have h32 : inS32 (({ w.2.1 with mPosition := 0 } : LLFileSystem).mPosition + N) := by
    show inS32 (0 + N)
    rw [zero_add]
    exact hN
  have hendp : ({ w.2.1 with mPosition := 0 } : LLFileSystem).mPosition + N ≤ B.length := by
    show (0 : Int) + N ≤ B.length
    rw [zero_add, hlen]
  have e := read_exact os3 { w.2.1 with mPosition := 0 } w.2.2 buf N st1 B t hst1 hmode hfile2
    (le_refl _) hN0 hendp h32
  have hr2 : r = LLFileSystem.read os3 { w.2.1 with mPosition := 0 } w.2.2 buf N := hr
  rw [e] at hr2
  clear hr
  subst hr2
  have hNn : N.toNat = B.length := by omega
  refine ⟨hret, rfl, rfl, ?_, ?_, ?_⟩
  · show List.take B.length (List.take N.toNat (List.drop (0 : Int).toNat B)
      ++ List.drop N.toNat buf) = B
    have h0 : (0 : Int).toNat = 0 := rfl
    rw [hNn, h0, List.drop_zero, List.take_of_length_le (le_refl _), List.take_left]
  · rfl
  · show contents (LLFileSystem.updateFileAccessTime os3 _
      (LLFileSystem.flushed os3 { w.2.1 with mPosition := 0 } w.2.2))
      (pathFor file_id file_type) = some B
    rw [contents_updateFileAccessTime,
      flushed_congr os3 w.2.1 { w.2.1 with mPosition := 0 } w.2.2 rfl rfl]
    exact hflush2

/-- C17: `open()` in ReadWrite mode does not depend on the entry being there.
When the entry's file is present, `open()` returns true, the cursor is 0 and
the filesystem, the file's bytes included, is as it was.  When it is absent,
`open()` returns true, an empty file is created and the cursor is 0: the
handle and the filesystem are those `open()` leaves on an entry that already
held an empty file, and a write of `B` (taken in full) at cursor 0 followed
by `seek(0, 0)` and a read of as many bytes puts `B` into the buffer (the
seek of the read flushes the stream, so that the file holds `B` when the read
returns). -/
theorem read_write_open_any (pathFor : LLUUID → EType → Path) (file_id : LLUUID)
    (file_type : EType) (fs : FS) (os1 : Os) :
    (∀ (d : List U8) (m : Int), fs (pathFor file_id file_type) = some (Node.file d m) →
      ((LLFileSystem.construct pathFor file_id file_type READ_WRITE).open_ os1 fs).1 = true ∧
      ((LLFileSystem.construct pathFor file_id file_type READ_WRITE).open_ os1 fs).2.2 = fs ∧
      contents ((LLFileSystem.construct pathFor file_id file_type READ_WRITE).open_ os1 fs).2.2
        (pathFor file_id file_type) = some d ∧
      ((LLFileSystem.construct pathFor file_id file_type READ_WRITE).open_ os1 fs).2.1.tell
        = 0) ∧
    (fs (pathFor file_id file_type) = none →
      ((LLFileSystem.construct pathFor file_id file_type READ_WRITE).open_ os1 fs).1 = true ∧
      contents ((LLFileSystem.construct pathFor file_id file_type READ_WRITE).open_ os1 fs).2.2
        (pathFor file_id file_type) = some [] ∧
      ((LLFileSystem.construct pathFor file_id file_type READ_WRITE).open_ os1 fs).2.1.tell
        = 0 ∧
      (LLFileSystem.construct pathFor file_id file_type READ_WRITE).open_ os1 fs
        = (LLFileSystem.construct pathFor file_id file_type READ_WRITE).open_ os1
            (fs.set (pathFor file_id file_type) (some (Node.file [] os1.now))) ∧
      (∀ (os2 os3 : Os) (B buf : List U8) (N : Int),
        (B.length : Int) = N → inS32 N → B.length ≤ os2.room →
        let o := (LLFileSystem.construct pathFor file_id file_type READ_WRITE).open_ os1 fs
        let w := o.2.1.write os2 o.2.2 B N
        let s := w.2.1.seek w.2.2 0 0
        let r := s.2.read os3 w.2.2 buf N
        w.1 = true ∧ s.1 = true ∧ s.2.tell = 0 ∧ r.2.2.2.take B.length = B ∧
        r.2.1.getLastBytesRead = N ∧
        contents r.2.2.1 (pathFor file_id file_type) = some B)) := by
  constructor
  · intro d m hfile
    have e : (LLFileSystem.construct pathFor file_id file_type READ_WRITE).open_ os1 fs
        = (true,
          { LLFileSystem.construct pathFor file_id file_type READ_WRITE with
            mFile := some ⟨false, 0, []⟩, mPosition := 0 }, fs) := by
      rw [open_read_write_mode _ _ _ rfl]
      show (match fs (pathFor file_id file_type) with
        | some (Node.file _ _) => _
        | some (Node.dir _) => _
        | none => _) = _
      rw [hfile]
    rw [e]
    refine ⟨rfl, rfl, ?_, rfl⟩
    show contents fs (pathFor file_id file_type) = some d
    unfold contents
    rw [hfile]
  · intro hp
    have e : (LLFileSystem.construct pathFor file_id file_type READ_WRITE).open_ os1 fs
        = (true,
          { LLFileSystem.construct pathFor file_id file_type READ_WRITE with
            mFile := some ⟨false, 0, []⟩, mPosition := 0 },
          fs.set (pathFor file_id file_type) (some (Node.file [] os1.now))) := by
      rw [open_read_write_mode _ _ _ rfl]
      show (match fs (pathFor file_id file_type) with
        | some (Node.file _ _) => _
        | some (Node.dir _) => _
        | none => _) = _
      rw [hp]
      rfl
    have e2 : (LLFileSystem.construct pathFor file_id file_type READ_WRITE).open_ os1
          (fs.set (pathFor file_id file_type) (some (Node.file [] os1.now)))
        = (true,
          { LLFileSystem.construct pathFor file_id file_type READ_WRITE with
            mFile := some ⟨false, 0, []⟩, mPosition := 0 },
          fs.set (pathFor file_id file_type) (some (Node.file [] os1.now))) := by
      rw [open_read_write_mode _ _ _ rfl]
      show (match (fs.set (pathFor file_id file_type) (some (Node.file [] os1.now)))
          (pathFor file_id file_type) with
        | some (Node.file _ _) => _
        | some (Node.dir _) => _
        | none => _) = _
      rw [FS.set_same]
    refine ⟨by rw [e], ?_, by rw [e]; rfl, by rw [e, e2], ?_⟩
    · rw [e]
      show contents (fs.set (pathFor file_id file_type) (some (Node.file [] os1.now)))
        (pathFor file_id file_type) = some []
      unfold contents
      rw [FS.set_same]
    · intro os2 os3 B buf N hlen hN hroom o w s r
      exact read_write_fresh_steps pathFor file_id file_type fs os1 os2 os3 B buf N hp hlen hN
        hroom o w s r rfl rfl rfl rfl

/-- Witness for C17: on an empty cache a ReadWrite handle is opened, three
bytes are written, and after `seek(0, 0)` they are read back; on the cache
with the four-byte entry the open keeps the four bytes. -/
theorem read_write_open_any_witness :
    (emptyFS (demoPathFor 1 0) = none ∧
      demoFS (demoPathFor 1 0) = some (Node.file [10, 20, 30, 40] 0) ∧
      ((([1, 2, 3] : List U8).length : Nat) : Int) = 3 ∧ inS32 3 ∧
      ([1, 2, 3] : List U8).length ≤ (demoOs 50).room) ∧
    contents ((LLFileSystem.construct demoPathFor 1 0 READ_WRITE).open_ (demoOs 40)
      demoFS).2.2 (demoPathFor 1 0) = some [10, 20, 30, 40] ∧
    (let o := (LLFileSystem.construct demoPathFor 1 0 READ_WRITE).open_ (demoOs 40)
        emptyFS
     let w := o.2.1.write (demoOs 50) o.2.2 [1, 2, 3] 3
     let s := w.2.1.seek w.2.2 0 0
     let r := s.2.read (demoOs 60) w.2.2 [0, 0, 0, 0] 3
     w.1 = true ∧ s.1 = true ∧ s.2.tell = 0 ∧
     r.2.2.2.take ([1, 2, 3] : List U8).length = [1, 2, 3] ∧
     r.2.1.getLastBytesRead = 3 ∧ contents r.2.2.1 (demoPathFor 1 0) = some [1, 2, 3]) :=
  ⟨⟨rfl, rfl, by decide, by decide, by decide⟩,
    ((read_write_open_any demoPathFor 1 0 demoFS (demoOs 40)).1 [10, 20, 30, 40] 0
      rfl).2.2.1,
    ((read_write_open_any demoPathFor 1 0 emptyFS (demoOs 40)).2 rfl).2.2.2.2
      (demoOs 50) (demoOs 60) [1, 2, 3] [0, 0, 0, 0] 3 (by decide) (by decide) (by decide)⟩


/-! ## close -/

/-- Flushing keeps a regular file a regular file. -/
theorem flushed_keeps_file (os : Os) (h : LLFileSystem) (fs : FS) (d : List U8) (m : Int)
    (hp : fs h.mFilePath = some (Node.file d m)) :
    ∃ (d1 : List U8) (m1 : Int), h.flushed os fs h.mFilePath = some (Node.file d1 m1) := by
  cases hf : h.mFile with
  | none =>
    rw [flushed_not_open os h fs hf]
    exact ⟨d, m, hp⟩
  | some st =>
    rw [flushed_open os h fs st hf]
    exact fflush_keeps_file os fs _ st d m hp

/-- Removing the entry's file gives the same filesystem whether or not the
stream was flushed first. -/
theorem removePath_flushed (os : Os) (h : LLFileSystem) (fs : FS) :
    removePath (h.flushed os fs) h.mFilePath = removePath fs h.mFilePath := by
  cases hp : fs h.mFilePath with
  | none =>
    have e : h.flushed os fs = fs :=
      close_no_file os h fs (fun d m hh => by rw [hp] at hh; exact Option.noConfusion hh)
    rw [e]
  | some nd =>
    cases nd with
    | dir m =>
      have e : h.flushed os fs = fs :=
        close_no_file os h fs
          (fun d m1 hh => by rw [hp] at hh; exact Node.noConfusion (Option.some.inj hh))
      rw [e]
    | file d m =>
      obtain ⟨d1, m1, hfl⟩ := flushed_keeps_file os h fs d m hp
      have e1 : removePath (h.flushed os fs) h.mFilePath
          = (h.flushed os fs).set h.mFilePath none := by
        unfold removePath
        rw [hfl]
      have e2 : removePath fs h.mFilePath = fs.set h.mFilePath none := by
        unfold removePath
        rw [hp]
      rw [e1, e2]
      funext q
      by_cases hq : q = h.mFilePath
      · rw [hq, FS.set_same, FS.set_same]
      · rw [FS.set_other _ _ _ _ hq, FS.set_other _ _ _ _ hq]
        exact flushed_other os h fs q hq

/-- C23, as stated, fails: `close()` writes the bytes the stream still holds
to the file.  On an empty cache a handle is opened in Write mode and three
bytes are written; the write returns true, the file is still empty and
`getSize()` is 0; `close()` then changes the file's bytes to the three bytes
written and `getSize()` to 3. -/
theorem close_writes_buffered_bytes :
    (let o := (LLFileSystem.construct demoPathFor 1 0 WRITE).open_ (demoOs 40) emptyFS
     let w := o.2.1.write (demoOs 50) o.2.2 [1, 2, 3] 3
     let c := w.2.1.close (demoOs 60) w.2.2
     o.1 = true ∧ w.1 = true ∧
     contents w.2.2 "cache/1" = some [] ∧ w.2.1.getSize w.2.2 = 0 ∧
     contents c.2 "cache/1" = some [1, 2, 3] ∧ c.1.getSize c.2 = 3 ∧
     contents c.2 "cache/1" ≠ contents w.2.2 "cache/1") := by
  decide

/-- C23, amended: `close()` is idempotent and safe on any handle.  Two calls
of `close()` leave the handle and the filesystem as a single call does; on a
handle with no open file (a handle that was never opened, in particular)
`close()` changes nothing; `close()` keeps the cursor, `getLastBytesRead()`
and the identity (identifier, type, path, mode); it leaves the filesystem as
it was when the stream holds no bytes still to be written, and otherwise
writes those bytes to the entry's file (at the place they were written to, or
at the end of the file for an append stream) and touches no other path. -/
theorem close_idempotent (pathFor : LLUUID → EType → Path) (os os2 : Os) (h : LLFileSystem)
    (fs : FS) :
    runCalls pathFor [Call.close os, Call.close os2] (h, fs)
      = runCalls pathFor [Call.close os] (h, fs) ∧
    (h.close os fs).1.close os2 (h.close os fs).2 = h.close os fs ∧
    (h.mFile = none →
      h.close os fs = (h, fs) ∧ runCalls pathFor [Call.close os] (h, fs) = (h, fs)) ∧
    (∀ (file_id : LLUUID) (file_type : EType) (mode : Int),
      (LLFileSystem.construct pathFor file_id file_type mode).close os fs
        = (LLFileSystem.construct pathFor file_id file_type mode, fs)) ∧
    (h.close os fs).1.mFile = none ∧
    (h.close os fs).1.tell = h.tell ∧
    (h.close os fs).1.getLastBytesRead = h.getLastBytesRead ∧
    (h.close os fs).1.mFileID = h.mFileID ∧ (h.close os fs).1.mFileType = h.mFileType ∧
    (h.close os fs).1.mFilePath = h.mFilePath ∧ (h.close os fs).1.mMode = h.mMode ∧
    (∀ st : Stream, h.mFile = some st → st.pending = [] →
      (runCalls pathFor [Call.close os] (h, fs)).2 = fs) ∧
    (∀ q : Path, q ≠ h.mFilePath → (runCalls pathFor [Call.close os] (h, fs)).2 q = fs q) ∧
    (∀ (st : Stream) (d : List U8) (m : Int), h.mFile = some st →
      fs h.mFilePath = some (Node.file d m) →
      contents (runCalls pathFor [Call.close os] (h, fs)).2 h.mFilePath
        = some (if st.pending = [] then d
            else splice d (if st.append then d.length else st.pos - st.pending.length)
              st.pending)) := by
  have hid := close_identity os h fs
  have htwice : (h.close os fs).1.close os2 (h.close os fs).2 = h.close os fs :=
    close_not_open os2 _ _ hid.2.2.2.2.2.2
  have hrun : runCalls pathFor [Call.close os] (h, fs) = h.close os fs := rfl
  refine ⟨htwice, htwice, ?_, fun _ _ _ => close_not_open os _ fs rfl, hid.2.2.2.2.2.2,
    hid.2.2.2.2.1, hid.2.2.2.2.2.1, hid.1, hid.2.1, hid.2.2.1, hid.2.2.2.1, ?_, ?_, ?_⟩
  · intro hf
    exact ⟨close_not_open os h fs hf, by rw [hrun]; exact close_not_open os h fs hf⟩
  · intro st hopen hclean
    rw [hrun]
    exact close_clean os h fs st hopen hclean
  · intro q hq
    rw [hrun]
    exact close_other os h fs q hq
  · intro st d m hopen hfile
    rw [hrun, close_fs_open os h fs st hopen]
    exact contents_fflush_file os fs _ st d m hfile

/-- Witness for the amended C23: `close()` on the handle of entry 1 before any
`open()`, twice on the open handle, and on the open handle with nothing to
write. -/
theorem close_idempotent_witness :
    ((demoHandle READ).mFile = none ∧ (demoOpen READ_WRITE).mFile = some ⟨false, 0, []⟩ ∧
      (⟨false, 0, []⟩ : Stream).pending = []) ∧
    (demoHandle READ).close (demoOs 100) demoFS = (demoHandle READ, demoFS) ∧
    runCalls demoPathFor [Call.close (demoOs 100)] (demoHandle READ, demoFS)
      = (demoHandle READ, demoFS) ∧
    ((demoOpen READ_WRITE).close (demoOs 100) demoFS).1.close (demoOs 200)
        ((demoOpen READ_WRITE).close (demoOs 100) demoFS).2
      = (demoOpen READ_WRITE).close (demoOs 100) demoFS ∧
    (runCalls demoPathFor [Call.close (demoOs 100)] (demoOpen READ_WRITE, demoFS)).2 = demoFS :=
  ⟨⟨rfl, rfl, rfl⟩,
    ((close_idempotent demoPathFor (demoOs 100) (demoOs 200) (demoHandle READ) demoFS).2.2.1
      rfl).1,
    ((close_idempotent demoPathFor (demoOs 100) (demoOs 200) (demoHandle READ) demoFS).2.2.1
      rfl).2,
    (close_idempotent demoPathFor (demoOs 100) (demoOs 200) (demoOpen READ_WRITE) demoFS).2.1,
    (close_idempotent demoPathFor (demoOs 100) (demoOs 200) (demoOpen READ_WRITE)
      demoFS).2.2.2.2.2.2.2.2.2.2.2.1 ⟨false, 0, []⟩ rfl rfl⟩

/-! ## The static operations -/

/-- C24: each static operation equals one operation on a transient handle.
`getExists(id, type)` is `exists()` on a handle constructed with
`(id, type, READ)`, and on any handle for `(id, type)`, and reads only;
`removeFile(id, type)` returns true and leaves the filesystem `remove()`
leaves on any handle for `(id, type)`; `renameFile(old_id, old_type, new_id,
new_type)` returns true and leaves the filesystem `rename(new_id, new_type)`
leaves on a handle constructed for `(old_id, old_type)`, and on any handle
for them whose stream holds no bytes still to be written (a handle that does
is closed by `rename`, which writes them first).  None of them creates the
source file: a source path that holds nothing holds nothing afterwards. -/
theorem static_operations_use_transient_handle (pathFor : LLUUID → EType → Path) (os : Os)
    (fs : FS) :
    (∀ (file_id : LLUUID) (file_type : EType),
      LLFileSystem.getExists pathFor fs file_id file_type
        = (LLFileSystem.construct pathFor file_id file_type READ).exists_ fs ∧
      (∀ h : LLFileSystem, h.mFilePath = pathFor file_id file_type →
        h.exists_ fs = LLFileSystem.getExists pathFor fs file_id file_type) ∧
      runCalls pathFor [Call.exists_]
          (LLFileSystem.construct pathFor file_id file_type READ, fs)
        = (LLFileSystem.construct pathFor file_id file_type READ, fs)) ∧
    (∀ (file_id : LLUUID) (file_type : EType),
      (LLFileSystem.removeFile pathFor os fs file_id file_type).1 = true ∧
      (∀ h : LLFileSystem, h.mFilePath = pathFor file_id file_type →
        (h.remove os fs).1 = true ∧
        (h.remove os fs).2.2 = (LLFileSystem.removeFile pathFor os fs file_id file_type).2) ∧
      (∀ mode : Int, (runCalls pathFor [Call.remove os]
          (LLFileSystem.construct pathFor file_id file_type mode, fs)).2
        = (LLFileSystem.removeFile pathFor os fs file_id file_type).2) ∧
      (fs (pathFor file_id file_type) = none →
        (LLFileSystem.removeFile pathFor os fs file_id file_type).2 = fs)) ∧
    (∀ (old_file_id : LLUUID) (old_file_type : EType) (new_file_id : LLUUID)
        (new_file_type : EType),
      (LLFileSystem.renameFile pathFor os fs old_file_id old_file_type new_file_id
        new_file_type).1 = true ∧
      (∀ h : LLFileSystem, h.mFilePath = pathFor old_file_id old_file_type →
        (h.rename pathFor os fs new_file_id new_file_type).1 = true ∧
        (h.rename pathFor os fs new_file_id new_file_type).2.2
          = (LLFileSystem.renameFile pathFor os (h.flushed os fs) old_file_id old_file_type
              new_file_id new_file_type).2 ∧
        (h.flushed os fs = fs →
          (h.rename pathFor os fs new_file_id new_file_type).2.2
            = (LLFileSystem.renameFile pathFor os fs old_file_id old_file_type new_file_id
                new_file_type).2)) ∧
      (∀ mode : Int, (runCalls pathFor [Call.rename os new_file_id new_file_type]
          (LLFileSystem.construct pathFor old_file_id old_file_type mode, fs)).2
        = (LLFileSystem.renameFile pathFor os fs old_file_id old_file_type new_file_id
            new_file_type).2) ∧
      (fs (pathFor old_file_id old_file_type) = none →
        (LLFileSystem.renameFile pathFor os fs old_file_id old_file_type new_file_id
          new_file_type).2 (pathFor old_file_id old_file_type) = none)) := by
  have hrem : ∀ (file_id : LLUUID) (file_type : EType),
      (LLFileSystem.removeFile pathFor os fs file_id file_type).2
        = removePath fs (pathFor file_id file_type) := by
    intro file_id file_type
    unfold LLFileSystem.removeFile
    dsimp only
    rw [remove_fs_eq, removePath_flushed]
    rfl
  have hren : ∀ (fs1 : FS) (old_file_id : LLUUID) (old_file_type : EType)
      (new_file_id : LLUUID) (new_file_type : EType) (h : LLFileSystem),
      h.mFilePath = pathFor old_file_id old_file_type → h.flushed os fs = fs1 →
      (h.rename pathFor os fs new_file_id new_file_type).2.2
        = (LLFileSystem.renameFile pathFor os fs1 old_file_id old_file_type new_file_id
            new_file_type).2 := by
    intro fs1 old_file_id old_file_type new_file_id new_file_type h hp hfl
    unfold LLFileSystem.renameFile
    dsimp only
    rw [rename_fs_eq, rename_fs_eq, hp, hfl, flushed_not_open os _ fs1 rfl]
    rfl
  refine ⟨?_, ?_, ?_⟩
  · intro file_id file_type
    refine ⟨rfl, ?_, rfl⟩
    intro h hp
    exact exists_congr (LLFileSystem.construct pathFor file_id file_type READ) h fs hp
  · intro file_id file_type
    refine ⟨rfl, ?_, ?_, ?_⟩
    · intro h hp
      refine ⟨rfl, ?_⟩
      rw [remove_fs_eq, removePath_flushed, hp, hrem]
    · intro mode
      show ((LLFileSystem.construct pathFor file_id file_type mode).remove os fs).2.2 = _
      rw [remove_fs_eq, removePath_flushed, hrem]
      rfl
    · intro habs
      rw [hrem]
      unfold removePath
      rw [habs]
  · intro old_file_id old_file_type new_file_id new_file_type
    refine ⟨rfl, ?_, ?_, ?_⟩
    · intro h hp
      exact ⟨rfl, hren _ old_file_id old_file_type new_file_id new_file_type h hp rfl,
        fun hfl => hren fs old_file_id old_file_type new_file_id new_file_type h hp hfl⟩
    · intro mode
      exact hren fs old_file_id old_file_type new_file_id new_file_type
        (LLFileSystem.construct pathFor old_file_id old_file_type mode) rfl
        (flushed_not_open os _ fs rfl)
    · intro habs
      have e : (LLFileSystem.renameFile pathFor os fs old_file_id old_file_type new_file_id
          new_file_type).2
          = ((LLFileSystem.construct pathFor old_file_id old_file_type READ_WRITE).rename
              pathFor os fs new_file_id new_file_type).2.2 := rfl
      have hfl : (LLFileSystem.construct pathFor old_file_id old_file_type READ_WRITE).flushed
          os fs = fs := flushed_not_open os _ fs rfl
      have hsrc : removePath fs (pathFor new_file_id new_file_type)
          (pathFor old_file_id old_file_type) = none :=
        removePath_none fs _ _ habs
      rw [e, rename_fs_of_failed_move pathFor os _ fs new_file_id new_file_type
        (by rw [hfl]; exact renamePath_absent _ _ _ hsrc), hfl]
      exact hsrc

/-- Witness for C24 on the cache with two entries: the open handle of entry 1
sees what `getExists` sees and removes or renames what the static operations
do; on an empty cache the static operations create nothing. -/
theorem static_operations_use_transient_handle_witness :
    ((demoOpen READ).mFilePath = demoPathFor 1 0 ∧ emptyFS (demoPathFor 1 0) = none ∧
      (demoOpen READ).flushed (demoOs 100) crowdedFS = crowdedFS) ∧
    (demoOpen READ).exists_ crowdedFS = LLFileSystem.getExists demoPathFor crowdedFS 1 0 ∧
    ((demoOpen READ).remove (demoOs 100) crowdedFS).2.2
      = (LLFileSystem.removeFile demoPathFor (demoOs 100) crowdedFS 1 0).2 ∧
    ((demoOpen READ).rename demoPathFor (demoOs 100) crowdedFS 2 0).2.2
      = (LLFileSystem.renameFile demoPathFor (demoOs 100) crowdedFS 1 0 2 0).2 ∧
    (LLFileSystem.removeFile demoPathFor (demoOs 100) emptyFS 1 0).2 = emptyFS ∧
    (LLFileSystem.renameFile demoPathFor (demoOs 100) emptyFS 1 0 2 0).2 (demoPathFor 1 0)
      = none :=
  ⟨⟨rfl, rfl, rfl⟩,
    ((static_operations_use_transient_handle demoPathFor (demoOs 100) crowdedFS).1 1 0).2.1
      (demoOpen READ) rfl,
    (((static_operations_use_transient_handle demoPathFor (demoOs 100) crowdedFS).2.1 1 0).2.1
      (demoOpen READ) rfl).2,
    (((static_operations_use_transient_handle demoPathFor (demoOs 100) crowdedFS).2.2
      1 0 2 0).2.1 (demoOpen READ) rfl).2.2 rfl,
    ((static_operations_use_transient_handle demoPathFor (demoOs 100) emptyFS).2.1 1 0).2.2.2
      rfl,
    ((static_operations_use_transient_handle demoPathFor (demoOs 100) emptyFS).2.2
      1 0 2 0).2.2.2 rfl⟩

/-! ## rename when the move fails -/

/-- C26: renaming an entry to its own identity destroys it.  The handle's
path is the naming policy's path for its identifier and type, and the entry's
file exists with bytes `B`.  `rename` with the handle's own identifier and
type first removes the destination path, which is the source file, so the
move finds no source and fails; `rename` still returns true, and afterwards
nothing is at the resolved path, `exists()` and `getExists` are false, and
every other path is as it was. -/
theorem rename_to_own_identity_destroys (pathFor : LLUUID → EType → Path) (os : Os)
    (h : LLFileSystem) (fs : FS) (B : List U8) (m : Int)
    (hpath : h.mFilePath = pathFor h.mFileID h.mFileType)
    (hfile : fs h.mFilePath = some (Node.file B m)) :
    removePath (h.flushed os fs) (pathFor h.mFileID h.mFileType) h.mFilePath = none ∧
    renamePath (removePath (h.flushed os fs) (pathFor h.mFileID h.mFileType)) h.mFilePath
      (pathFor h.mFileID h.mFileType) = none ∧
    (h.rename pathFor os fs h.mFileID h.mFileType).1 = true ∧
    (h.rename pathFor os fs h.mFileID h.mFileType).2.1.mFilePath = h.mFilePath ∧
    (h.rename pathFor os fs h.mFileID h.mFileType).2.2 h.mFilePath = none ∧
    contents (h.rename pathFor os fs h.mFileID h.mFileType).2.2 h.mFilePath = none ∧
    (h.rename pathFor os fs h.mFileID h.mFileType).2.1.exists_
      (h.rename pathFor os fs h.mFileID h.mFileType).2.2 = false ∧
    LLFileSystem.getExists pathFor (h.rename pathFor os fs h.mFileID h.mFileType).2.2
      h.mFileID h.mFileType = false ∧
    (∀ q : Path, q ≠ h.mFilePath →
      (h.rename pathFor os fs h.mFileID h.mFileType).2.2 q = fs q) := by
  have hR : removePath (h.flushed os fs) (pathFor h.mFileID h.mFileType)
      = removePath fs h.mFilePath := by
    rw [← hpath]
    exact removePath_flushed os h fs
  have hrem0 : removePath fs h.mFilePath h.mFilePath = none := by
    unfold removePath
    rw [hfile]
    exact FS.set_same _ _ _
  have hrem : removePath (h.flushed os fs) (pathFor h.mFileID h.mFileType) h.mFilePath
      = none := by
    rw [hR]
    exact hrem0
  have hmove : renamePath (removePath (h.flushed os fs) (pathFor h.mFileID h.mFileType))
      h.mFilePath (pathFor h.mFileID h.mFileType) = none := renamePath_absent _ _ _ hrem
  have hfs := rename_fs_of_failed_move pathFor os h fs h.mFileID h.mFileType hmove
  rw [hR] at hfs
  have hnew : (h.rename pathFor os fs h.mFileID h.mFileType).2.1.mFilePath = h.mFilePath := by
    rw [rename_handle]
    exact hpath.symm
  refine ⟨hrem, hmove, rfl, hnew, ?_, ?_, ?_, ?_, ?_⟩
  · rw [hfs]
    exact hrem0
  · rw [hfs]
    unfold contents
    rw [hrem0]
  · refine exists_absent _ _ ?_
    rw [hnew, hfs]
    exact hrem0
  · refine exists_absent _ _ ?_
    rw [hfs]
    have hp : (LLFileSystem.construct pathFor h.mFileID h.mFileType READ).mFilePath
        = pathFor h.mFileID h.mFileType := rfl
    rw [hp, ← hpath]
    exact hrem0
  · intro q hq
    rw [hfs]
    exact removePath_other fs _ q hq

/-- Witness for C26: the four-byte entry 1 renamed to entry 1. -/
theorem rename_to_own_identity_destroys_witness :
    ((demoOpen READ_WRITE).mFilePath
        = demoPathFor (demoOpen READ_WRITE).mFileID (demoOpen READ_WRITE).mFileType ∧
      crowdedFS (demoOpen READ_WRITE).mFilePath = some (Node.file [10, 20, 30, 40] 0)) ∧
    ((demoOpen READ_WRITE).rename demoPathFor (demoOs 100) crowdedFS 1 0).1 = true ∧
    ((demoOpen READ_WRITE).rename demoPathFor (demoOs 100) crowdedFS 1 0).2.2 "cache/1"
      = none ∧
    ((demoOpen READ_WRITE).rename demoPathFor (demoOs 100) crowdedFS 1 0).2.1.exists_
      ((demoOpen READ_WRITE).rename demoPathFor (demoOs 100) crowdedFS 1 0).2.2 = false :=
  ⟨⟨rfl, rfl⟩,
    (rename_to_own_identity_destroys demoPathFor (demoOs 100) (demoOpen READ_WRITE) crowdedFS
      [10, 20, 30, 40] 0 rfl rfl).2.2.1,
    (rename_to_own_identity_destroys demoPathFor (demoOs 100) (demoOpen READ_WRITE) crowdedFS
      [10, 20, 30, 40] 0 rfl rfl).2.2.2.2.1,
    (rename_to_own_identity_destroys demoPathFor (demoOs 100) (demoOpen READ_WRITE) crowdedFS
      [10, 20, 30, 40] 0 rfl rfl).2.2.2.2.2.2.1⟩

/-- C27: renaming a non-existent entry onto an existing one deletes the
destination.  Nothing is at the handle's resolved path and a file with bytes
`D` is at the path of `(new_id, new_type)`.  `rename(new_id, new_type)`
removes the destination file before the move, the move finds no source and
fails, `rename` returns true, and afterwards neither path holds anything:
`exists()` on the renamed handle and `getExists(new_id, new_type)` are false.
Every other path is as it was, and `renameFile` from an identity with the
handle's path does the same. -/
theorem rename_absent_source_deletes_destination (pathFor : LLUUID → EType → Path)
    (os : Os) (h : LLFileSystem) (fs : FS) (new_id : LLUUID) (new_type : EType) (D : List U8) (m : Int)
    (hsrc : fs h.mFilePath = none)
    (hdst : fs (pathFor new_id new_type) = some (Node.file D m)) :
    removePath fs (pathFor new_id new_type) (pathFor new_id new_type) = none ∧
    renamePath (removePath fs (pathFor new_id new_type)) h.mFilePath
      (pathFor new_id new_type) = none ∧
    (h.rename pathFor os fs new_id new_type).1 = true ∧
    (h.rename pathFor os fs new_id new_type).2.2 h.mFilePath = none ∧
    (h.rename pathFor os fs new_id new_type).2.2 (pathFor new_id new_type) = none ∧
    (h.rename pathFor os fs new_id new_type).2.1.exists_
      (h.rename pathFor os fs new_id new_type).2.2 = false ∧
    LLFileSystem.getExists pathFor (h.rename pathFor os fs new_id new_type).2.2
      new_id new_type = false ∧
    (∀ q : Path, q ≠ pathFor new_id new_type →
      (h.rename pathFor os fs new_id new_type).2.2 q = fs q) ∧
    (∀ (old_file_id : LLUUID) (old_file_type : EType),
      pathFor old_file_id old_file_type = h.mFilePath →
      LLFileSystem.renameFile pathFor os fs old_file_id old_file_type new_id new_type
        = (true, (h.rename pathFor os fs new_id new_type).2.2)) := by
  have hrem : removePath fs (pathFor new_id new_type) (pathFor new_id new_type) = none := by
    unfold removePath
    rw [hdst]
    exact FS.set_same _ _ _
  have hsrc1 : removePath fs (pathFor new_id new_type) h.mFilePath = none :=
    removePath_none fs _ _ hsrc
  have hmove : renamePath (removePath fs (pathFor new_id new_type)) h.mFilePath
      (pathFor new_id new_type) = none := renamePath_absent _ _ _ hsrc1
  have hfl : h.flushed os fs = fs :=
    close_no_file os h fs (fun d m1 hh => by rw [hsrc] at hh; exact Option.noConfusion hh)
  have hfs := rename_fs_of_failed_move pathFor os h fs new_id new_type
    (by rw [hfl]; exact hmove)
  rw [hfl] at hfs
  have htrue : (h.rename pathFor os fs new_id new_type).2.1.mFilePath
      = pathFor new_id new_type := by rw [rename_handle]
  refine ⟨hrem, hmove, rfl, ?_, ?_, ?_, ?_, ?_, ?_⟩
  · rw [hfs]
    exact hsrc1
  · rw [hfs]
    exact hrem
  · refine exists_absent _ _ ?_
    rw [htrue, hfs]
    exact hrem
  · refine exists_absent _ _ ?_
    rw [hfs]
    exact hrem
  · intro q hq
    rw [hfs]
    exact removePath_other fs _ q hq
  · intro old_file_id old_file_type hold
    have e : LLFileSystem.renameFile pathFor os fs old_file_id old_file_type new_id new_type
        = (true, ((LLFileSystem.construct pathFor old_file_id old_file_type READ_WRITE).rename
            pathFor os fs new_id new_type).2.2) := rfl
    rw [e, rename_fs_congr pathFor os h _ fs new_id new_type hold
      ((flushed_not_open os _ fs rfl).trans hfl.symm)]

/-- Witness for C27: on a cache that holds only entry 1, the absent entry 2
is renamed to entry 1. -/
theorem rename_absent_source_deletes_destination_witness :
    (demoFS (LLFileSystem.construct demoPathFor 2 0 READ_WRITE).mFilePath = none ∧
      demoFS (demoPathFor 1 0) = some (Node.file [10, 20, 30, 40] 0)) ∧
    ((LLFileSystem.construct demoPathFor 2 0 READ_WRITE).rename demoPathFor (demoOs 100) demoFS 1 0).2.2
      "cache/other" = none ∧
    ((LLFileSystem.construct demoPathFor 2 0 READ_WRITE).rename demoPathFor (demoOs 100) demoFS 1 0).2.2
      "cache/1" = none ∧
    LLFileSystem.getExists demoPathFor
      ((LLFileSystem.construct demoPathFor 2 0 READ_WRITE).rename demoPathFor (demoOs 100) demoFS 1 0).2.2
      1 0 = false ∧
    LLFileSystem.renameFile demoPathFor (demoOs 100) demoFS 2 0 1 0
      = (true, ((LLFileSystem.construct demoPathFor 2 0 READ_WRITE).rename demoPathFor
          (demoOs 100) demoFS 1 0).2.2) :=
  ⟨⟨rfl, rfl⟩,
    (rename_absent_source_deletes_destination demoPathFor (demoOs 100)
      (LLFileSystem.construct demoPathFor 2 0 READ_WRITE) demoFS 1 0 [10, 20, 30, 40] 0
      rfl rfl).2.2.2.1,
    (rename_absent_source_deletes_destination demoPathFor (demoOs 100)
      (LLFileSystem.construct demoPathFor 2 0 READ_WRITE) demoFS 1 0 [10, 20, 30, 40] 0
      rfl rfl).2.2.2.2.1,
    (rename_absent_source_deletes_destination demoPathFor (demoOs 100)
      (LLFileSystem.construct demoPathFor 2 0 READ_WRITE) demoFS 1 0 [10, 20, 30, 40] 0
      rfl rfl).2.2.2.2.2.2.1,
    (rename_absent_source_deletes_destination demoPathFor (demoOs 100)
      (LLFileSystem.construct demoPathFor 2 0 READ_WRITE) demoFS 1 0 [10, 20, 30, 40] 0
      rfl rfl).2.2.2.2.2.2.2.2 2 0 rfl⟩


/-! ## Append mode and reads -/

/-- C28: a handle opened in Append mode cannot read.  With `READ = 1` and
`APPEND = 6`, `open()` in Append mode is one `fopen` with `a+b` (append plus
read), yet `mMode & READ` is 0, so every `read`, whatever the buffer and the
byte count, returns false at the mode guard and leaves the cursor,
`getLastBytesRead()`, the buffer and the filesystem, the file's modification
time included, as they were.  Of the four modes exactly Read and ReadWrite
have the `READ` bit. -/
theorem append_mode_cannot_read (os : Os) (h : LLFileSystem) (fs : FS)
    (hm : h.mMode = APPEND) :
    (READ = 1 ∧ APPEND = 6) ∧
    h.open_ os fs =
      (match (fopen os fs h.mFilePath FMode.aPlusB).1 with
      | some st => (true, { h with mFile := some st, mPosition := wrapS32 (ftell st) },
          (fopen os fs h.mFilePath FMode.aPlusB).2)
      | none => (false, { h with mFile := none }, (fopen os fs h.mFilePath FMode.aPlusB).2)) ∧
    (h.open_ os fs).2.1.mMode = APPEND ∧
    Int.land (h.open_ os fs).2.1.mMode READ = 0 ∧
    (∀ (os1 : Os) (fs1 : FS) (buffer : List U8) (bytes : Int),
      (h.open_ os fs).2.1.read os1 fs1 buffer bytes
        = (false, (h.open_ os fs).2.1, fs1, buffer) ∧
      ((h.open_ os fs).2.1.read os1 fs1 buffer bytes).2.1.tell = (h.open_ os fs).2.1.tell ∧
      ((h.open_ os fs).2.1.read os1 fs1 buffer bytes).2.1.getLastBytesRead
        = (h.open_ os fs).2.1.getLastBytesRead ∧
      lastWriteTime ((h.open_ os fs).2.1.read os1 fs1 buffer bytes).2.2.1 h.mFilePath
        = lastWriteTime fs1 h.mFilePath ∧
      h.read os1 fs1 buffer bytes = (false, h, fs1, buffer)) ∧
    (∀ mode : Int, mode = READ ∨ mode = WRITE ∨ mode = READ_WRITE ∨ mode = APPEND →
      (Int.land mode READ ≠ 0 ↔ mode = READ ∨ mode = READ_WRITE)) := by
  have hmo : (h.open_ os fs).2.1.mMode = APPEND := (open_mode os h fs).trans hm
  have hland : Int.land (h.open_ os fs).2.1.mMode READ = 0 := by
    rw [hmo]
    decide
  have hland0 : Int.land h.mMode READ = 0 := by
    rw [hm]
    decide
  refine ⟨⟨rfl, rfl⟩, open_append_mode os h fs hm, hmo, hland, ?_, ?_⟩
  · intro os1 fs1 buffer bytes
    have e := read_rejected os1 (h.open_ os fs).2.1 fs1 buffer bytes (Or.inr hland)
    refine ⟨e, ?_, ?_, ?_, read_rejected os1 h fs1 buffer bytes (Or.inr hland0)⟩
    · rw [e]
    · rw [e]
    · rw [e]
  · intro mode hmode
    rcases hmode with hx | hx | hx | hx <;> subst hx <;> decide

/-- Witness for C28: the four-byte entry opened in Append mode; `open()`
succeeds and a read of two bytes is rejected. -/
theorem append_mode_cannot_read_witness :
    (demoHandle APPEND).mMode = APPEND ∧
    ((demoHandle APPEND).open_ ⟨7200, 4096, true, 4096, true⟩ demoFS).1 = true ∧
    ((demoHandle APPEND).open_ ⟨7200, 4096, true, 4096, true⟩ demoFS).2.1.read ⟨7200, 4096, true, 4096, true⟩
        demoFS [0, 0] 2
      = (false, ((demoHandle APPEND).open_ ⟨7200, 4096, true, 4096, true⟩ demoFS).2.1, demoFS, [0, 0]) :=
  ⟨rfl, by decide,
    ((append_mode_cannot_read ⟨7200, 4096, true, 4096, true⟩ (demoHandle APPEND) demoFS rfl).2.2.2.2.1
      ⟨7200, 4096, true, 4096, true⟩ demoFS [0, 0] 2).1⟩

/-! ## seek on any handle -/

/-- C29: `seek` does not depend on the handle being open or on its mode.
The return value and the resulting cursor are the same for any two handles
with the same cursor whose entries have the same size as `getSize()` reports
it; `seek` changes nothing but the cursor; on a closed or never-opened handle
a `seek` to a position inside the file (as `close()` left it) still moves the
cursor; and when the
entry's file is absent (size 0) every `seek` leaves the cursor at 0 and
returns true exactly when the target, `origin + offset` with the cursor for
`origin == -1`, is 0. -/
theorem seek_ignores_open_state (h : LLFileSystem) (fs : FS) (offset origin : Int) :
    (∀ (h1 : LLFileSystem) (fs1 : FS), h1.tell = h.tell → h1.getSize fs1 = h.getSize fs →
      (h1.seek fs1 offset origin).1 = (h.seek fs offset origin).1 ∧
      (h1.seek fs1 offset origin).2.tell = (h.seek fs offset origin).2.tell) ∧
    (∀ (mode : Int) (st : Option Stream),
      (LLFileSystem.seek { h with mMode := mode, mFile := st } fs offset origin).1
        = (h.seek fs offset origin).1 ∧
      (LLFileSystem.seek { h with mMode := mode, mFile := st } fs offset origin).2.tell
        = (h.seek fs offset origin).2.tell) ∧
    (h.seek fs offset origin).2 = { h with mPosition := (h.seek fs offset origin).2.tell } ∧
    ((∀ (os : Os) (k : Int), 0 ≤ k → k ≤ (h.close os fs).1.getSize (h.close os fs).2 →
        (h.close os fs).1.seek (h.close os fs).2 k 0
          = (true, { (h.close os fs).1 with mPosition := k })) ∧
      (∀ k : Int, 0 ≤ k → k ≤ h.getSize fs → h.mFile = none →
        h.seek fs k 0 = (true, { h with mPosition := k }))) ∧
    (stat fs h.mFilePath = none →
      h.getSize fs = 0 ∧
      (h.seek fs offset origin).2.tell = 0 ∧
      ((h.seek fs offset origin).1 = true ↔
        wrapS32 ((if origin = -1 then h.tell else origin) + offset) = 0) ∧
      (inS32 ((if origin = -1 then h.tell else origin) + offset) →
        ((h.seek fs offset origin).1 = true ↔
          (if origin = -1 then h.tell else origin) + offset = 0))) := by
  have hfun : ∀ (h1 : LLFileSystem) (fs1 : FS), h1.mPosition = h.mPosition →
      h1.getSize fs1 = h.getSize fs →
      (h1.seek fs1 offset origin).1 = (h.seek fs offset origin).1 ∧
      (h1.seek fs1 offset origin).2.mPosition = (h.seek fs offset origin).2.mPosition := by
    intro h1 fs1 hc hs
    unfold LLFileSystem.seek
    dsimp only
    rw [hc, hs]
    split_ifs <;> exact ⟨rfl, rfl⟩
  refine ⟨hfun, fun mode st => hfun _ fs rfl rfl, ?_, ?_, ?_⟩
  · unfold LLFileSystem.seek LLFileSystem.tell
    dsimp only
    split_ifs <;> rfl
  · exact ⟨fun os k hk0 hk => seek_absolute _ _ k hk0 hk,
      fun k hk0 hk _ => seek_absolute h fs k hk0 hk⟩
  · intro hstat
    have hsize : h.getSize fs = 0 := by
      unfold LLFileSystem.getSize
      rw [hstat]
    obtain ⟨hcur, hret⟩ := seek_size_zero h fs offset origin hsize
    refine ⟨hsize, ?_, hret, ?_⟩
    · rw [hcur]
      rfl
    · intro h32
      have hw : wrapS32 ((if origin = -1 then h.mPosition else origin) + offset)
          = (if origin = -1 then h.mPosition else origin) + offset := wrapS32_of_inS32 h32
      exact hw ▸ hret

/-- Witness for C29: on the four-byte entry a `seek` on the handle that was
never opened moves the cursor to 2; on an empty cache `seek(0, 0)` succeeds
and `seek(1, 0)` fails, both with the cursor at 0. -/
theorem seek_ignores_open_state_witness :
    ((0 : Int) ≤ 2 ∧ 2 ≤ (demoHandle READ).getSize demoFS ∧ (demoHandle READ).mFile = none ∧
      stat emptyFS (demoHandle READ).mFilePath = none) ∧
    (demoHandle READ).seek demoFS 2 0 = (true, { demoHandle READ with mPosition := 2 }) ∧
    ((demoHandle READ).seek emptyFS 1 0).2.tell = 0 ∧
    ((demoHandle READ).seek emptyFS 0 0).1 = true ∧
    ((demoHandle READ).seek emptyFS 1 0).1 = false :=
  ⟨⟨by decide, by decide, rfl, rfl⟩,
    (seek_ignores_open_state (demoHandle READ) demoFS 0 0).2.2.2.1.2 2 (by decide)
      (by decide) rfl,
    ((seek_ignores_open_state (demoHandle READ) emptyFS 1 0).2.2.2.2 rfl).2.1,
    ((seek_ignores_open_state (demoHandle READ) emptyFS 0 0).2.2.2.2 rfl).2.2.1.mpr (by decide),
    by decide⟩

/-! ## getSize and eof -/

/-- C22: `eof()` and `getSize()` reflect the on-disk file.  `getSize()` is
the size the stat of the resolved path reports, as an `S32` (the size itself
below `2^31`), and 0 when the stat fails, whether or not the handle is open;
`eof()` is true exactly when `tell() >= getSize()`.  Hence `eof()` is true
when the entry's file is absent, on a handle just constructed, after any
`seek`, and for any cursor that is not negative, and it is true after
`seek(getSize(), 0)`. -/
theorem eof_and_getSize_reflect_disk (h : LLFileSystem) (fs : FS) :
    (∀ s : Stat, stat fs h.mFilePath = some s →
      h.getSize fs = wrapS32 s.size ∧ (s.size < 2147483648 → h.getSize fs = s.size)) ∧
    (∀ (d : List U8) (m : Int), fs h.mFilePath = some (Node.file d m) →
      d.length < 2147483648 → h.getSize fs = d.length) ∧
    (stat fs h.mFilePath = none → h.getSize fs = 0) ∧
    (∀ st : Option Stream, LLFileSystem.getSize { h with mFile := st } fs = h.getSize fs) ∧
    (∀ (os : Os) (fs1 : FS), (h.close os fs1).1.getSize fs = h.getSize fs) ∧
    (h.eof fs = true ↔ h.tell ≥ h.getSize fs) ∧
    (fs h.mFilePath = none →
      (0 ≤ h.tell → h.eof fs = true) ∧
      (∀ mode : Int,
        (LLFileSystem.construct (fun _ _ => h.mFilePath) h.mFileID h.mFileType mode).eof fs
          = true) ∧
      (∀ offset origin : Int, (h.seek fs offset origin).2.eof fs = true)) ∧
    (h.seek fs (h.getSize fs) 0).2.eof fs = true := by
  have hS := getSize_inS32 h fs
  have hsmall : ∀ n : Nat, n < 2147483648 → wrapS32 (n : Int) = (n : Int) := by
    intro n hn
    exact wrapS32_of_inS32 (by unfold inS32; omega)
  have habs : fs h.mFilePath = none → h.getSize fs = 0 := by
    intro hp
    unfold LLFileSystem.getSize stat
    rw [hp]
  refine ⟨?_, ?_, ?_, fun _ => rfl, fun os fs1 => by rw [close_handle]; rfl, ?_, ?_, ?_⟩
  · intro s hs
    have e : h.getSize fs = wrapS32 s.size := by
      unfold LLFileSystem.getSize
      rw [hs]
    exact ⟨e, fun hlt => e.trans (hsmall _ hlt)⟩
  · intro d m hp hlt
    rw [getSize_of_file h fs d m hp]
    exact hsmall _ hlt
  · intro hs
    unfold LLFileSystem.getSize
    rw [hs]
  · unfold LLFileSystem.eof LLFileSystem.tell
    exact decide_eq_true_iff
  · intro hp
    have h0 := habs hp
    refine ⟨?_, ?_, ?_⟩
    · intro hc
      unfold LLFileSystem.eof
      rw [h0]
      exact decide_eq_true hc
    · intro mode
      unfold LLFileSystem.eof
      have e : LLFileSystem.getSize
          (LLFileSystem.construct (fun _ _ => h.mFilePath) h.mFileID h.mFileType mode) fs
          = h.getSize fs := rfl
      rw [e, h0]
      rfl
    · intro offset origin
      rw [(seek_size_zero h fs offset origin h0).1]
      unfold LLFileSystem.eof
      have e : LLFileSystem.getSize { h with mPosition := 0 } fs = h.getSize fs := rfl
      rw [e, h0]
      rfl
  · unfold inS32 at hS
    by_cases hS0 : 0 ≤ h.getSize fs
    · rw [seek_absolute h fs _ hS0 (le_refl _)]
      unfold LLFileSystem.eof
      have e : LLFileSystem.getSize { h with mPosition := h.getSize fs } fs = h.getSize fs := rfl
      rw [e]
      exact decide_eq_true (le_refl _)
    · have hw : wrapS32 (0 + h.getSize fs) = h.getSize fs := by
        rw [zero_add]
        exact wrapS32_of_inS32 (by unfold inS32; omega)
      have hne : ¬ ((-1 : Int) = 0) := by decide
      have hseek : h.seek fs (h.getSize fs) 0 = (false, { h with mPosition := 0 }) := by
        unfold LLFileSystem.seek
        simp only [if_neg hne, hw]
        rw [if_neg (by omega), if_pos (by omega)]
      have hle : (0 : Int) ≥ h.getSize fs := by omega
      rw [hseek]
      exact decide_eq_true hle

/-- Witness for C22: the four-byte entry has size 4 on a handle that is not
open, an entry of an empty cache has size 0 and is at end of file. -/
theorem eof_and_getSize_reflect_disk_witness :
    (demoFS (demoHandle READ).mFilePath = some (Node.file [10, 20, 30, 40] 0) ∧
      ([10, 20, 30, 40] : List U8).length < 2147483648 ∧
      stat emptyFS (demoHandle READ).mFilePath = none ∧
      emptyFS (demoHandle READ).mFilePath = none ∧ 0 ≤ (demoHandle READ).tell) ∧
    (demoHandle READ).getSize demoFS = (([10, 20, 30, 40] : List U8).length : Int) ∧
    (demoHandle READ).getSize emptyFS = 0 ∧
    (demoHandle READ).eof emptyFS = true ∧
    ((demoHandle READ).seek demoFS ((demoHandle READ).getSize demoFS) 0).2.eof demoFS = true ∧
    (demoHandle READ).eof demoFS = false :=
  ⟨⟨rfl, by decide, rfl, rfl, by decide⟩,
    (eof_and_getSize_reflect_disk (demoHandle READ) demoFS).2.1 [10, 20, 30, 40] 0 rfl
      (by decide),
    (eof_and_getSize_reflect_disk (demoHandle READ) emptyFS).2.2.1 rfl,
    ((eof_and_getSize_reflect_disk (demoHandle READ) emptyFS).2.2.2.2.2.2.1 rfl).1 (by decide),
    (eof_and_getSize_reflect_disk (demoHandle READ) demoFS).2.2.2.2.2.2.2,
    by decide⟩

/-! ## Zero-length transfers -/

/-- A new stream has an empty buffer. -/
theorem fopen_clean (os : Os) (fs : FS) (p : Path) (fm : FMode) (st : Stream)
    (ho : (fopen os fs p fm).1 = some st) : st.pending = [] := by
  cases fm <;> unfold fopen at ho <;> dsimp only at ho <;> split at ho <;>
    first
    | (have e := (Option.some.inj ho).symm
       rw [e])
    | exact absurd ho (by simp)

/-- The call `fwrite` keeps the buffered bytes of a stream that is not an
append stream behind its position. -/
theorem fwrite_pending (os : Os) (fs : FS) (p : Path) (st : Stream) (src : List U8)
    (hinv : st.append = false → st.pending.length ≤ st.pos) :
    (fwrite os fs p st src).2.1.append = false →
    (fwrite os fs p st src).2.1.pending.length ≤ (fwrite os fs p st src).2.1.pos := by
  apply fwrite_cases os fs p st src
    (fun r => r.2.1.append = false → r.2.1.pending.length ≤ r.2.1.pos)
  · intro _
    exact hinv
  · intro _ _ ha
    have ha2 : st.append = false := ha
    have := hinv ha2
    show (st.pending ++ src).length ≤ (if st.append then _ else st.pos) + src.length
    rw [ha2, List.length_append]
    simp only [Bool.false_eq_true, if_false]
    omega
  · intro _ _ _ _ _
    exact Nat.zero_le _
  · intro _ _ _ _ _ _ _
    exact Nat.zero_le _
  · intro _ _ _ _
    exact Nat.zero_le _

/-- The method `write` keeps the buffered bytes of a stream that is not an
append stream behind its position. -/
theorem write_pending (os : Os) (h : LLFileSystem) (fs : FS) (buffer : List U8) (bytes : Int)
    (hinv : ∀ st, h.mFile = some st → st.append = false → st.pending.length ≤ st.pos) :
    ∀ st1, (h.write os fs buffer bytes).2.1.mFile = some st1 → st1.append = false →
      st1.pending.length ≤ st1.pos := by
  cases hf : h.mFile with
  | none =>
    rw [write_rejected os h fs buffer bytes (Or.inl hf)]
    exact hinv
  | some st =>
    by_cases hg : LLFileSystem.writeGuard h.mMode = true
    · rw [write_rejected os h fs buffer bytes (Or.inr hg)]
      exact hinv
    · have hg2 : LLFileSystem.writeGuard h.mMode = false := by
        cases hh : LLFileSystem.writeGuard h.mMode with
        | true => exact absurd hh hg
        | false => rfl
      by_cases hm : h.mMode = READ_WRITE
      · by_cases hc : 0 ≤ h.mPosition
        · rw [write_random os h fs buffer bytes st hf hm hc]
          intro st1 h1 ha
          have e := Option.some.inj h1
          rw [← e] at ha ⊢
          exact fwrite_pending os _ _ _ _ (fun _ => Nat.zero_le _) ha
        · rw [write_random_negative os h fs buffer bytes st hf hm (by omega)]
          intro st1 h1 _
          have e := Option.some.inj h1
          rw [← e]
          exact Nat.zero_le _
      · rw [write_sequential os h fs buffer bytes st hf hg2 hm]
        intro st1 h1 ha
        have e := Option.some.inj h1
        rw [← e] at ha ⊢
        exact fwrite_pending os _ _ _ _ (hinv st hf) ha

/-- The method `read` keeps the buffered bytes of a stream that is not an
append stream behind its position. -/
theorem read_pending (os : Os) (h : LLFileSystem) (fs : FS) (buffer : List U8) (bytes : Int)
    (hinv : ∀ st, h.mFile = some st → st.append = false → st.pending.length ≤ st.pos) :
    ∀ st1, (h.read os fs buffer bytes).2.1.mFile = some st1 → st1.append = false →
      st1.pending.length ≤ st1.pos := by
  cases hf : h.mFile with
  | none =>
    rw [read_rejected os h fs buffer bytes (Or.inl hf)]
    exact hinv
  | some st =>
    by_cases hg : Int.land h.mMode READ = 0
    · rw [read_rejected os h fs buffer bytes (Or.inr hg)]
      exact hinv
    · obtain ⟨_, _, ⟨st2, hst2, hclean, _⟩, _⟩ := read_frame os h fs buffer bytes st hf hg
      intro st1 h1 _
      rw [hst2] at h1
      rw [← Option.some.inj h1, hclean]
      exact Nat.zero_le _

/-- The method `open` keeps the buffered bytes of a stream that is not an
append stream behind its position. -/
theorem open_pending (os : Os) (h : LLFileSystem) (fs : FS)
    (hinv : ∀ st, h.mFile = some st → st.append = false → st.pending.length ≤ st.pos) :
    ∀ st1, (h.open_ os fs).2.1.mFile = some st1 → st1.append = false →
      st1.pending.length ≤ st1.pos := by
  have hr1 : ∀ st, (if h.mMode = READ then fopen os fs h.mFilePath FMode.rb
      else if h.mMode = WRITE then fopen os fs h.mFilePath FMode.wb
      else if h.mMode = READ_WRITE then fopen os fs h.mFilePath FMode.rPlusB
      else if h.mMode = APPEND then fopen os fs h.mFilePath FMode.aPlusB
      else (h.mFile, fs)).1 = some st → st.append = false → st.pending.length ≤ st.pos := by
    intro st hst ha
    split_ifs at hst with h1 h2 h3 h4
    · rw [fopen_clean os fs _ _ st hst]; exact Nat.zero_le _
    · rw [fopen_clean os fs _ _ st hst]; exact Nat.zero_le _
    · rw [fopen_clean os fs _ _ st hst]; exact Nat.zero_le _
    · rw [fopen_clean os fs _ _ st hst]; exact Nat.zero_le _
    · exact hinv st hst ha
  intro st hst ha
  unfold LLFileSystem.open_ at hst
  dsimp only at hst
  generalize hr1def : (if h.mMode = READ then fopen os fs h.mFilePath FMode.rb
    else if h.mMode = WRITE then fopen os fs h.mFilePath FMode.wb
    else if h.mMode = READ_WRITE then fopen os fs h.mFilePath FMode.rPlusB
    else if h.mMode = APPEND then fopen os fs h.mFilePath FMode.aPlusB
    else (h.mFile, fs)) = r1 at hst
  have hr1g : ∀ st, r1.1 = some st → st.append = false → st.pending.length ≤ st.pos := by
    rw [← hr1def]
    exact hr1
  split at hst
  · rename_i st0 heq
    have hst0 : st0 = st := Option.some.inj hst
    subst hst0
    by_cases hc : h.mMode = READ_WRITE ∧ r1.1 = none
    · rw [if_pos hc] at heq
      rw [fopen_clean os _ _ _ st0 heq]
      exact Nat.zero_le _
    · rw [if_neg hc] at heq
      exact hr1g st0 heq ha
  · exact absurd hst (by simp)

/-- One call keeps the buffered bytes of a stream that is not an append
stream behind its position. -/
theorem Call.run_pending (pathFor : LLUUID → EType → Path) (c : Call) (s : LLFileSystem × FS)
    (hinv : ∀ st, s.1.mFile = some st → st.append = false → st.pending.length ≤ st.pos) :
    ∀ st, (c.run pathFor s).1.mFile = some st → st.append = false →
      st.pending.length ≤ st.pos := by
  have closed : ∀ h1 : LLFileSystem, h1.mFile = none →
      ∀ st, h1.mFile = some st → st.append = false → st.pending.length ≤ st.pos := by
    intro h1 hf st hst
    rw [hf] at hst
    exact absurd hst (by simp)
  cases c with
  | open_ os => exact open_pending os s.1 s.2 hinv
  | close os => exact closed _ (close_identity os s.1 s.2).2.2.2.2.2.2
  | read os buffer bytes => exact read_pending os s.1 s.2 buffer bytes hinv
  | write os buffer bytes => exact write_pending os s.1 s.2 buffer bytes hinv
  | seek offset origin =>
    intro st hst
    have hf : (s.1.seek s.2 offset origin).2.mFile = s.1.mFile :=
      (seek_stream s.1 s.2 offset origin).2
    exact hinv st (by rw [← hf]; exact hst)
  | tell => exact hinv
  | getSize => exact hinv
  | eof => exact hinv
  | exists_ => exact hinv
  | rename os new_id new_type =>
    have e : (Call.run pathFor (Call.rename os new_id new_type) s).1
        = { s.1 with mFile := none, mFileID := new_id, mFileType := new_type,
                     mFilePath := pathFor new_id new_type } :=
      rename_handle pathFor os s.1 s.2 new_id new_type
    rw [e]
    exact closed _ rfl
  | remove os =>
    have e : (Call.run pathFor (Call.remove os) s).1 = { s.1 with mFile := none } :=
      remove_handle os s.1 s.2
    rw [e]
    exact closed _ rfl

/-- A sequence of calls keeps the buffered bytes of a stream that is not an
append stream behind its position. -/
theorem runCalls_pending (pathFor : LLUUID → EType → Path) :
    ∀ (calls : List Call) (s : LLFileSystem × FS),
      (∀ st, s.1.mFile = some st → st.append = false → st.pending.length ≤ st.pos) →
      ∀ st, (runCalls pathFor calls s).1.mFile = some st → st.append = false →
        st.pending.length ≤ st.pos := by
  intro calls
  induction calls with
  | nil => intro s hs; exact hs
  | cons c rest ih =>
    intro s hs
    exact ih (c.run pathFor s) (Call.run_pending pathFor c s hs)

/-- The file at a path is a regular file after a flush only if it was one
before. -/
theorem file_of_fflush (os : Os) (fs : FS) (p : Path) (st : Stream) (d : List U8) (m : Int)
    (hp : (fflush os fs p st).2 p = some (Node.file d m)) :
    ∃ (d0 : List U8) (m0 : Int), fs p = some (Node.file d0 m0) := by
  cases hq : fs p with
  | none =>
    rw [fflush_absent os fs p st hq, hq] at hp
    exact Option.noConfusion hp
  | some nd =>
    cases nd with
    | file d0 m0 => exact ⟨d0, m0, rfl⟩
    | dir m0 =>
      rw [fflush_no_file os fs p st
        (fun d1 m1 hh => by rw [hq] at hh; exact Node.noConfusion (Option.some.inj hh)),
        hq] at hp
      exact Node.noConfusion (Option.some.inj hp)

/-- A request that does not fit the buffer is written through: the count is
the number of bytes the volume takes. -/
theorem fwrite_direct_count (os : Os) (fs : FS) (p : Path) (st : Stream) (src : List U8)
    (hb : ¬ src.length ≤ os.bufferRoom) :
    (fwrite os fs p st src).1 = (src.take os.room).length := by
  apply fwrite_cases os fs p st src (fun r => r.1 = (src.take os.room).length)
  · intro hnil
    rw [hnil] at hb
    exact absurd (Nat.zero_le _) hb
  · intro _ hbuf
    exact absurd hbuf hb
  · intro _ _ hz _
    rw [hz]
    rfl
  · intro _ _ _ _ _ _
    rfl
  · intro _ _ _
    rfl

/-- A request that fits the buffer is taken in full. -/
theorem fwrite_buffered_count (os : Os) (fs : FS) (p : Path) (st : Stream) (src : List U8)
    (hb : src.length ≤ os.bufferRoom) :
    (fwrite os fs p st src).1 = src.length := by
  by_cases hne : src = []
  · rw [hne, fwrite_nil]
    rfl
  · rw [fwrite_buffered os fs p st src hne hb]

/-- C25: in Write and Append modes the cursor does not position writes.  The
handle is one reached from the constructor in Write or Append mode and is
open.  `write(B, n)` gives the same result whatever the cursor is, so also
after any `seek`; when the request is not empty and is taken in full, the
bytes go to the stream's own position in Write mode (where the previous write
ended) and to the end of the file in Append mode, as the file shows once the
stream is flushed, and `tell()` is then the position of the stream after the
write: that position, not the previous cursor plus `n`.  A write whose
`fwrite` transfers fewer than `n` bytes returns false, which happens when the
request does not fit the stream's buffer and the volume takes fewer bytes; a
request that fits the buffer is taken in full and the write returns true.
After every write that passes the open and mode guards, in any mode and
whatever it returns, `tell()` is what `ftell` reports (as an `S32`). -/
theorem sequential_write_ignores_cursor (pathFor : LLUUID → EType → Path) (file_id : LLUUID)
    (file_type : EType) (mode : Int) (fs0 : FS) (calls : List Call) (s : LLFileSystem × FS)
    (os : Os) (B : List U8) (n : Int) (st : Stream)
    (hmode : mode = WRITE ∨ mode = APPEND)
    (hs : s = runCalls pathFor calls
      (LLFileSystem.construct pathFor file_id file_type mode, fs0))
    (hopen : s.1.mFile = some st) :
    s.1.mMode = mode ∧
    (∀ c : Int,
      LLFileSystem.write os { s.1 with mPosition := c } s.2 B n = s.1.write os s.2 B n) ∧
    (∀ offset origin : Int,
      (s.1.seek s.2 offset origin).2.write os s.2 B n = s.1.write os s.2 B n) ∧
    (∀ (d : List U8) (m : Int), s.1.flushed os s.2 s.1.mFilePath = some (Node.file d m) →
      B.take (toSizeT n) ≠ [] → (B.take (toSizeT n)).length ≤ os.room →
      (mode = WRITE →
        (∀ os2 : Os,
          contents ((s.1.write os s.2 B n).2.1.flushed os2 (s.1.write os s.2 B n).2.2)
            s.1.mFilePath = some (splice d st.pos (B.take (toSizeT n)))) ∧
        (s.1.write os s.2 B n).2.1.tell
          = wrapS32 ((st.pos + (B.take (toSizeT n)).length : Nat) : Int)) ∧
      (mode = APPEND →
        (∀ os2 : Os,
          contents ((s.1.write os s.2 B n).2.1.flushed os2 (s.1.write os s.2 B n).2.2)
            s.1.mFilePath = some (d ++ B.take (toSizeT n))) ∧
        (s.1.write os s.2 B n).2.1.tell
          = wrapS32 ((d.length + (B.take (toSizeT n)).length : Nat) : Int))) ∧
    ((fwrite os s.2 s.1.mFilePath st (B.take (toSizeT n))).1 < toSizeT n →
      (s.1.write os s.2 B n).1 = false) ∧
    (¬ (B.take (toSizeT n)).length ≤ os.bufferRoom →
      ((B.take (toSizeT n)).take os.room).length < toSizeT n →
      (s.1.write os s.2 B n).1 = false) ∧
    (toSizeT n ≤ B.length → toSizeT n ≤ os.bufferRoom → (s.1.write os s.2 B n).1 = true) ∧
    (∀ (h1 : LLFileSystem) (fs1 : FS) (st1 : Stream), h1.mFile = some st1 →
      LLFileSystem.writeGuard h1.mMode = false →
      ∃ st2, (h1.write os fs1 B n).2.1.mFile = some st2 ∧
        (h1.write os fs1 B n).2.1.tell = wrapS32 (ftell st2) ∧
        (ftell st2 < 2147483648 → (h1.write os fs1 B n).2.1.tell = ftell st2)) := by
  have hreach := sequential_stream pathFor file_id file_type mode fs0 calls st
    (by rw [← hs]; exact hopen)
  have hpend : st.append = false → st.pending.length ≤ st.pos :=
    runCalls_pending pathFor calls
      (LLFileSystem.construct pathFor file_id file_type mode, fs0)
      (fun st0 h0 => absurd h0 (by simp [LLFileSystem.construct])) st
      (by rw [← hs]; exact hopen)
  have hm : s.1.mMode = mode := by
    rw [hs]
    exact hreach.1
  have hg : LLFileSystem.writeGuard s.1.mMode = false := by
    rw [hm]
    rcases hmode with hx | hx <;> subst hx <;> decide
  have hnrw : s.1.mMode ≠ READ_WRITE := by
    rw [hm]
    rcases hmode with hx | hx <;> subst hx <;> decide
  have hcur := write_sequential_cursor os s.1 s.2 B n st hopen hg hnrw
  have hwr := write_sequential os s.1 s.2 B n st hopen hg hnrw
  have hfl : ∀ os2 : Os, (s.1.write os s.2 B n).2.1.flushed os2 (s.1.write os s.2 B n).2.2
      = (fflush os2 (fwrite os s.2 s.1.mFilePath st (B.take (toSizeT n))).2.2 s.1.mFilePath
          (fwrite os s.2 s.1.mFilePath st (B.take (toSizeT n))).2.1).2 := by
    intro os2
    rw [hwr]
    exact flushed_open os2 _ _ _ rfl
  have htell : (s.1.write os s.2 B n).2.1.tell
      = wrapS32 (((fwrite os s.2 s.1.mFilePath st (B.take (toSizeT n))).2.1.pos : Nat) : Int) := by
    rw [hwr]
    rfl
  have hlen : (B.take (toSizeT n)).length ≤ toSizeT n := by
    rw [List.length_take]
    exact Nat.min_le_left _ _
  refine ⟨hm, hcur, ?_, ?_, ?_, ?_, ?_, ?_⟩
  · intro offset origin
    rw [seek_frame s.1 s.2 offset origin]
    exact hcur _
  · intro d m hfile hne hroom
    rw [flushed_open os s.1 s.2 st hopen] at hfile
    obtain ⟨d0, m0, hp⟩ := file_of_fflush os s.2 _ st d m hfile
    have hd := contents_of_file _ _ d m hfile
    constructor
    · intro hW
      have ha : st.append = false := hreach.2.1 hW
      have hseen := fun os2 => fwrite_seen os os os2 s.2 s.1.mFilePath st
        (B.take (toSizeT n)) d0 m0 hp ha (hpend ha) hroom hne
      refine ⟨?_, ?_⟩
      · intro os2
        obtain ⟨_, _, _, d1, hd1, hc, _, _⟩ := hseen os2
        rw [hd] at hd1
        rw [hfl os2, hc, ← Option.some.inj hd1]
      · rw [htell, (hseen os).2.1]
    · intro hA
      have ha : st.append = true := hreach.2.2 hA
      have hseen := fun os2 => fwrite_seen_append os os os2 s.2 s.1.mFilePath st
        (B.take (toSizeT n)) d0 m0 hp ha hroom hne
      refine ⟨?_, ?_⟩
      · intro os2
        obtain ⟨_, d1, hd1, _, hc, _, _⟩ := hseen os2
        rw [hd] at hd1
        rw [hfl os2, hc, ← Option.some.inj hd1]
      · obtain ⟨_, d1, hd1, hpos, _, _, _⟩ := hseen os
        rw [hd] at hd1
        rw [htell, hpos, ← Option.some.inj hd1]
  · intro hlt
    rw [hwr]
    exact decide_eq_false (by omega)
  · intro hb hlt
    rw [hwr, fwrite_direct_count os _ _ _ _ hb]
    exact decide_eq_false (by omega)
  · intro hB hb
    have hl : (B.take (toSizeT n)).length = toSizeT n := by
      rw [List.length_take]
      exact Nat.min_eq_left hB
    rw [hwr, fwrite_buffered_count os _ _ _ _ (by rw [hl]; exact hb), hl]
    exact decide_eq_true rfl
  · intro h1 fs1 st1 hopen1 hg1
    obtain ⟨st2, hf2, hp2⟩ := write_tell os h1 fs1 B n st1 hopen1 hg1
    refine ⟨st2, hf2, hp2, ?_⟩
    intro hlt
    have h0 : (0 : Int) ≤ ftell st2 := by
      unfold ftell
      exact Int.ofNat_nonneg _
    exact hp2.trans (wrapS32_of_inS32 (by unfold inS32; omega))

/-- Witness for C25.  Write mode: entry 1 is opened (and truncated), two bytes
are written, `seek(0, 0)` puts the cursor at 0, and a write of one byte lands
after the first two, with `tell()` at 3, not at 0 + 1.  Append mode: the
four-byte entry is opened and `seek(1, 0)` puts the cursor at 1; a write of
two bytes that goes through the buffer returns true and leaves `tell()` at 6
although the volume has room for one byte only, and the same write sent to
the volume at once transfers one byte, returns false and leaves `tell()` at
5. -/
theorem sequential_write_ignores_cursor_witness :
    ((runCalls demoPathFor
        [Call.open_ (demoOs 40), Call.write (demoOs 41) [1, 2] 2, Call.seek 0 0]
        (LLFileSystem.construct demoPathFor 1 0 WRITE, demoFS)).1.mFile
        = some ⟨false, 2, [1, 2]⟩ ∧
      LLFileSystem.flushed (demoOs 50) (runCalls demoPathFor
        [Call.open_ (demoOs 40), Call.write (demoOs 41) [1, 2] 2, Call.seek 0 0]
        (LLFileSystem.construct demoPathFor 1 0 WRITE, demoFS)).1 (runCalls demoPathFor
        [Call.open_ (demoOs 40), Call.write (demoOs 41) [1, 2] 2, Call.seek 0 0]
        (LLFileSystem.construct demoPathFor 1 0 WRITE, demoFS)).2 "cache/1"
        = some (Node.file [1, 2] 50) ∧
      (runCalls demoPathFor
        [Call.open_ (demoOs 40), Call.write (demoOs 41) [1, 2] 2, Call.seek 0 0]
        (LLFileSystem.construct demoPathFor 1 0 WRITE, demoFS)).1.tell = 0 ∧
      (runCalls demoPathFor [Call.open_ ⟨40, 4096, true, 4096, true⟩, Call.seek 1 0]
        (LLFileSystem.construct demoPathFor 1 0 APPEND, demoFS)).1.mFile
        = some ⟨true, 4, []⟩ ∧
      (runCalls demoPathFor [Call.open_ ⟨40, 4096, true, 4096, true⟩, Call.seek 1 0]
        (LLFileSystem.construct demoPathFor 1 0 APPEND, demoFS)).1.tell = 1 ∧
      (Os.mk 50 1 false 4096 true).room = 1 ∧ (directOs 50 1).room = 1) ∧
    (contents (LLFileSystem.flushed (demoOs 60)
      ((runCalls demoPathFor
        [Call.open_ (demoOs 40), Call.write (demoOs 41) [1, 2] 2, Call.seek 0 0]
        (LLFileSystem.construct demoPathFor 1 0 WRITE, demoFS)).1.write (demoOs 50)
      (runCalls demoPathFor
        [Call.open_ (demoOs 40), Call.write (demoOs 41) [1, 2] 2, Call.seek 0 0]
        (LLFileSystem.construct demoPathFor 1 0 WRITE, demoFS)).2 [3] 1).2.1
      ((runCalls demoPathFor
        [Call.open_ (demoOs 40), Call.write (demoOs 41) [1, 2] 2, Call.seek 0 0]
        (LLFileSystem.construct demoPathFor 1 0 WRITE, demoFS)).1.write (demoOs 50)
      (runCalls demoPathFor
        [Call.open_ (demoOs 40), Call.write (demoOs 41) [1, 2] 2, Call.seek 0 0]
        (LLFileSystem.construct demoPathFor 1 0 WRITE, demoFS)).2 [3] 1).2.2) "cache/1"
      = some (splice [1, 2] 2 [3]) ∧
    splice [1, 2] 2 [3] = ([1, 2, 3] : List U8) ∧
    ((runCalls demoPathFor
        [Call.open_ (demoOs 40), Call.write (demoOs 41) [1, 2] 2, Call.seek 0 0]
        (LLFileSystem.construct demoPathFor 1 0 WRITE, demoFS)).1.write (demoOs 50)
      (runCalls demoPathFor
        [Call.open_ (demoOs 40), Call.write (demoOs 41) [1, 2] 2, Call.seek 0 0]
        (LLFileSystem.construct demoPathFor 1 0 WRITE, demoFS)).2 [3] 1).2.1.tell = 3) ∧
    (((runCalls demoPathFor [Call.open_ ⟨40, 4096, true, 4096, true⟩, Call.seek 1 0]
        (LLFileSystem.construct demoPathFor 1 0 APPEND, demoFS)).1.write
          ⟨50, 1, false, 4096, true⟩
      (runCalls demoPathFor [Call.open_ ⟨40, 4096, true, 4096, true⟩, Call.seek 1 0]
        (LLFileSystem.construct demoPathFor 1 0 APPEND, demoFS)).2 [7, 8] 2).1 = true ∧
    ((runCalls demoPathFor [Call.open_ ⟨40, 4096, true, 4096, true⟩, Call.seek 1 0]
        (LLFileSystem.construct demoPathFor 1 0 APPEND, demoFS)).1.write
          ⟨50, 1, false, 4096, true⟩
      (runCalls demoPathFor [Call.open_ ⟨40, 4096, true, 4096, true⟩, Call.seek 1 0]
        (LLFileSystem.construct demoPathFor 1 0 APPEND, demoFS)).2 [7, 8] 2).2.1.tell = 6 ∧
    ((runCalls demoPathFor [Call.open_ ⟨40, 4096, true, 4096, true⟩, Call.seek 1 0]
        (LLFileSystem.construct demoPathFor 1 0 APPEND, demoFS)).1.write (directOs 50 1)
      (runCalls demoPathFor [Call.open_ ⟨40, 4096, true, 4096, true⟩, Call.seek 1 0]
        (LLFileSystem.construct demoPathFor 1 0 APPEND, demoFS)).2 [7, 8] 2).1 = false ∧
    ((runCalls demoPathFor [Call.open_ ⟨40, 4096, true, 4096, true⟩, Call.seek 1 0]
        (LLFileSystem.construct demoPathFor 1 0 APPEND, demoFS)).1.write (directOs 50 1)
      (runCalls demoPathFor [Call.open_ ⟨40, 4096, true, 4096, true⟩, Call.seek 1 0]
        (LLFileSystem.construct demoPathFor 1 0 APPEND, demoFS)).2 [7, 8] 2).2.1.tell = 5 ∧
    contents ((runCalls demoPathFor [Call.open_ ⟨40, 4096, true, 4096, true⟩, Call.seek 1 0]
        (LLFileSystem.construct demoPathFor 1 0 APPEND, demoFS)).1.write (directOs 50 1)
      (runCalls demoPathFor [Call.open_ ⟨40, 4096, true, 4096, true⟩, Call.seek 1 0]
        (LLFileSystem.construct demoPathFor 1 0 APPEND, demoFS)).2 [7, 8] 2).2.2 "cache/1"
      = some [10, 20, 30, 40, 7]) := by
  have w1 := sequential_write_ignores_cursor demoPathFor 1 0 WRITE demoFS
    [Call.open_ (demoOs 40), Call.write (demoOs 41) [1, 2] 2, Call.seek 0 0] _
    (demoOs 50) [3] 1 ⟨false, 2, [1, 2]⟩ (Or.inl rfl) rfl (by decide)
  have w2 := sequential_write_ignores_cursor demoPathFor 1 0 APPEND demoFS
    [Call.open_ ⟨40, 4096, true, 4096, true⟩, Call.seek 1 0] _
    ⟨50, 1, false, 4096, true⟩ [7, 8] 2 ⟨true, 4, []⟩ (Or.inr rfl) rfl (by decide)
  have w3 := sequential_write_ignores_cursor demoPathFor 1 0 APPEND demoFS
    [Call.open_ ⟨40, 4096, true, 4096, true⟩, Call.seek 1 0] _
    (directOs 50 1) [7, 8] 2 ⟨true, 4, []⟩ (Or.inr rfl) rfl (by decide)
  have p1 := (w1.2.2.2.1 [1, 2] 50 (by decide) (by decide) (by decide)).1 rfl
  exact ⟨⟨by decide, by decide, by decide, by decide, by decide, rfl, rfl⟩,
    ⟨p1.1 (demoOs 60), by decide, p1.2⟩,
    ⟨w2.2.2.2.2.2.2.1 (by decide) (by decide), by decide,
      w3.2.2.2.2.2.1 (by decide) (by decide), by decide, by decide⟩⟩

/-! ## getLastBytesRead -/

/-- C21, as stated, fails: a rejected `read` does not reset the count.  The
four-byte entry is opened in Read mode and a read of two bytes succeeds with
`getLastBytesRead() == 2`.  After `close()` a second read is rejected at the
first guard: it returns false and transfers nothing (the buffer is as it
was), and `getLastBytesRead()` is still 2, not 0. -/
theorem rejected_read_keeps_last_count :
    (let o := (demoHandle READ).open_ (demoOs 100) demoFS
     let r := o.2.1.read (demoOs 100) o.2.2 [0, 0] 2
     let c := r.2.1.close (demoOs 100) r.2.2.1
     let r2 := c.1.read (demoOs 101) c.2 [0, 0] 2
     o.1 = true ∧ r.1 = true ∧ r.2.2.2 = [10, 20] ∧ r.2.1.getLastBytesRead = 2 ∧
     c.1.mFile = none ∧ r2.1 = false ∧ r2.2.2.2 = [0, 0] ∧
     r2.2.1.getLastBytesRead = 2 ∧ r2.2.1.getLastBytesRead ≠ 0) := by
  decide

/-- C21, amended: `getLastBytesRead()` reports the most recent `read` that
reached the transfer.  After a `read` that passes both guards and whose seek
succeeds (the cursor is not negative), `getLastBytesRead()` is the number of
bytes that call put into the buffer (as an `S32`), which on a regular file and
for a byte count `bytes >= 0` is the length of what the file holds in
`[cursor, cursor + bytes)`, and 0 when nothing is transferred; the file is
read as the seek left it, with the bytes the stream still held written to
it.  A `read` that is rejected (handle not open, or mode without read
capability) or whose seek fails returns false, transfers nothing and leaves
`getLastBytesRead()` at its previous value, which is 0 on a handle just
constructed. -/
theorem getLastBytesRead_reports_last_transfer (os : Os) (h : LLFileSystem) (fs : FS)
    (buffer : List U8) (bytes : Int) :
    (∀ st : Stream, h.mFile = some st → Int.land h.mMode READ ≠ 0 → 0 ≤ h.tell →
      (h.read os fs buffer bytes).2.2.2
        = (fread (h.flushed os fs) h.mFilePath
            { st with pos := h.tell.toNat, pending := [] } (toSizeT bytes)).1
          ++ buffer.drop
            (fread (h.flushed os fs) h.mFilePath
              { st with pos := h.tell.toNat, pending := [] } (toSizeT bytes)).1.length ∧
      (h.read os fs buffer bytes).2.1.getLastBytesRead
        = wrapS32 (fread (h.flushed os fs) h.mFilePath
            { st with pos := h.tell.toNat, pending := [] } (toSizeT bytes)).1.length ∧
      ((fread (h.flushed os fs) h.mFilePath
            { st with pos := h.tell.toNat, pending := [] } (toSizeT bytes)).1.length
          < 2147483648 →
        (h.read os fs buffer bytes).2.1.getLastBytesRead
          = (fread (h.flushed os fs) h.mFilePath
              { st with pos := h.tell.toNat, pending := [] } (toSizeT bytes)).1.length) ∧
      (∀ (data : List U8) (m : Int), h.flushed os fs h.mFilePath = some (Node.file data m) →
        0 ≤ bytes → inS32 bytes →
        (h.read os fs buffer bytes).2.2.2
          = (data.drop h.tell.toNat).take bytes.toNat
            ++ buffer.drop ((data.drop h.tell.toNat).take bytes.toNat).length ∧
        (h.read os fs buffer bytes).2.1.getLastBytesRead
          = ((data.drop h.tell.toNat).take bytes.toNat).length)) ∧
    (h.mFile = none ∨ Int.land h.mMode READ = 0 →
      (h.read os fs buffer bytes).1 = false ∧
      (h.read os fs buffer bytes).2.2.2 = buffer ∧
      (h.read os fs buffer bytes).2.1.getLastBytesRead = h.getLastBytesRead) ∧
    (∀ st : Stream, h.mFile = some st → Int.land h.mMode READ ≠ 0 → h.tell < 0 →
      (fseek os fs h.mFilePath st h.tell).1 = false ∧
      (h.read os fs buffer bytes).1 = false ∧
      (h.read os fs buffer bytes).2.2.2 = buffer ∧
      (h.read os fs buffer bytes).2.1.getLastBytesRead = h.getLastBytesRead) ∧
    (∀ (pathFor : LLUUID → EType → Path) (file_id : LLUUID) (file_type : EType) (mode : Int),
      (LLFileSystem.construct pathFor file_id file_type mode).getLastBytesRead = 0) := by
  unfold LLFileSystem.tell
  refine ⟨?_, ?_, ?_, fun _ _ _ _ => rfl⟩
  · intro st hopen hmode hc0
    have e := read_of_open os h fs buffer bytes st hopen hmode
    rw [if_neg (by omega), ← flushed_open os h fs st hopen] at e
    have hcount : (h.read os fs buffer bytes).2.1.getLastBytesRead
        = wrapS32 (fread (h.flushed os fs) h.mFilePath
            { st with pos := h.mPosition.toNat, pending := [] } (toSizeT bytes)).1.length := by
      rw [e]
      rfl
    have hbuf : (h.read os fs buffer bytes).2.2.2
        = (fread (h.flushed os fs) h.mFilePath
            { st with pos := h.mPosition.toNat, pending := [] } (toSizeT bytes)).1
          ++ buffer.drop
            (fread (h.flushed os fs) h.mFilePath
              { st with pos := h.mPosition.toNat, pending := [] } (toSizeT bytes)).1.length := by
      rw [e]
    refine ⟨hbuf, hcount, ?_, ?_⟩
    · intro hlt
      exact hcount.trans (wrapS32_of_inS32 (by unfold inS32; omega))
    · intro data m hfile hb0 hb
      have hsz : toSizeT bytes = bytes.toNat := toSizeT_of_nonneg hb0 hb
      have hfr : (fread (h.flushed os fs) h.mFilePath
          { st with pos := h.mPosition.toNat, pending := [] } (toSizeT bytes)).1
          = (data.drop h.mPosition.toNat).take bytes.toNat := by
        unfold fread
        rw [hfile, hsz]
      have hlen : ((data.drop h.mPosition.toNat).take bytes.toNat).length ≤ bytes.toNat :=
        List.length_take_le _ _
      unfold inS32 at hb
      refine ⟨?_, ?_⟩
      · rw [hbuf, hfr]
      · rw [hcount, hfr]
        exact wrapS32_of_inS32 (by unfold inS32; omega)
  · intro hrej
    rw [read_rejected os h fs buffer bytes hrej]
    exact ⟨rfl, rfl, rfl⟩
  · intro st hopen hmode hneg
    have hseek : (fseek os fs h.mFilePath st h.mPosition).1 = false := by
      rw [fseek_negative os fs _ st _ hneg]
    have e := read_of_open os h fs buffer bytes st hopen hmode
    rw [if_pos hneg] at e
    rw [e]
    exact ⟨hseek, rfl, rfl, rfl⟩

/-- Witness for the amended C21: on the four-byte entry a read of two bytes
sets the count to 2, and the read after `close()` leaves it at 2. -/
theorem getLastBytesRead_reports_last_transfer_witness :
    ((demoOpen READ).mFile = some ⟨false, 0, []⟩ ∧ Int.land (demoOpen READ).mMode READ ≠ 0 ∧
      0 ≤ (demoOpen READ).tell ∧
      (demoOpen READ).flushed (demoOs 100) demoFS (demoOpen READ).mFilePath
        = some (Node.file [10, 20, 30, 40] 0) ∧
      (0 : Int) ≤ 2 ∧ inS32 2 ∧
      (runCalls demoPathFor [Call.open_ (demoOs 100),
        Call.read (demoOs 100) [0, 0] 2, Call.close (demoOs 100)]
        (demoHandle READ, demoFS)).1.mFile = none ∧
      (runCalls demoPathFor [Call.open_ (demoOs 100),
        Call.read (demoOs 100) [0, 0] 2, Call.close (demoOs 100)]
        (demoHandle READ, demoFS)).1.getLastBytesRead = 2) ∧
    ((demoOpen READ).read (demoOs 100) demoFS [0, 0] 2).2.1.getLastBytesRead
      = ((([10, 20, 30, 40] : List U8).drop (demoOpen READ).tell.toNat).take
          (2 : Int).toNat).length ∧
    ((runCalls demoPathFor [Call.open_ (demoOs 100),
        Call.read (demoOs 100) [0, 0] 2, Call.close (demoOs 100)]
        (demoHandle READ, demoFS)).1.read (demoOs 101) demoFS [0, 0]
        2).2.1.getLastBytesRead
      = (runCalls demoPathFor [Call.open_ (demoOs 100),
        Call.read (demoOs 100) [0, 0] 2, Call.close (demoOs 100)]
        (demoHandle READ, demoFS)).1.getLastBytesRead :=
  ⟨⟨rfl, by decide, by decide, rfl, by decide, by decide, by decide, by decide⟩,
    (((getLastBytesRead_reports_last_transfer (demoOs 100) (demoOpen READ) demoFS [0, 0]
      2).1 ⟨false, 0, []⟩ rfl (by decide) (by decide)).2.2.2 [10, 20, 30, 40] 0 rfl (by decide)
      (by decide)).2,
    ((getLastBytesRead_reports_last_transfer (demoOs 101)
      (runCalls demoPathFor [Call.open_ (demoOs 100),
        Call.read (demoOs 100) [0, 0] 2, Call.close (demoOs 100)]
        (demoHandle READ, demoFS)).1 demoFS [0, 0] 2).2.1 (Or.inl (by decide))).2.2⟩

end Alchemy
